import Mathlib

/-!
# alloctracker: the resource ledger and the interception layer

A shallow embedding of `src/alloctracker.c` (with the types of
`src/alloctracker_intern.h`), followed by theorems about it.

Conventions of the embedding.

* Target: LP64, so `size_t`, `unsigned long` and `long` are 64 bits wide. A
  `size_t` is a `Nat` reduced modulo `2^64` at every arithmetic step, a `long` is
  an `Int`, and the conversions between them are `toLong` and `ofLong`.
* A pointer is a `Nat`, `0` is `NULL`. Blocks and streams handed out by the C
  library (`malloc`, `fopen`, ...) are opaque identities: the result of every
  library call is an argument of the embedded function.
* The list items the tracker allocates for itself live in `Tracker.mem`. Cell
  `mem[a - 1]` is the item at address `a`; `none` marks an item that has been
  passed to `free`. The bookkeeping `malloc` of an item always succeeds (the
  source does not check it either). Which block it returns is up to the
  allocator: every function that creates an item has an argument `slot`; when
  `slot` is the address of a freed item that block is handed out again, otherwise
  the item gets a new address, and new addresses are numbered in order of first
  use (item addresses are only ever compared with each other).
* Undefined behaviour is not given a meaning: reading or writing through
  `NULL`, through a freed item or through an address that was never allocated
  ends the run with a `Fault`, together with the tracker as it was at that point.
* A `while` loop over the list runs on fuel, one unit more than the number of
  cells. A traversal that visits more items than there are cells has visited one
  twice, so the C loop would not end; this is reported as `Fault.no_return`.
* `Tracker.trace` records what leaves the tracker (calls of `free` and `fclose`
  on tracked resources, diagnostics on `stderr`) and, as ghost events, every
  insertion into and removal from a ledger.
-/

namespace AllocTracker

/-! ## Machine words -/

/-- The number of values of a `size_t`. -/
def WORD : Nat := 2 ^ 64

/-- The largest `long`. -/
def LONG_MAX : Nat := 2 ^ 63 - 1

/-- The cast `(signed long)x` of a `size_t`. -/
def toLong (x : Nat) : Int :=
  if x % WORD < 2 ^ 63 then ((x % WORD : Nat) : Int) else ((x % WORD : Nat) : Int) - (WORD : Int)

/-- The conversion of a `long` to `size_t`. -/
def ofLong (i : Int) : Nat := (i % (WORD : Int)).toNat

/-- The `size_t` sum `a + b`. -/
def wadd (a b : Nat) : Nat := (a + b) % WORD

/-- The `size_t` sum `a += i` for a `long` operand `i`. -/
def waddLong (a : Nat) (i : Int) : Nat := ofLong ((a : Int) + i)

/-! ## Data model (alloctracker_intern.h) -/

/-- The six counters of `at_track_stats_t`. -/
structure at_track_stats_t where
  alloc_amount : Nat
  alloc_no : Nat
  free_amount : Nat
  free_no : Nat
  open_no : Nat
  close_no : Nat
  deriving DecidableEq, Repr

/-- The two ledger kinds. -/
inductive at_list_type_t where
  | AT_LIST_TYPE_HEAP
  | AT_LIST_TYPE_FILE
  deriving DecidableEq, Repr

export at_list_type_t (AT_LIST_TYPE_HEAP AT_LIST_TYPE_FILE)

/-- A list item. `at_heap_list_item_t` and `at_file_list_item_t` both start with
the fields of `at_list_item_t`; this record has the common fields, then the two
fields of a heap item and the three of a file item. An item of one kind keeps the
fields of the other kind at the values given by `item_blank`. -/
structure at_list_item_t where
  id : Nat
  prev : Nat
  next : Nat
  filename : Option String
  function : Option String
  line : Int
  pointer : Nat
  size : Int
  handle : Nat
  name : Option String
  mode : Option String
  deriving DecidableEq, Repr

/-- The list header `at_list_t`. -/
structure at_list_t where
  length : Nat
  first : Nat
  last : Nat
  type : at_list_type_t
  deriving DecidableEq, Repr

/-- What can be observed of a run from outside, and the ghost ledger events. -/
inductive Event where
  /-- Ghost: `at_list_add` has linked the item into the ledger of that kind. -/
  | list_add (type : at_list_type_t) (item : Nat)
  /-- Ghost: `at_list_remove` has spliced the item out of the ledger of that kind. -/
  | list_remove (type : at_list_type_t) (item : Nat)
  /-- The call `free(p)` on a tracked block. -/
  | sys_free (p : Nat)
  /-- The call `fclose(h)` on a tracked stream. -/
  | sys_fclose (h : Nat)
  /-- The line "[heap] invalid allocation request for %ld bytes detected". -/
  | diag_invalid_request (n : Int)
  /-- The line "[heap] invalid allocation size of %ld bytes detected". -/
  | diag_invalid_size (n : Int)
  /-- The line "ALLOC TRACKER REPORT:" of `at_report`. -/
  | report_title
  /-- The line "unfreed memory:". -/
  | report_heap_title
  /-- The report line of the heap item at that address. -/
  | report_heap_line (item : Nat)
  /-- The line "overall %lu byte%s in %lu block%s unfreed". -/
  | report_heap_summary (leaksum leaks : Nat)
  /-- The line "unclosed files:". -/
  | report_file_title
  /-- The report line of the file item at that address. -/
  | report_file_line (item : Nat)
  /-- The line "overall %lu file%s unclosed". -/
  | report_file_summary (open_files : Nat)
  /-- The block "system resource summary:" with the six counters. -/
  | report_stats (alloc_amount free_amount alloc_no free_no open_no close_no : Nat)
  deriving DecidableEq, Repr

/-- The file-scope variables of `alloctracker.c`, the item store and the trace.
`heap_list` and `file_list` are `none` while the C pointer is `NULL`. -/
structure Tracker where
  stats : at_track_stats_t
  heap_list : Option at_list_t
  file_list : Option at_list_t
  heap_id_counter : Nat
  file_id_counter : Nat
  can_record : Bool
  can_report : Bool
  mem : List (Option at_list_item_t)
  trace : List Event
  deriving DecidableEq, Repr

/-- The tracker at program start: every static is zero. -/
def Tracker.fresh : Tracker :=
  { stats := ⟨0, 0, 0, 0, 0, 0⟩, heap_list := none, file_list := none,
    heap_id_counter := 0, file_id_counter := 0, can_record := false, can_report := false,
    mem := [], trace := [] }

/-- The ways a run leaves defined behaviour. -/
inductive Fault where
  | null_deref
  | use_after_free
  | wild_pointer
  | no_return
  /-- An `int` sum beyond `INT_MAX`. -/
  | signed_overflow
  deriving DecidableEq, Repr

/-- The outcome of a run: a value and the tracker afterwards, or a fault and the
tracker at the point of the fault. -/
inductive Res (α : Type) where
  | ok (v : α) (t : Tracker)
  | fault (f : Fault) (t : Tracker)
  deriving DecidableEq, Repr

/-- The tracker an outcome carries. -/
def Res.state {α : Type} : Res α → Tracker
  | .ok _ t => t
  | .fault _ t => t

/-- A piece of C code: a function of the tracker. -/
@[reducible] def M (α : Type) : Type := Tracker → Res α

/-- Sequencing: a fault ends the run. -/
def M.bind {α β : Type} (m : M α) (f : α → M β) : M β := fun t =>
  match m t with
  | .ok a t' => f a t'
  | .fault e t' => .fault e t'

/-- Returning a value. -/
def M.pure {α : Type} (a : α) : M α := fun t => .ok a t

instance : Monad M where
  pure := M.pure
  bind := M.bind

/-- Reading the whole tracker. -/
def getT : M Tracker := fun t => .ok t t

/-- Updating the tracker. -/
def modifyT (f : Tracker → Tracker) : M Unit := fun t => .ok () (f t)

/-- Leaving defined behaviour. -/
def fail {α : Type} (f : Fault) : M α := fun t => .fault f t

/-- Appending to the trace. -/
def emit (e : Event) : M Unit := modifyT fun t => { t with trace := t.trace ++ [e] }

/-! ## The item store -/

/-- The item at address `a`, or the fault of dereferencing `a`. -/
def peek (mem : List (Option at_list_item_t)) (a : Nat) : Except Fault at_list_item_t :=
  if a = 0 then .error .null_deref
  else match mem[a - 1]? with
    | none => .error .wild_pointer
    | some none => .error .use_after_free
    | some (some it) => .ok it

/-- Reading through an item pointer. -/
def load (a : Nat) : M at_list_item_t := fun t =>
  match peek t.mem a with
  | .ok it => .ok it t
  | .error f => .fault f t

/-- Writing through an item pointer: `a->field = ...`. -/
def store (a : Nat) (f : at_list_item_t → at_list_item_t) : M Unit := fun t =>
  match peek t.mem a with
  | .ok it => .ok () { t with mem := t.mem.set (a - 1) (some (f it)) }
  | .error e => .fault e t

/-- The address the allocator returns for a new item: the freed block `slot`, or
else a new block. -/
def new_addr (mem : List (Option at_list_item_t)) (slot : Nat) : Nat :=
  if slot ≠ 0 ∧ mem[slot - 1]? = some none then slot else mem.length + 1

/-- The item store with the item `it` in the block `new_addr mem slot`. -/
def place (mem : List (Option at_list_item_t)) (slot : Nat) (it : at_list_item_t) :
    List (Option at_list_item_t) :=
  if slot ≠ 0 ∧ mem[slot - 1]? = some none then mem.set (slot - 1) (some it) else mem ++ [some it]

/-- The bookkeeping `malloc(sizeof(item))` followed by the initialisation of the
item. -/
def alloc_item (slot : Nat) (it : at_list_item_t) : M Nat := fun t =>
  .ok (new_addr t.mem slot) { t with mem := place t.mem slot it }

/-- The bookkeeping `free(item)`. -/
def free_item (a : Nat) : M Unit := fun t =>
  match peek t.mem a with
  | .ok _ => .ok () { t with mem := t.mem.set (a - 1) none }
  | .error e => .fault e t

/-- The list header a kind refers to: `heap_list` or `file_list`. -/
def listOf (t : Tracker) : at_list_type_t → Option at_list_t
  | AT_LIST_TYPE_HEAP => t.heap_list
  | AT_LIST_TYPE_FILE => t.file_list

/-- Writing the list header of a kind. -/
def setList (t : Tracker) (k : at_list_type_t) (l : Option at_list_t) : Tracker :=
  match k with
  | AT_LIST_TYPE_HEAP => { t with heap_list := l }
  | AT_LIST_TYPE_FILE => { t with file_list := l }

/-- Writing through a non-null list pointer: `list->field = ...`. -/
def modifyList (k : at_list_type_t) (f : at_list_t → at_list_t) : M Unit := fun t =>
  match listOf t k with
  | some l => .ok () (setList t k (some (f l)))
  | none => .fault .null_deref t

/-! ## The statistics aggregator -/

/-- The test `list && list->length`. -/
def has_items : Option at_list_t → Bool
  | some l => decide (l.length ≠ 0)
  | none => false

/-- The body of `at_track_stats_init` as a function of the tracker. -/
def stats_init (t : Tracker) : Tracker :=
  if t.can_record then t
  else
    let t1 := { t with stats := ⟨0, 0, 0, 0, 0, 0⟩, can_record := true }
    if !t1.can_report then
      if has_items t1.heap_list ∨ has_items t1.file_list
      then { t1 with can_report := true }
      else t1
    else t1

/-- The function `at_track_stats_init`. -/
def at_track_stats_init : M Unit := modifyT stats_init

/-- The function `at_track_stats_aquire`. -/
def at_track_stats_aquire (item : Nat) (type : at_list_type_t) : M Unit :=
  if item = 0 then pure ()
  else do
    let t ← getT
    if !t.can_record then at_track_stats_init
    match type with
    | AT_LIST_TYPE_HEAP => do
      let heap_item ← load item
      modifyT fun t => { t with stats := { t.stats with
        alloc_amount := waddLong t.stats.alloc_amount heap_item.size,
        alloc_no := wadd t.stats.alloc_no 1 } }
    | AT_LIST_TYPE_FILE =>
      modifyT fun t => { t with stats := { t.stats with open_no := wadd t.stats.open_no 1 } }

/-- The function `at_track_stats_release`. -/
def at_track_stats_release (item : Nat) (type : at_list_type_t) : M Unit :=
  if item = 0 then pure ()
  else do
    let t ← getT
    if !t.can_record then at_track_stats_init
    match type with
    | AT_LIST_TYPE_HEAP => do
      let heap_item ← load item
      modifyT fun t => { t with stats := { t.stats with
        free_amount := waddLong t.stats.free_amount heap_item.size,
        free_no := wadd t.stats.free_no 1 } }
    | AT_LIST_TYPE_FILE =>
      modifyT fun t => { t with stats := { t.stats with close_no := wadd t.stats.close_no 1 } }

/-! ## Items and the ledger -/

/-- An item with every field zero. -/
def item_blank : at_list_item_t :=
  { id := 0, prev := 0, next := 0, filename := none, function := none, line := 0,
    pointer := 0, size := 0, handle := 0, name := none, mode := none }

/-- The function `at_heap_list_item_new`: the strings are copied, the id is the
counter, which is then incremented. -/
def at_heap_list_item_new (filename function : Option String) (line : Int)
    (slot : Nat) : M Nat := do
  let t ← getT
  let item ← alloc_item slot { item_blank with
    filename := filename, function := function, line := line, id := t.heap_id_counter,
    prev := 0, next := 0, pointer := 0, size := 0 }
  modifyT fun t => { t with heap_id_counter := wadd t.heap_id_counter 1 }
  pure item

/-- The function `at_file_list_item_new`. -/
def at_file_list_item_new (filename function : Option String) (line : Int)
    (slot : Nat) : M Nat := do
  let t ← getT
  let item ← alloc_item slot { item_blank with
    filename := filename, function := function, line := line, id := t.file_id_counter,
    prev := 0, next := 0, handle := 0, name := none, mode := none }
  modifyT fun t => { t with file_id_counter := wadd t.file_id_counter 1 }
  pure item

/-- The function `at_list_add`. Every caller passes the global list of the kind
`type` as `list`, so the argument is read from the tracker; with that, the two
assignments to `heap_list` and `file_list` after the branch are the write of the
new header in the `!list` branch. -/
def at_list_add (item : Nat) (type : at_list_type_t) : M Unit :=
  if item = 0 then pure ()
  else do
    let t ← getT
    match listOf t type with
    | none =>
      modifyT fun t => setList t type (some { first := item, last := item, length := 1, type := type })
    | some list =>
      if list.length = 0 then
        modifyList type fun l => { l with first := item, last := item, length := 1 }
      else do
        let tmp := list.last
        store item fun c => { c with prev := tmp }
        store tmp fun c => { c with next := item }
        modifyList type fun l => { l with last := item, length := wadd l.length 1 }
    emit (.list_add type item)
    at_track_stats_aquire item type
    modifyT fun t => { t with can_report := true }

/-- The loop of `at_list_get`, on fuel. -/
def at_list_get_loop (type : at_list_type_t) (pointer : Nat) : Nat → Nat → M Nat
  | 0, _ => fail .no_return
  | fuel + 1, item =>
    if item = 0 then pure 0
    else do
      let it ← load item
      if (type = AT_LIST_TYPE_HEAP ∧ it.pointer = pointer) ∨
         (type = AT_LIST_TYPE_FILE ∧ it.handle = pointer) then pure item
      else at_list_get_loop type pointer fuel it.next

/-- The function `at_list_get` on the global list of kind `k`; the result `0` is
`NULL`. -/
def at_list_get (k : at_list_type_t) (pointer : Nat) : M Nat := do
  let t ← getT
  match listOf t k with
  | none => pure 0
  | some list =>
    if pointer = 0 then pure 0
    else if list.length = 0 then pure 0
    else at_list_get_loop list.type pointer (t.mem.length + 1) list.first

/-- The function `at_list_free_item`. The C function also sets the variable of
its caller to `NULL`; callers that go on to use that variable are embedded
accordingly. -/
def at_list_free_item (item : Nat) (type : at_list_type_t) : M Unit :=
  if item = 0 then pure ()
  else do
    let it ← load item
    match type with
    | AT_LIST_TYPE_HEAP =>
      if it.size ≤ 0 then emit (.diag_invalid_size it.size)
      else if it.pointer ≠ 0 then emit (.sys_free it.pointer)
      else pure ()
    | AT_LIST_TYPE_FILE =>
      if it.handle ≠ 0 then emit (.sys_fclose it.handle)
      else pure ()
    free_item item

/-- The function `at_list_remove` on the global list of kind `k`. -/
def at_list_remove (k : at_list_type_t) (pointer : Nat) : M Unit := do
  let t ← getT
  match listOf t k with
  | none => pure ()
  | some list =>
    if pointer = 0 then pure ()
    else if list.length = 0 then pure ()
    else do
      let item ← at_list_get k pointer
      if item = 0 then pure ()
      else do
        let it ← load item
        if it.prev ≠ 0 then store it.prev fun c => { c with next := it.next }
        else modifyList k fun l => { l with first := it.next }
        emit (.list_remove k item)
        at_track_stats_release item list.type
        at_list_free_item item list.type
        modifyList k fun l => { l with length := (l.length + WORD - 1) % WORD }

/-! ## The interception layer: heap -/

/-- The function `at_malloc`; `malloc_result` is what the call `malloc(length)`
returns. -/
def at_malloc (length : Nat) (filename function : Option String) (line : Int)
    (malloc_result slot : Nat) : M Nat :=
  if length % WORD = 0 ∨ toLong length < 0 then do
    emit (.diag_invalid_request (toLong length))
    pure 0
  else do
    let item ← at_heap_list_item_new filename function line slot
    store item fun c => { c with pointer := malloc_result }
    let it ← load item
    if it.pointer ≠ 0 then store item fun c => { c with size := toLong length }
    else store item fun c => { c with size := -1 }
    at_list_add item AT_LIST_TYPE_HEAP
    let it ← load item
    pure it.pointer

/-- The function `at_calloc`; `calloc_result` is what `calloc(blocks, length)`
returns. The product in the diagnostic is printed as a `long`. -/
def at_calloc (blocks length : Nat) (filename function : Option String) (line : Int)
    (calloc_result slot : Nat) : M Nat :=
  if blocks % WORD = 0 ∨ length % WORD = 0 ∨ toLong blocks < 0 ∨ toLong length < 0 then do
    emit (.diag_invalid_request (toLong (ofLong (toLong blocks * toLong length))))
    pure 0
  else do
    let item ← at_heap_list_item_new filename function line slot
    store item fun c => { c with pointer := calloc_result }
    let it ← load item
    if it.pointer ≠ 0 then store item fun c => { c with size := toLong (blocks * length % WORD) }
    else store item fun c => { c with size := -1 }
    at_list_add item AT_LIST_TYPE_HEAP
    let it ← load item
    pure it.pointer

/-- The function `at_realloc`; `sys_result` is what the library call returns:
`realloc(ptr, length)`, or the `malloc(length)` of `at_malloc` when `ptr` is
`NULL`. `strcmp` on a `NULL` string is a null dereference. -/
def at_realloc (ptr length : Nat) (filename function : Option String) (line : Int)
    (sys_result slot : Nat) : M Nat :=
  if ptr = 0 then at_malloc length filename function line sys_result slot
  else do
    if toLong length ≤ 0 then emit (.diag_invalid_request (toLong length))
    let item ← at_list_get AT_LIST_TYPE_HEAP ptr
    if item = 0 then pure 0
    else do
      store item fun c => { c with pointer := sys_result }
      let it ← load item
      if it.pointer ≠ 0 then store item fun c => { c with size := toLong length }
      else store item fun c => { c with size := -1 }
      match it.filename, filename with
      | some old, some new =>
        if old ≠ new then store item fun c => { c with filename := some new }
      | _, _ => fail .null_deref
      match it.function, function with
      | some old, some new =>
        if old ≠ new then store item fun c => { c with function := some new }
      | _, _ => fail .null_deref
      store item fun c => { c with line := line }
      let it ← load item
      pure it.pointer

/-- The C function `strlen`: the number of bytes of the string. -/
def strlen (s : String) : Nat := s.utf8ByteSize

/-- The function `at_strdup`; `malloc_result` is what the call
`malloc(strlen(string) + 1)` returns. -/
def at_strdup (string : Option String) (filename function : Option String) (line : Int)
    (malloc_result slot : Nat) : M Nat :=
  match string with
  | none => pure 0
  | some str =>
    if strlen str = 0 then pure 0
    else do
      let item ← at_heap_list_item_new filename function line slot
      let pointer := malloc_result
      if pointer ≠ 0 then store item fun c => { c with size := toLong (wadd (strlen str) 1) }
      store item fun c => { c with pointer := pointer }
      at_list_add item AT_LIST_TYPE_HEAP
      pure pointer

/-- What a call of `getline` or `getdelim` does: its return value, the buffer
and the capacity it leaves in the variables of its caller, and whether `errno` is
`EINVAL` or `ENOMEM` afterwards. -/
structure getdelim_result where
  linelen : Nat
  line : Nat
  cap : Nat
  errno_fatal : Bool
  deriving DecidableEq, Repr

/-- The function `at_getdelim`. `outline` and `buflen` are `none` for a `NULL`
argument and otherwise the values of `*outline` and `*buflen`; the result is the
return value with the values of `*outline` and `*buflen` at return. The
declaration `size_t nbuflen = *buflen` reads `*buflen` before the check for
`NULL`. The delimiter only selects between `getline` and `getdelim`, whose
outcome `sys` is given. -/
def at_getdelim (outline buflen : Option Nat) (stream : Nat)
    (filename function : Option String) (line : Int)
    (sys : getdelim_result) (slot : Nat) : M (Nat × Option Nat × Option Nat) :=
  match buflen with
  | none => fail .null_deref
  | some n =>
    match outline with
    | none => pure (WORD - 1, outline, buflen)
    | some buf =>
      if stream = 0 then pure (WORD - 1, outline, buflen)
      else if buf = 0 then do
        let item ← at_heap_list_item_new filename function line slot
        let linelen := sys.linelen
        if linelen = WORD - 1 ∧ sys.errno_fatal then pure (linelen, some sys.line, some sys.cap)
        else do
          store item fun c => { c with size := toLong sys.cap }
          store item fun c => { c with pointer := sys.line }
          at_list_add item AT_LIST_TYPE_HEAP
          pure (linelen, some sys.line, some sys.cap)
      else do
        let preallocated := buf
        let nbuflen := sys.cap
        let linelen := sys.linelen
        if linelen = WORD - 1 ∧ sys.errno_fatal then pure (linelen, some sys.line, some n)
        else if nbuflen > n then do
          let item ← at_list_get AT_LIST_TYPE_HEAP sys.line
          if item ≠ 0 then store item fun c => { c with size := toLong nbuflen }
          else do
            let item ← at_list_get AT_LIST_TYPE_HEAP preallocated
            if item ≠ 0 then do
              store item fun c => { c with pointer := sys.line }
              store item fun c => { c with size := toLong nbuflen }
          pure (linelen, some sys.line, some nbuflen)
        else pure (linelen, some sys.line, some n)

/-- The function `at_getline`. -/
def at_getline (outline buflen : Option Nat) (stream : Nat)
    (filename function : Option String) (line : Int)
    (sys : getdelim_result) (slot : Nat) : M (Nat × Option Nat × Option Nat) :=
  at_getdelim outline buflen stream filename function line sys slot

/-- The function `at_free`. -/
def at_free (pointer : Nat) : M Unit :=
  if pointer = 0 then pure ()
  else at_list_remove AT_LIST_TYPE_HEAP pointer

/-! ## The interception layer: files -/

/-- The test `!s || !strlen(s)`. -/
def null_or_empty : Option String → Bool
  | none => true
  | some s => decide (strlen s = 0)

/-- The function `at_fopen`; `fopen_result` is what `fopen(name, mode)` returns. -/
def at_fopen (name mode : Option String) (filename function : Option String) (line : Int)
    (fopen_result slot : Nat) : M Nat :=
  if null_or_empty name then pure 0
  else if null_or_empty mode then pure 0
  else do
    let item ← at_file_list_item_new filename function line slot
    store item fun c => { c with handle := fopen_result }
    store item fun c => { c with name := name }
    store item fun c => { c with mode := mode }
    at_list_add item AT_LIST_TYPE_FILE
    let it ← load item
    pure it.handle

/-- The first part of `at_freopen` (lines 623 to 643): the lookup of the stream.
The result is the value of `item` and of `name` when line 645 is reached. -/
def at_freopen_lookup (name mode : Option String) (stream : Nat) : M (Nat × Option String) := do
  let item ← at_list_get AT_LIST_TYPE_FILE stream
  if item ≠ 0 then do
    let it ← load item
    let name := if name = none then it.name else name
    if it.name ≠ none ∧ it.name = name then do
      match it.mode with
      | none => fail .null_deref
      | some m =>
        if some m ≠ mode then store item fun c => { c with mode := mode }
      pure (item, name)
    else do
      at_list_remove AT_LIST_TYPE_FILE stream
      pure (0, name)
  else pure (0, name)

/-- The function `at_freopen`; `freopen_result` is what
`freopen(name, mode, stream)` returns. Where `at_list_free_item` has set `item` to
`NULL`, the closing `return item->handle` is a null dereference; where
`at_list_remove` has freed the item `item` still points to, it reads a freed
item. -/
def at_freopen (name mode : Option String) (stream : Nat)
    (filename function : Option String) (line : Int)
    (freopen_result slot : Nat) : M Nat :=
  if null_or_empty mode then pure 0
  else if stream = 0 then pure 0
  else do
    let (item, name) ← at_freopen_lookup name mode stream
    if item = 0 then do
      let item ← at_file_list_item_new filename function line slot
      store item fun c => { c with name := name }
      store item fun c => { c with mode := mode }
      store item fun c => { c with handle := freopen_result }
      if freopen_result ≠ 0 then do
        at_list_add item AT_LIST_TYPE_FILE
        let it ← load item
        pure it.handle
      else do
        at_track_stats_release item AT_LIST_TYPE_FILE
        at_list_free_item item AT_LIST_TYPE_FILE
        fail .null_deref
    else do
      let tmphandle := freopen_result
      let it ← load item
      if tmphandle ≠ 0 ∧ tmphandle ≠ it.handle then do
        at_list_remove AT_LIST_TYPE_FILE it.handle
        let item ← at_file_list_item_new filename function line slot
        store item fun c => { c with name := name }
        store item fun c => { c with mode := mode }
        store item fun c => { c with handle := tmphandle }
        at_list_add item AT_LIST_TYPE_FILE
        let it ← load item
        pure it.handle
      else if tmphandle = 0 then do
        if it.handle ≠ 0 then do
          at_list_remove AT_LIST_TYPE_FILE it.handle
          let it ← load item
          pure it.handle
        else do
          at_track_stats_release item AT_LIST_TYPE_FILE
          at_list_free_item item AT_LIST_TYPE_FILE
          fail .null_deref
      else do
        store item fun c => { c with handle := tmphandle }
        let it ← load item
        pure it.handle

/-- The function `at_tmpfile`; `tmpfile_result` is what `tmpfile()` returns. -/
def at_tmpfile (filename function : Option String) (line : Int)
    (tmpfile_result slot : Nat) : M Nat := do
  let item ← at_file_list_item_new filename function line slot
  if item = 0 then pure 0
  else do
    store item fun c => { c with handle := tmpfile_result }
    store item fun c => { c with name := none }
    store item fun c => { c with mode := some "wb+" }
    at_list_add item AT_LIST_TYPE_FILE
    let it ← load item
    pure it.handle

/-- The function `at_fclose`. -/
def at_fclose (file : Nat) : M Unit :=
  if file = 0 then pure ()
  else at_list_remove AT_LIST_TYPE_FILE file

/-! ## Truncation of the strings of a report line

A C string is given by its bytes before the terminator, none of them zero; a
buffer is the list of all its bytes, and a pointer result is the buffer it points
to, or `none` for `NULL`. The width `len` is an `int`. -/

/-- The largest `int`. -/
def INT_MAX : Int := 2 ^ 31 - 1

/-- The bytes of the string "...". -/
def dots : List Nat := [46, 46, 46]

/-- The C string a buffer holds: its bytes before the first zero byte. -/
def cstr (buf : List Nat) : List Nat := buf.takeWhile fun b => b ≠ 0

/-- The call `strcpy(&buf[off], src)`: the bytes of `src` and the terminator are
written from offset `off` on; a write beyond the buffer is a fault. -/
def strcpy_at (buf : List Nat) (off : Nat) (src : List Nat) : Except Fault (List Nat) :=
  if off + src.length + 1 ≤ buf.length then
    .ok (buf.take off ++ (src ++ [0]) ++ buf.drop (off + src.length + 1))
  else .error .wild_pointer

/-- The library call `strdup(s)`: a buffer with the bytes of `s` and the
terminator, or `NULL` when the allocation fails. -/
def strdup (s : List Nat) (alloc_ok : Bool) : Option (List Nat) :=
  if alloc_ok then some (s ++ [0]) else none

/-- The function `at_truncate_back`; `strdup_ok` says whether the `strdup` call
that is reached succeeds. The block of `malloc(len + 1)` is dropped when `trunc`
is assigned the result of `strdup`, so its outcome does not matter. -/
def at_truncate_back (str : Option (List Nat)) (len : Int) (strdup_ok : Bool) :
    Except Fault (Option (List Nat)) :=
  match str with
  | none => .ok (strdup [] strdup_ok)
  | some s =>
    if s.length = 0 then .ok (strdup [] strdup_ok)
    else if len < 0 ∨ s.length ≤ len.toNat then .ok (strdup s strdup_ok)
    else if len + 1 > INT_MAX then .error .signed_overflow
    else
      match strdup s strdup_ok with
      | none => .error .null_deref
      | some trunc =>
        if len - 3 < 0 then .error .wild_pointer
        else do
          let trunc ← strcpy_at trunc (len - 3).toNat dots
          if len.toNat < trunc.length then pure (some (trunc.set len.toNat 0))
          else .error .wild_pointer

/-- The function `at_truncate_front`; `strdup_ok` says whether the `strdup` call
of the first two branches succeeds, `malloc_result` is `none` when
`malloc(len + 1)` returns `NULL` and otherwise gives the indeterminate bytes of
the new block. `strcat` writes at the terminator that `strcpy` has left. -/
def at_truncate_front (str : Option (List Nat)) (len : Int) (strdup_ok : Bool)
    (malloc_result : Option (Nat → Nat)) : Except Fault (Option (List Nat)) :=
  match str with
  | none => .ok (strdup [] strdup_ok)
  | some s =>
    if s.length = 0 then .ok (strdup [] strdup_ok)
    else if len < 0 ∨ s.length ≤ len.toNat then .ok (strdup s strdup_ok)
    else if len + 1 > INT_MAX then .error .signed_overflow
    else
      match malloc_result with
      | none => .error .null_deref
      | some bytes => do
        let trunc := (List.range (len + 1).toNat).map bytes
        let trunc ← strcpy_at trunc 0 dots
        let start := s.length - len.toNat + 3
        if start ≤ s.length then do
          let trunc ← strcpy_at trunc (cstr trunc).length (cstr ((s ++ [0]).drop start))
          pure (some trunc)
        else .error .wild_pointer

/-! ## The report -/

/-- The loop over the heap ledger in `at_report`: one line per item; `leaksum` and
`leaks` are the running totals, `leaksum += heap_item->size` adds a `long` to a
`size_t`. The text of a line is made of the fields of the item; its layout
(`at_basename`, `at_truncate`) is not part of the event. -/
def at_report_heap_loop : Nat → Nat → Nat → Nat → M (Nat × Nat)
  | 0, _, _, _ => fail .no_return
  | fuel + 1, heap_item, leaksum, leaks =>
    if heap_item = 0 then pure (leaksum, leaks)
    else do
      let it ← load heap_item
      emit (.report_heap_line heap_item)
      at_report_heap_loop fuel it.next (waddLong leaksum it.size) (wadd leaks 1)

/-- The loop over the file ledger in `at_report`: one line per item, `open` counts
them. -/
def at_report_file_loop : Nat → Nat → Nat → M Nat
  | 0, _, _ => fail .no_return
  | fuel + 1, file_item, open_files =>
    if file_item = 0 then pure open_files
    else do
      let it ← load file_item
      emit (.report_file_line file_item)
      at_report_file_loop fuel it.next (wadd open_files 1)

/-- The test `!(heap_list->length) && !(file_list->length)` of `at_report`: each
header is read through its global without a null check, the second only when the
first length is zero. -/
def at_report_nothing_listed : M Bool := do
  let t ← getT
  match t.heap_list with
  | none => fail .null_deref
  | some heap_list =>
    if heap_list.length = 0 then
      match t.file_list with
      | none => fail .null_deref
      | some file_list => pure (decide (file_list.length = 0))
    else pure false

/-- The heap section of `at_report`. -/
def at_report_heap : M Unit := do
  let t ← getT
  match t.heap_list with
  | none => pure ()
  | some heap_list =>
    if heap_list.length ≠ 0 then do
      if heap_list.first ≠ 0 then emit .report_heap_title
      let (leaksum, leaks) ← at_report_heap_loop (t.mem.length + 1) heap_list.first 0 0
      emit (.report_heap_summary leaksum leaks)
    else pure ()

/-- The file section of `at_report`. -/
def at_report_file : M Unit := do
  let t ← getT
  match t.file_list with
  | none => pure ()
  | some file_list =>
    if file_list.length ≠ 0 then do
      if file_list.first ≠ 0 then emit .report_file_title
      let open_files ← at_report_file_loop (t.mem.length + 1) file_list.first 0
      emit (.report_file_summary open_files)
    else pure ()

/-- The function `at_report`. -/
def at_report : M Unit := do
  let t ← getT
  if !t.can_report then pure ()
  else if t.heap_list.isNone && t.file_list.isNone then pure ()
  else do
    let nothing ← at_report_nothing_listed
    if nothing then pure ()
    else do
      emit .report_title
      at_report_heap
      at_report_file
      if !t.can_record then pure ()
      else emit (.report_stats t.stats.alloc_amount t.stats.free_amount t.stats.alloc_no
        t.stats.free_no t.stats.open_no t.stats.close_no)

/-! ## Reading a ledger -/

/-- The tracker after `at_track_stats_aquire` for an item of the given size. -/
def aquired (t : Tracker) (type : at_list_type_t) (size : Int) : Tracker :=
  let t1 := if !t.can_record then stats_init t else t
  match type with
  | AT_LIST_TYPE_HEAP => { t1 with stats := { t1.stats with
      alloc_amount := waddLong t1.stats.alloc_amount size,
      alloc_no := wadd t1.stats.alloc_no 1 } }
  | AT_LIST_TYPE_FILE => { t1 with stats := { t1.stats with open_no := wadd t1.stats.open_no 1 } }

/-- The tracker after `at_track_stats_release` for an item of the given size. -/
def released (t : Tracker) (type : at_list_type_t) (size : Int) : Tracker :=
  let t1 := if !t.can_record then stats_init t else t
  match type with
  | AT_LIST_TYPE_HEAP => { t1 with stats := { t1.stats with
      free_amount := waddLong t1.stats.free_amount size,
      free_no := wadd t1.stats.free_no 1 } }
  | AT_LIST_TYPE_FILE => { t1 with stats := { t1.stats with close_no := wadd t1.stats.close_no 1 } }

/-- The item store after `item->prev = last; last->next = item`. -/
def linked (mem : List (Option at_list_item_t)) (item last : Nat) (it itl : at_list_item_t) :
    List (Option at_list_item_t) :=
  (mem.set (item - 1) (some { it with prev := last })).set (last - 1) (some { itl with next := item })

/-- The tracker after an item of kind `k` has been created and filled in as `it`:
the item is in the store and the id counter of the kind has advanced. -/
def with_new_item (t : Tracker) (k : at_list_type_t) (slot : Nat) (it : at_list_item_t) :
    Tracker :=
  match k with
  | AT_LIST_TYPE_HEAP =>
    { t with mem := place t.mem slot it, heap_id_counter := wadd t.heap_id_counter 1 }
  | AT_LIST_TYPE_FILE =>
    { t with mem := place t.mem slot it, file_id_counter := wadd t.file_id_counter 1 }

/-- The heap item `at_malloc` hands to `at_list_add`: provenance, the id from the
counter, the block `pointer` and its size, or the sentinel -1 for the null
block. -/
def malloc_item (t : Tracker) (length : Nat) (filename function : Option String) (line : Int)
    (pointer : Nat) : at_list_item_t :=
  { item_blank with
    filename := filename, function := function, line := line, id := t.heap_id_counter,
    pointer := pointer, size := if pointer ≠ 0 then toLong length else -1 }

/-- The counters after `at_track_stats_aquire` for an item of the given size, on
counters that are in use. -/
def count_aquire (s : at_track_stats_t) (type : at_list_type_t) (size : Int) : at_track_stats_t :=
  match type with
  | AT_LIST_TYPE_HEAP => { s with
      alloc_amount := waddLong s.alloc_amount size, alloc_no := wadd s.alloc_no 1 }
  | AT_LIST_TYPE_FILE => { s with open_no := wadd s.open_no 1 }

/-- The counters after `at_track_stats_release` for an item of the given size, on
counters that are in use. -/
def count_release (s : at_track_stats_t) (type : at_list_type_t) (size : Int) : at_track_stats_t :=
  match type with
  | AT_LIST_TYPE_HEAP => { s with
      free_amount := waddLong s.free_amount size, free_no := wadd s.free_no 1 }
  | AT_LIST_TYPE_FILE => { s with close_no := wadd s.close_no 1 }

/-- The tracker when `at_list_add` returns, given the tracker `t0` with the items
linked and the header `hdr` it has written. -/
def after_add (t0 : Tracker) (k : at_list_type_t) (hdr : at_list_t) (item : Nat) (size : Int) :
    Tracker :=
  { aquired { setList t0 k (some hdr) with trace := t0.trace ++ [.list_add k item] } k size with
    can_report := true }

/-- The function `at_list_length` on the global list of kind `k`. -/
def at_list_length (t : Tracker) (k : at_list_type_t) : Nat :=
  match listOf t k with
  | none => 0
  | some list => list.length

/-- The addresses reached by following the `next` links from `a` up to `NULL`,
as the loops of `at_list_get` and `at_report` visit them; `none` when the walk
meets a pointer that cannot be dereferenced or does not end within the fuel. -/
def chain_from (mem : List (Option at_list_item_t)) : Nat → Nat → Option (List Nat)
  | 0, _ => none
  | fuel + 1, a =>
    if a = 0 then some []
    else match peek mem a with
      | .ok it => (chain_from mem fuel it.next).map fun rest => a :: rest
      | .error _ => none

/-- The entries of the ledger of kind `k`, in traversal order from `first`. -/
def entries (t : Tracker) (k : at_list_type_t) : Option (List Nat) :=
  match listOf t k with
  | none => some []
  | some list => chain_from t.mem (t.mem.length + 1) list.first

/-- The list `L` is the walk from `a` along the `next` links up to `NULL`. -/
def IsChain (mem : List (Option at_list_item_t)) : Nat → List Nat → Prop
  | a, [] => a = 0
  | a, x :: L => a = x ∧ ∃ it, peek mem a = .ok it ∧ IsChain mem it.next L

/-- The loop of `at_list_get` as a function of the item store alone. -/
def lookup_loop (mem : List (Option at_list_item_t)) (type : at_list_type_t) (pointer : Nat) :
    Nat → Nat → Except Fault Nat
  | 0, _ => .error .no_return
  | fuel + 1, item =>
    if item = 0 then .ok 0
    else match peek mem item with
      | .error f => .error f
      | .ok it =>
        if (type = AT_LIST_TYPE_HEAP ∧ it.pointer = pointer) ∨
           (type = AT_LIST_TYPE_FILE ∧ it.handle = pointer) then .ok item
        else lookup_loop mem type pointer fuel it.next

/-- What `at_list_get` returns on the global list of kind `k`. -/
def lookup (t : Tracker) (k : at_list_type_t) (pointer : Nat) : Except Fault Nat :=
  match listOf t k with
  | none => .ok 0
  | some list =>
    if pointer = 0 then .ok 0
    else if list.length = 0 then .ok 0
    else lookup_loop t.mem list.type pointer (t.mem.length + 1) list.first

/-- The identity an entry is looked up by in a list of the given kind: the block
of a heap entry, the stream of a file entry. -/
def identity (type : at_list_type_t) (it : at_list_item_t) : Nat :=
  match type with
  | AT_LIST_TYPE_HEAP => it.pointer
  | AT_LIST_TYPE_FILE => it.handle

/-- The walk over the ledger of kind `k` ends and no entry on it has the identity
`p`. -/
def untracked (t : Tracker) (k : at_list_type_t) (p : Nat) : Bool :=
  match listOf t k with
  | none => true
  | some list =>
    match chain_from t.mem (t.mem.length + 1) list.first with
    | none => false
    | some L => L.all fun x =>
      match peek t.mem x with
      | .ok it => decide (identity list.type it ≠ p)
      | .error _ => true

/-- The ledger of kind `k` is intact: the walk from `first` ends, the header
counts its entries, and `last` is the final entry. -/
def intact (t : Tracker) (k : at_list_type_t) : Bool :=
  match listOf t k with
  | none => true
  | some list =>
    match chain_from t.mem (t.mem.length + 1) list.first with
    | none => false
    | some L => decide (list.length = L.length) && (L.isEmpty || decide (L.getLast? = some list.last))

/-- The counters are those of a run of the program: they are zero as long as
`can_record` is not set, as statics are. -/
def stats_valid (t : Tracker) : Bool :=
  t.can_record || decide (t.stats = ⟨0, 0, 0, 0, 0, 0⟩)

/-- A tracker with one heap entry: the state after `malloc(1024)` at line 10 of
function `f` in `a.c` has returned the block `4096`. -/
def one_block : Tracker :=
  (at_malloc 1024 (some "a.c") (some "f") 10 4096 0 Tracker.fresh).state

/-! ## Runs used as evidence -/

/-- The fault an outcome ends with, if it does. -/
def Res.fault? {α : Type} : Res α → Option Fault
  | .ok _ _ => none
  | .fault f _ => some f

/-- Two allocations, the release of the second one, and a third allocation;
`slot` decides which block the allocator hands out for the third item. -/
def tail_release_then_malloc (slot : Nat) : M Nat := do
  let _ ← at_malloc 8 (some "a.c") (some "f") 10 4096 0
  let _ ← at_malloc 8 (some "a.c") (some "f") 11 8192 0
  at_free 8192
  at_malloc 8 (some "a.c") (some "f") 13 12288 slot

/-- A call of `at_malloc` (size, result of `malloc`, allocator choice for the
item) or of `at_free`. -/
inductive HeapCall where
  | malloc (length malloc_result slot : Nat)
  | free (pointer : Nat)
  deriving DecidableEq, Repr

/-- Running a sequence of heap calls, all from line 10 of `f` in `a.c`. -/
def run_heap_calls : List HeapCall → M Unit
  | [] => pure ()
  | .malloc length malloc_result slot :: rest => do
    let _ ← at_malloc length (some "a.c") (some "f") 10 malloc_result slot
    run_heap_calls rest
  | .free pointer :: rest => do
    at_free pointer
    run_heap_calls rest

/-- The number of `at_malloc` calls with a valid size in a sequence. -/
def valid_mallocs : List HeapCall → Nat
  | [] => 0
  | .malloc length _ _ :: rest =>
    (if 0 < length ∧ length ≤ LONG_MAX then 1 else 0) + valid_mallocs rest
  | .free _ :: rest => valid_mallocs rest

/-- The number of `at_free` calls in a sequence whose pointer was tracked at the
time of the call: returned by an earlier allocation and not yet released. `live`
holds the blocks that are tracked before the sequence. -/
def tracked_frees (live : List Nat) : List HeapCall → Nat
  | [] => 0
  | .malloc length malloc_result _ :: rest =>
    tracked_frees
      (if 0 < length ∧ length ≤ LONG_MAX ∧ malloc_result ≠ 0 then malloc_result :: live else live)
      rest
  | .free pointer :: rest =>
    if pointer ∈ live then 1 + tracked_frees (live.erase pointer) rest
    else tracked_frees live rest

/-- Every successful `malloc` of the sequence returns a block different from all
blocks tracked at that time. -/
def fresh_blocks (live : List Nat) : List HeapCall → Bool
  | [] => true
  | .malloc length malloc_result _ :: rest =>
    if 0 < length ∧ length ≤ LONG_MAX ∧ malloc_result ≠ 0 then
      decide (malloc_result ∉ live) && fresh_blocks (malloc_result :: live) rest
    else fresh_blocks live rest
  | .free pointer :: rest => fresh_blocks (live.erase pointer) rest

/-- The sequence `p1 = malloc(8); p2 = malloc(8); free(p2); p3 = malloc(8);
free(p3)`, where the allocator gives the third item the block of the second. -/
def lifo_calls : List HeapCall :=
  [.malloc 8 4096 0, .malloc 8 8192 0, .free 8192, .malloc 8 12288 2, .free 12288]

/-! ## Operations and the accounting of ledger events -/

/-- A call of an interception operation: its arguments, the outcome of the
library call it wraps and the choice of the allocator for a list item. -/
inductive Op where
  | malloc (length : Nat) (filename function : Option String) (line : Int)
      (malloc_result slot : Nat)
  | calloc (blocks length : Nat) (filename function : Option String) (line : Int)
      (calloc_result slot : Nat)
  | realloc (ptr length : Nat) (filename function : Option String) (line : Int)
      (sys_result slot : Nat)
  | strdup (string filename function : Option String) (line : Int) (malloc_result slot : Nat)
  | getdelim (outline buflen : Option Nat) (stream : Nat) (filename function : Option String)
      (line : Int) (sys : getdelim_result) (slot : Nat)
  | getline (outline buflen : Option Nat) (stream : Nat) (filename function : Option String)
      (line : Int) (sys : getdelim_result) (slot : Nat)
  | free (pointer : Nat)
  | fopen (name mode filename function : Option String) (line : Int) (fopen_result slot : Nat)
  | freopen (name mode : Option String) (stream : Nat) (filename function : Option String)
      (line : Int) (freopen_result slot : Nat)
  | tmpfile (filename function : Option String) (line : Int) (tmpfile_result slot : Nat)
  | fclose (file : Nat)

/-- The tracker an operation leaves: at its return, or at the fault. -/
def Op.run : Op → Tracker → Tracker
  | .malloc n f g l r s, t => (at_malloc n f g l r s t).state
  | .calloc b n f g l r s, t => (at_calloc b n f g l r s t).state
  | .realloc p n f g l r s, t => (at_realloc p n f g l r s t).state
  | .strdup str f g l r s, t => (at_strdup str f g l r s t).state
  | .getdelim o b st f g l r s, t => (at_getdelim o b st f g l r s t).state
  | .getline o b st f g l r s, t => (at_getline o b st f g l r s t).state
  | .free p, t => (at_free p t).state
  | .fopen n m f g l r s, t => (at_fopen n m f g l r s t).state
  | .freopen n m st f g l r s, t => (at_freopen n m st f g l r s t).state
  | .tmpfile f g l r s, t => (at_tmpfile f g l r s t).state
  | .fclose h, t => (at_fclose h t).state

/-- The number of entries a stretch of the trace adds to the ledger of kind `k`. -/
def adds (k : at_list_type_t) (tr : List Event) : Nat :=
  tr.countP fun e => match e with
    | .list_add j _ => decide (j = k)
    | _ => false

/-- The number of entries a stretch of the trace removes from the ledger of kind
`k`. -/
def removes (k : at_list_type_t) (tr : List Event) : Nat :=
  tr.countP fun e => match e with
    | .list_remove j _ => decide (j = k)
    | _ => false

/-- The counter `x` after `n` increments `++x` of a `size_t`. -/
def bump (x n : Nat) : Nat := (fun c => wadd c 1)^[n] x

/-- Each list header has the kind of the global it hangs on, as `at_list_add`
writes it. -/
def typed (t : Tracker) : Bool :=
  (match t.heap_list with
    | some l => decide (l.type = AT_LIST_TYPE_HEAP)
    | none => true) &&
  (match t.file_list with
    | some l => decide (l.type = AT_LIST_TYPE_FILE)
    | none => true)

/-- The call `at_freopen` gives up a file item that is not in the ledger: mode and
stream pass the checks, the lookup part ends without an item (the stream is not
tracked, or was tracked under another path and has been removed), and `freopen`
fails. -/
def freopen_discards (name mode : Option String) (stream freopen_result : Nat)
    (t : Tracker) : Bool :=
  !null_or_empty mode && decide (stream ≠ 0) && decide (freopen_result = 0) &&
    (match at_freopen_lookup name mode stream t with
      | .ok r _ => decide (r.1 = 0)
      | .fault _ _ => false)

/-- The number of times an operation calls `at_track_stats_release` on a file
item that is not in the ledger. -/
def Op.discards : Op → Tracker → Nat
  | .freopen name mode stream _ _ _ freopen_result _, t =>
    if freopen_discards name mode stream freopen_result t then 1 else 0
  | _, _ => 0

/-- The counters of `t'` account for the ledger events between `t` and `t'`,
with `e` more increments of `close_no`; `t'` has counters of a run and typed
headers. -/
def Acct (e : Nat) (t t' : Tracker) : Prop :=
  stats_valid t' = true ∧ typed t' = true ∧
  ∃ tr, t'.trace = t.trace ++ tr ∧
    t'.stats.alloc_no = bump t.stats.alloc_no (adds AT_LIST_TYPE_HEAP tr) ∧
    t'.stats.free_no = bump t.stats.free_no (removes AT_LIST_TYPE_HEAP tr) ∧
    t'.stats.open_no = bump t.stats.open_no (adds AT_LIST_TYPE_FILE tr) ∧
    t'.stats.close_no = bump t.stats.close_no (removes AT_LIST_TYPE_FILE tr + e) ∧
    (adds AT_LIST_TYPE_HEAP tr = 0 → t'.stats.alloc_amount = t.stats.alloc_amount) ∧
    (removes AT_LIST_TYPE_HEAP tr = 0 → t'.stats.free_amount = t.stats.free_amount)

/-- The code `m` keeps the account from every tracker of a run with typed
headers. -/
def Keeps {α : Type} (m : M α) : Prop :=
  ∀ t, stats_valid t = true → typed t = true → Acct 0 t (m t).state

/-- The heap item as `at_heap_list_item_new` leaves it: provenance and the id
from the counter, no block, size 0. -/
def new_heap_item (t : Tracker) (filename function : Option String) (line : Int) :
    at_list_item_t :=
  { item_blank with
    filename := filename, function := function, line := line, id := t.heap_id_counter }

/-- The heap item `at_getdelim` hands to `at_list_add` for a null caller buffer:
the buffer and the capacity that `getdelim` reports. -/
def getdelim_item (t : Tracker) (filename function : Option String) (line : Int)
    (sys : getdelim_result) : at_list_item_t :=
  { item_blank with
    filename := filename, function := function, line := line, id := t.heap_id_counter,
    pointer := sys.line, size := toLong sys.cap }

/-- The file item `at_fopen` hands to `at_list_add`. -/
def fopen_item (t : Tracker) (name mode filename function : Option String) (line : Int)
    (handle : Nat) : at_list_item_t :=
  { item_blank with
    filename := filename, function := function, line := line, id := t.file_id_counter,
    handle := handle, name := name, mode := mode }

/-- The tracker after `at_fopen("x.txt", "w")` has opened stream 7 as the first
tracked call of the program. -/
def one_file : Tracker :=
  (at_fopen (some "x.txt") (some "w") (some "a.c") (some "f") 10 7 0 Tracker.fresh).state

/-- The tracker after an `at_malloc(1024)` whose `malloc` failed, as the first
tracked call of the program: one heap entry with the sentinel size. -/
def failed_block : Tracker :=
  (at_malloc 1024 (some "a.c") (some "f") 10 0 0 Tracker.fresh).state

/-- A call of an operation as a step of a run; the value it returns is dropped. -/
def Op.call : Op → M Unit
  | .malloc n f g l r s => do let _ ← at_malloc n f g l r s
  | .calloc b n f g l r s => do let _ ← at_calloc b n f g l r s
  | .realloc p n f g l r s => do let _ ← at_realloc p n f g l r s
  | .strdup str f g l r s => do let _ ← at_strdup str f g l r s
  | .getdelim o b st f g l r s => do let _ ← at_getdelim o b st f g l r s
  | .getline o b st f g l r s => do let _ ← at_getline o b st f g l r s
  | .free p => at_free p
  | .fopen n m f g l r s => do let _ ← at_fopen n m f g l r s
  | .freopen n m st f g l r s => do let _ ← at_freopen n m st f g l r s
  | .tmpfile f g l r s => do let _ ← at_tmpfile f g l r s
  | .fclose h => at_fclose h

/-- A program: the calls one after the other, up to the first fault. -/
def run_ops : List Op → M Unit
  | [] => pure ()
  | op :: rest => do
    op.call
    run_ops rest

/-- The `id` fields of the items on the walk over the ledger of kind `k`, or
`none` when the walk does not end within the store. -/
def entry_ids (t : Tracker) (k : at_list_type_t) : Option (List Nat) :=
  (entries t k).map fun L => L.filterMap fun a => (peek t.mem a).toOption.map fun it => it.id

/-- The program `p1 = malloc(8); p2 = malloc(8); p3 = malloc(8); free(p1);
free(p2)`: the head is released twice in a row. -/
def fifo_release_calls : List Op :=
  [.malloc 8 (some "a.c") (some "f") 10 4096 0, .malloc 8 (some "a.c") (some "f") 11 8192 0,
    .malloc 8 (some "a.c") (some "f") 12 12288 0, .free 4096, .free 8192]

/-- The program `p1 = malloc(8); p2 = malloc(8); p3 = malloc(8); free(p1);
p4 = malloc(8)`, where the allocator gives the fourth item the block of the
first. -/
def head_reuse_calls : List Op :=
  [.malloc 8 (some "a.c") (some "f") 10 4096 0, .malloc 8 (some "a.c") (some "f") 11 8192 0,
    .malloc 8 (some "a.c") (some "f") 12 12288 0, .free 4096,
    .malloc 8 (some "a.c") (some "f") 13 16384 1]

/-- The program `p1 = malloc(8); p2 = malloc(8); free(p2); p3 = malloc(8)`;
`slot` decides which block the allocator hands out for the third item. -/
def tail_release_calls (slot : Nat) : List Op :=
  [.malloc 8 (some "a.c") (some "f") 10 4096 0, .malloc 8 (some "a.c") (some "f") 11 8192 0,
    .free 8192, .malloc 8 (some "a.c") (some "f") 13 12288 slot]

/-- The program that opens and closes two files, allocates two blocks, releases
the second, opens a third file and allocates a third block, where the allocator
gives the item of the third file the block of the item released before. -/
def mixed_kind_calls : List Op :=
  [.fopen (some "a") (some "w") (some "a.c") (some "f") 1 7 0, .fclose 7,
    .fopen (some "b") (some "w") (some "a.c") (some "f") 2 8 0, .fclose 8,
    .malloc 8 (some "a.c") (some "f") 10 4096 0, .malloc 8 (some "a.c") (some "f") 11 8192 0,
    .free 8192,
    .fopen (some "c") (some "w") (some "a.c") (some "f") 3 9 4,
    .malloc 8 (some "a.c") (some "f") 12 12288 0]

/-! # Theorems -/

/-! ## Running code -/

@[simp] theorem bind_apply {α β : Type} (m : M α) (f : α → M β) (t : Tracker) :
    (m >>= f) t = match m t with
      | .ok a t' => f a t'
      | .fault e t' => .fault e t' := rfl

@[simp] theorem pure_apply {α : Type} (a : α) (t : Tracker) : (pure a : M α) t = .ok a t := rfl

@[simp] theorem getT_apply (t : Tracker) : getT t = .ok t t := rfl

@[simp] theorem modifyT_apply (f : Tracker → Tracker) (t : Tracker) :
    modifyT f t = .ok () (f t) := rfl

@[simp] theorem fail_apply {α : Type} (f : Fault) (t : Tracker) :
    (fail f : M α) t = .fault f t := rfl

@[simp] theorem emit_apply (e : Event) (t : Tracker) :
    emit e t = .ok () { t with trace := t.trace ++ [e] } := rfl

/-! ## The item store -/

theorem peek_ok_iff (mem : List (Option at_list_item_t)) (a : Nat) (it : at_list_item_t) :
    peek mem a = .ok it ↔ a ≠ 0 ∧ mem[a - 1]? = some (some it) := by
  unfold peek
  by_cases h : a = 0
  · simp [h]
  · simp only [h, if_false, ne_eq, not_false_eq_true, true_and]
    cases hm : mem[a - 1]? with
    | none => simp
    | some c => cases c <;> simp

theorem peek_ok_lt {mem : List (Option at_list_item_t)} {a : Nat} {it : at_list_item_t}
    (h : peek mem a = .ok it) : 0 < a ∧ a ≤ mem.length := by
  rw [peek_ok_iff] at h
  obtain ⟨h0, h1⟩ := h
  have := (List.getElem?_eq_some_iff.mp h1).1
  omega

theorem peek_set_self {mem : List (Option at_list_item_t)} {a : Nat} {it : at_list_item_t}
    (h : peek mem a = .ok it) (v : at_list_item_t) :
    peek (mem.set (a - 1) (some v)) a = .ok v := by
  have hl := peek_ok_lt h
  rw [peek_ok_iff]
  refine ⟨by omega, ?_⟩
  rw [List.getElem?_set_self (by omega)]

theorem peek_set_other (mem : List (Option at_list_item_t)) {a b : Nat}
    (v : Option at_list_item_t) (hb : b ≠ 0) (h : a ≠ b) :
    peek (mem.set (b - 1) v) a = peek mem a := by
  unfold peek
  by_cases h0 : a = 0
  · simp [h0]
  · simp only [h0, if_false]
    rw [List.getElem?_set_ne (by omega)]

theorem peek_append_old (mem : List (Option at_list_item_t)) {a : Nat}
    (v : Option at_list_item_t) (h : a ≠ mem.length + 1) :
    peek (mem ++ [v]) a = peek mem a := by
  unfold peek
  by_cases h0 : a = 0
  · simp [h0]
  · simp only [h0, if_false]
    by_cases hl : a - 1 < mem.length
    · rw [List.getElem?_append_left hl]
    · rw [List.getElem?_eq_none (by simp; omega), List.getElem?_eq_none (by omega)]

theorem peek_append_new (mem : List (Option at_list_item_t)) (v : at_list_item_t) :
    peek (mem ++ [some v]) (mem.length + 1) = .ok v := by
  rw [peek_ok_iff]
  simp

theorem peek_zero (mem : List (Option at_list_item_t)) : peek mem 0 = .error .null_deref := by
  simp [peek]

theorem peek_ok_ne_zero {mem : List (Option at_list_item_t)} {a : Nat} {it : at_list_item_t}
    (h : peek mem a = .ok it) : a ≠ 0 := by
  intro h0
  rw [h0, peek_zero] at h
  cases h

theorem isChain_nil (mem : List (Option at_list_item_t)) (a : Nat) :
    IsChain mem a [] ↔ a = 0 := Iff.rfl

theorem isChain_cons (mem : List (Option at_list_item_t)) (a x : Nat) (L : List Nat) :
    IsChain mem a (x :: L) ↔ a = x ∧ ∃ it, peek mem a = .ok it ∧ IsChain mem it.next L := Iff.rfl

theorem isChain_unique {mem : List (Option at_list_item_t)} :
    ∀ {L1 L2 : List Nat} {a : Nat}, IsChain mem a L1 → IsChain mem a L2 → L1 = L2
  | [], [], _, _, _ => rfl
  | [], _ :: _, a, h1, h2 => by
    rw [isChain_nil] at h1
    obtain ⟨_, it, hp, _⟩ := h2
    exact absurd h1 (peek_ok_ne_zero hp)
  | _ :: _, [], a, h1, h2 => by
    rw [isChain_nil] at h2
    obtain ⟨_, it, hp, _⟩ := h1
    exact absurd h2 (peek_ok_ne_zero hp)
  | x :: L1, y :: L2, a, h1, h2 => by
    obtain ⟨e1, it1, hp1, c1⟩ := h1
    obtain ⟨e2, it2, hp2, c2⟩ := h2
    rw [hp1] at hp2
    cases hp2
    rw [← e1, ← e2, isChain_unique c1 c2]

theorem chain_from_eq_some (mem : List (Option at_list_item_t)) :
    ∀ (fuel a : Nat) (L : List Nat),
      chain_from mem fuel a = some L ↔ IsChain mem a L ∧ L.length < fuel
  | 0, a, L => by simp [chain_from]
  | fuel + 1, a, L => by
    unfold chain_from
    by_cases h0 : a = 0
    · subst h0
      cases L with
      | nil => simp [isChain_nil]
      | cons x L =>
        simp only [if_true, Option.some.injEq, isChain_cons, peek_zero]
        constructor
        · intro h; cases h
        · rintro ⟨⟨_, it, hp, _⟩, _⟩; cases hp
    · simp only [h0, if_false]
      cases hp : peek mem a with
      | error e =>
        cases L with
        | nil => simp [isChain_nil, h0]
        | cons x L => simp [isChain_cons, hp]
      | ok it =>
        cases L with
        | nil => simp [isChain_nil, h0]
        | cons x L =>
          simp only [Option.map_eq_some', List.cons.injEq, isChain_cons, hp, Except.ok.injEq,
            exists_eq_left', List.length_cons, Nat.add_lt_add_iff_right]
          constructor
          · rintro ⟨rest, hr, rfl, rfl⟩
            exact ⟨⟨rfl, ((chain_from_eq_some mem fuel it.next rest).mp hr).1⟩,
              ((chain_from_eq_some mem fuel it.next rest).mp hr).2⟩
          · rintro ⟨⟨rfl, hc⟩, hl⟩
            exact ⟨L, (chain_from_eq_some mem fuel it.next L).mpr ⟨hc, hl⟩, rfl, rfl⟩

/-- Every entry of a walk can be dereferenced. -/
theorem isChain_mem_live {mem : List (Option at_list_item_t)} :
    ∀ {L : List Nat} {a : Nat}, IsChain mem a L → ∀ x ∈ L, ∃ it, peek mem x = .ok it
  | [], _, _, x, hx => by cases hx
  | y :: L, a, h, x, hx => by
    obtain ⟨e, it, hp, c⟩ := h
    rcases List.mem_cons.mp hx with rfl | hx'
    · exact ⟨it, e ▸ hp⟩
    · exact isChain_mem_live c x hx'

/-- The walk from an entry of a walk is the rest of that walk. -/
theorem isChain_suffix {mem : List (Option at_list_item_t)} :
    ∀ {L1 : List Nat} {a x : Nat} {L2 : List Nat},
      IsChain mem a (L1 ++ x :: L2) → IsChain mem x (x :: L2)
  | [], a, x, L2, h => by
    obtain ⟨e, it, hp, c⟩ := h
    subst e
    exact ⟨rfl, it, hp, c⟩
  | y :: L1, a, x, L2, h => by
    obtain ⟨_, it, _, c⟩ := h
    exact isChain_suffix c

theorem isChain_nodup {mem : List (Option at_list_item_t)} :
    ∀ {L : List Nat} {a : Nat}, IsChain mem a L → L.Nodup
  | [], _, _ => List.nodup_nil
  | x :: L, a, h => by
    have h' := h
    obtain ⟨e, it, hp, c⟩ := h
    refine List.nodup_cons.mpr ⟨?_, isChain_nodup c⟩
    intro hx
    obtain ⟨L1, L2, hL⟩ := List.append_of_mem hx
    have hs : IsChain mem x (x :: L2) := by
      rw [hL] at c
      exact isChain_suffix c
    have hx' : IsChain mem x (x :: L) := e ▸ h'
    have := isChain_unique hs hx'
    have hlen := congrArg List.length this
    rw [hL] at hlen
    simp at hlen
    omega

/-- A walk has no more entries than the store has cells that are not `dead`. -/
theorem isChain_length_le {mem : List (Option at_list_item_t)} {L : List Nat} {a : Nat}
    (h : IsChain mem a L) (dead : Finset Nat)
    (hd : ∀ x ∈ dead, 0 < x ∧ x ≤ mem.length ∧ ∀ it, peek mem x ≠ .ok it) :
    L.length + dead.card ≤ mem.length := by
  have hnd := isChain_nodup h
  have hlive := isChain_mem_live h
  have hsub : L.toFinset ∪ dead ⊆ Finset.Icc 1 mem.length := by
    intro x hx
    rw [Finset.mem_union] at hx
    rw [Finset.mem_Icc]
    rcases hx with hx | hx
    · obtain ⟨it, hp⟩ := hlive x (List.mem_toFinset.mp hx)
      have := peek_ok_lt hp
      omega
    · have := hd x hx
      omega
  have hdisj : Disjoint L.toFinset dead := by
    rw [Finset.disjoint_left]
    intro x hx hx'
    obtain ⟨it, hp⟩ := hlive x (List.mem_toFinset.mp hx)
    exact (hd x hx').2.2 it hp
  have hc := Finset.card_le_card hsub
  rw [Finset.card_union_of_disjoint hdisj, List.toFinset_card_of_nodup hnd] at hc
  simpa using hc

/-! ## Lookup -/

theorem load_apply (a : Nat) (t : Tracker) :
    load a t = match peek t.mem a with
      | .ok it => .ok it t
      | .error f => .fault f t := rfl

theorem matches_iff (type : at_list_type_t) (p : Nat) (it : at_list_item_t) :
    ((type = AT_LIST_TYPE_HEAP ∧ it.pointer = p) ∨ (type = AT_LIST_TYPE_FILE ∧ it.handle = p)) ↔
      identity type it = p := by
  cases type <;> simp [identity]

/-- The lookup loop along a walk without a matching entry returns `NULL`. -/
theorem at_list_get_loop_none (type : at_list_type_t) (p : Nat) (t : Tracker) :
    ∀ (L : List Nat) (fuel a : Nat), IsChain t.mem a L → L.length < fuel →
      (∀ x ∈ L, ∀ it, peek t.mem x = .ok it → identity type it ≠ p) →
      at_list_get_loop type p fuel a t = .ok 0 t
  | [], fuel, a, hc, hf, _ => by
    obtain ⟨fuel, rfl⟩ : ∃ n, fuel = n + 1 := ⟨fuel - 1, by simp at hf; omega⟩
    rw [isChain_nil] at hc
    simp [at_list_get_loop, hc]
  | x :: L, fuel, a, hc, hf, hn => by
    obtain ⟨fuel, rfl⟩ : ∃ n, fuel = n + 1 := ⟨fuel - 1, by simp at hf; omega⟩
    obtain ⟨e, it, hp, c⟩ := hc
    subst e
    have h0 := peek_ok_ne_zero hp
    have hm := (not_congr (matches_iff type p it)).mpr (hn a (List.mem_cons_self _ _) it hp)
    simp only [at_list_get_loop, h0, if_false, bind_apply, load_apply, hp, hm]
    exact at_list_get_loop_none type p t L fuel it.next c (by simpa using hf)
      (fun y hy => hn y (List.mem_cons_of_mem _ hy))

/-- The lookup loop returns the first entry of a walk that matches. -/
theorem at_list_get_loop_found (type : at_list_type_t) (p : Nat) (t : Tracker) :
    ∀ (L1 : List Nat) (x : Nat) (L2 : List Nat) (fuel a : Nat) (itx : at_list_item_t),
      IsChain t.mem a (L1 ++ x :: L2) → L1.length < fuel →
      (∀ y ∈ L1, ∀ it, peek t.mem y = .ok it → identity type it ≠ p) →
      peek t.mem x = .ok itx → identity type itx = p →
      at_list_get_loop type p fuel a t = .ok x t
  | [], x, L2, fuel, a, itx, hc, hf, _, hx, hi => by
    obtain ⟨fuel, rfl⟩ : ∃ n, fuel = n + 1 := ⟨fuel - 1, by simp at hf; omega⟩
    obtain ⟨e, it, hp, c⟩ := hc
    subst e
    have h0 := peek_ok_ne_zero hp
    rw [← matches_iff] at hi
    simp [at_list_get_loop, h0, load_apply, hx, hi]
  | y :: L1, x, L2, fuel, a, itx, hc, hf, hn, hx, hi => by
    obtain ⟨fuel, rfl⟩ : ∃ n, fuel = n + 1 := ⟨fuel - 1, by simp at hf; omega⟩
    obtain ⟨e, it, hp, c⟩ := hc
    subst e
    have h0 := peek_ok_ne_zero hp
    have hm := (not_congr (matches_iff type p it)).mpr (hn a (List.mem_cons_self _ _) it hp)
    simp only [at_list_get_loop, h0, if_false, bind_apply, load_apply, hp, hm]
    exact at_list_get_loop_found type p t L1 x L2 fuel it.next itx c (by simpa using hf)
      (fun z hz => hn z (List.mem_cons_of_mem _ hz)) hx hi

/-- The lookup loop never changes the tracker, and what it returns other than
`NULL` is an item with the identity looked for. -/
theorem at_list_get_loop_sound (type : at_list_type_t) (p : Nat) (t : Tracker) :
    ∀ (fuel a : Nat),
      (∃ f, at_list_get_loop type p fuel a t = .fault f t) ∨
      at_list_get_loop type p fuel a t = .ok 0 t ∨
      ∃ r it, at_list_get_loop type p fuel a t = .ok r t ∧ peek t.mem r = .ok it ∧
        identity type it = p
  | 0, a => Or.inl ⟨_, rfl⟩
  | fuel + 1, a => by
    by_cases h0 : a = 0
    · simp [at_list_get_loop, h0]
    · cases hp : peek t.mem a with
      | error e => exact Or.inl ⟨e, by simp [at_list_get_loop, h0, load_apply, hp]⟩
      | ok it =>
        by_cases hm : identity type it = p
        · refine Or.inr (Or.inr ⟨a, it, ?_, hp, hm⟩)
          have hm' := (matches_iff type p it).mpr hm
          simp [at_list_get_loop, h0, load_apply, hp, hm']
        · have hm' := (not_congr (matches_iff type p it)).mpr hm
          simp only [at_list_get_loop, h0, if_false, bind_apply, load_apply, hp, hm']
          exact at_list_get_loop_sound type p t fuel it.next

theorem untracked_some {t : Tracker} {k : at_list_type_t} {p : Nat} {list : at_list_t}
    (h : untracked t k p = true) (hl : listOf t k = some list) :
    ∃ L, IsChain t.mem list.first L ∧ L.length < t.mem.length + 1 ∧
      ∀ x ∈ L, ∀ it, peek t.mem x = .ok it → identity list.type it ≠ p := by
  unfold untracked at h
  rw [hl] at h
  cases hc : chain_from t.mem (t.mem.length + 1) list.first with
  | none => simp [hc] at h
  | some L =>
    simp only [hc, List.all_eq_true] at h
    refine ⟨L, ((chain_from_eq_some _ _ _ _).mp hc).1, ((chain_from_eq_some _ _ _ _).mp hc).2, ?_⟩
    intro x hx it hp
    have := h x hx
    simpa [hp] using this

theorem at_list_get_untracked (k : at_list_type_t) (p : Nat) (t : Tracker)
    (h : untracked t k p = true) : at_list_get k p t = .ok 0 t := by
  unfold at_list_get
  cases hl : listOf t k with
  | none => simp [hl]
  | some list =>
    obtain ⟨L, hc, hf, hn⟩ := untracked_some h hl
    simp only [bind_apply, getT_apply, hl]
    by_cases hp : p = 0
    · simp [hp]
    · by_cases hlen : list.length = 0
      · simp [hp, hlen]
      · simp only [hp, hlen, if_false]
        exact at_list_get_loop_none list.type p t L _ list.first hc hf hn

theorem at_list_remove_untracked (k : at_list_type_t) (p : Nat) (t : Tracker)
    (h : untracked t k p = true) : at_list_remove k p t = .ok () t := by
  have hg := at_list_get_untracked k p t h
  unfold at_list_remove
  cases hl : listOf t k with
  | none => simp [hl]
  | some list =>
    simp only [bind_apply, getT_apply, hl]
    by_cases hp : p = 0
    · simp [hp]
    · by_cases hlen : list.length = 0
      · simp [hp, hlen]
      · simp [hp, hlen, hg]

/-- C4: a requested size that is zero, or negative when read as a signed long,
makes `at_malloc` return `NULL`; no item is created, both ledgers, the item store,
the id counters and all six counters stay as they are, and only the diagnostic is
written. -/
theorem at_malloc_rejects_invalid_size (t : Tracker) (length : Nat)
    (filename function : Option String) (line : Int) (malloc_result slot : Nat)
    (h : length = 0 ∨ (2 ^ 63 ≤ length ∧ length < 2 ^ 64)) :
    at_malloc length filename function line malloc_result slot t =
      .ok 0 { t with trace := t.trace ++ [.diag_invalid_request (toLong length)] } := by
  have hc : length % WORD = 0 ∨ toLong length < 0 := by
    rcases h with h | ⟨h1, h2⟩
    · left; simp [h]
    · right
      have hm : length % WORD = length := Nat.mod_eq_of_lt (by simpa [WORD] using h2)
      unfold toLong
      rw [hm, if_neg (by omega)]
      have : (WORD : Int) = 2 ^ 64 := by simp [WORD]
      omega
  simp [at_malloc, hc]

theorem at_malloc_rejects_invalid_size_witness :
    at_malloc (2 ^ 63) (some "a.c") (some "f") 10 4096 0 one_block =
      .ok 0 { one_block with
        trace := one_block.trace ++ [.diag_invalid_request (toLong (2 ^ 63))] } :=
  at_malloc_rejects_invalid_size one_block (2 ^ 63) (some "a.c") (some "f") 10 4096 0
    (Or.inr (by decide))

/-- C6: `at_free` and `at_fclose` with the null identity, or with an identity no
entry of the ledger has, return with the whole tracker unchanged: the ledger
length, every entry and all six counters. -/
theorem release_of_null_or_unknown_identity (t : Tracker) (k : at_list_type_t) (p : Nat)
    (h : p = 0 ∨ untracked t k p = true) :
    (match k with
      | AT_LIST_TYPE_HEAP => at_free p t
      | AT_LIST_TYPE_FILE => at_fclose p t) = .ok () t := by
  cases k
  · show at_free p t = .ok () t
    unfold at_free
    by_cases hp : p = 0
    · simp [hp]
    · rw [if_neg hp]
      exact at_list_remove_untracked _ p t (h.resolve_left hp)
  · show at_fclose p t = .ok () t
    unfold at_fclose
    by_cases hp : p = 0
    · simp [hp]
    · rw [if_neg hp]
      exact at_list_remove_untracked _ p t (h.resolve_left hp)

theorem release_of_null_or_unknown_identity_witness :
    untracked one_block AT_LIST_TYPE_HEAP 8192 = true ∧
      at_free 8192 one_block = .ok () one_block :=
  ⟨by decide!, release_of_null_or_unknown_identity one_block AT_LIST_TYPE_HEAP 8192
    (Or.inr (by decide!))⟩

theorem untracked_trace (t : Tracker) (k : at_list_type_t) (p : Nat) (tr : List Event) :
    untracked { t with trace := tr } k p = untracked t k p := by
  cases k <;> rfl

/-- C8: `at_realloc` on a non-null pointer that no entry of the heap ledger has
returns `NULL`; both ledgers, every item, the id counters and all six counters
stay as they are. The only effect is the diagnostic for a size that is not
positive as a signed long. -/
theorem at_realloc_of_unknown_pointer (t : Tracker) (p n : Nat)
    (filename function : Option String) (line : Int) (sys_result slot : Nat)
    (hp : p ≠ 0) (h : untracked t AT_LIST_TYPE_HEAP p = true) :
    at_realloc p n filename function line sys_result slot t =
      .ok 0 { t with trace := t.trace ++
        (if toLong n ≤ 0 then [Event.diag_invalid_request (toLong n)] else []) } := by
  unfold at_realloc
  rw [if_neg hp]
  by_cases hn : toLong n ≤ 0
  · have hu := at_list_get_untracked AT_LIST_TYPE_HEAP p
      { t with trace := t.trace ++ [Event.diag_invalid_request (toLong n)] }
      (by rw [untracked_trace]; exact h)
    simp [hn, hu]
  · have hu := at_list_get_untracked AT_LIST_TYPE_HEAP p t h
    simp [hn, hu]

theorem at_realloc_of_unknown_pointer_witness :
    untracked one_block AT_LIST_TYPE_HEAP 8192 = true ∧
      at_realloc 8192 64 (some "b.c") (some "g") 20 12288 0 one_block =
        .ok 0 { one_block with trace := one_block.trace ++
          (if toLong 64 ≤ 0 then [Event.diag_invalid_request (toLong 64)] else []) } :=
  ⟨by decide!, at_realloc_of_unknown_pointer one_block 8192 64 (some "b.c") (some "g") 20 12288 0
    (by decide) (by decide!)⟩

theorem at_list_get_loop_eq (type : at_list_type_t) (p : Nat) (t : Tracker) :
    ∀ (fuel a : Nat), at_list_get_loop type p fuel a t =
      match lookup_loop t.mem type p fuel a with
      | .ok r => .ok r t
      | .error f => .fault f t
  | 0, a => rfl
  | fuel + 1, a => by
    by_cases h0 : a = 0
    · simp [at_list_get_loop, lookup_loop, h0]
    · cases hp : peek t.mem a with
      | error e => simp [at_list_get_loop, lookup_loop, h0, load_apply, hp]
      | ok it =>
        by_cases hm : (type = AT_LIST_TYPE_HEAP ∧ it.pointer = p) ∨
            (type = AT_LIST_TYPE_FILE ∧ it.handle = p)
        · simp [at_list_get_loop, lookup_loop, h0, load_apply, hp, hm]
        · simp only [at_list_get_loop, lookup_loop, h0, if_false, bind_apply, load_apply, hp, hm]
          exact at_list_get_loop_eq type p t fuel it.next

/-- The function `at_list_get` only reads. -/
theorem at_list_get_eq (k : at_list_type_t) (p : Nat) (t : Tracker) :
    at_list_get k p t =
      match lookup t k p with
      | .ok r => .ok r t
      | .error f => .fault f t := by
  unfold at_list_get lookup
  cases hl : listOf t k with
  | none => simp [hl]
  | some list =>
    simp only [bind_apply, getT_apply, hl]
    by_cases hp : p = 0
    · simp [hp]
    · by_cases hlen : list.length = 0
      · simp [hp, hlen]
      · simp only [hp, hlen, if_false]
        exact at_list_get_loop_eq list.type p t _ list.first

theorem lookup_of_get {k : at_list_type_t} {p : Nat} {t t' : Tracker} {a : Nat}
    (h : at_list_get k p t = .ok a t') : lookup t k p = .ok a := by
  rw [at_list_get_eq] at h
  cases hl : lookup t k p with
  | error e => simp [hl] at h
  | ok r =>
    simp only [hl, Res.ok.injEq] at h
    rw [h.1]

theorem lookup_loop_sound (mem : List (Option at_list_item_t)) (type : at_list_type_t) (p : Nat) :
    ∀ (fuel a r : Nat), lookup_loop mem type p fuel a = .ok r → r ≠ 0 →
      ∃ it, peek mem r = .ok it ∧ identity type it = p
  | 0, a, r, h, _ => by cases h
  | fuel + 1, a, r, h, hr => by
    unfold lookup_loop at h
    by_cases h0 : a = 0
    · simp only [h0, if_true, Except.ok.injEq] at h
      exact absurd h.symm hr
    · simp only [h0, if_false] at h
      cases hp : peek mem a with
      | error e => simp [hp] at h
      | ok it =>
        simp only [hp] at h
        by_cases hm : (type = AT_LIST_TYPE_HEAP ∧ it.pointer = p) ∨
            (type = AT_LIST_TYPE_FILE ∧ it.handle = p)
        · simp only [hm, if_true, Except.ok.injEq] at h
          subst h
          exact ⟨it, hp, (matches_iff type p it).mp hm⟩
        · simp only [hm, if_false] at h
          exact lookup_loop_sound mem type p fuel it.next r h hr

/-- What the lookup finds is an item of the store with the identity asked for. -/
theorem lookup_sound {t : Tracker} {k : at_list_type_t} {p a : Nat}
    (h : lookup t k p = .ok a) (ha : a ≠ 0) :
    ∃ list it, listOf t k = some list ∧ p ≠ 0 ∧ list.length ≠ 0 ∧
      peek t.mem a = .ok it ∧ identity list.type it = p := by
  unfold lookup at h
  cases hl : listOf t k with
  | none =>
    simp only [hl, Except.ok.injEq] at h
    exact absurd h.symm ha
  | some list =>
    simp only [hl] at h
    by_cases hp : p = 0
    · simp only [hp, if_true, Except.ok.injEq] at h
      exact absurd h.symm ha
    · by_cases hlen : list.length = 0
      · simp only [hp, hlen, if_true, if_false, Except.ok.injEq] at h
        exact absurd h.symm ha
      · simp only [hp, hlen, if_false] at h
        obtain ⟨it, hit, hid⟩ := lookup_loop_sound _ _ _ _ _ _ h ha
        exact ⟨list, it, rfl, hp, hlen, hit, hid⟩

theorem lookup_trace (t : Tracker) (k : at_list_type_t) (p : Nat) (tr : List Event) :
    lookup { t with trace := tr } k p = lookup t k p := by
  cases k <;> rfl

/-- Overwriting an item without touching its `next` link leaves every walk as it
is. -/
theorem chain_from_set_same_next (mem : List (Option at_list_item_t)) {a : Nat}
    {it it' : at_list_item_t} (ha : peek mem a = .ok it) (hn : it'.next = it.next) :
    ∀ (fuel x : Nat), chain_from (mem.set (a - 1) (some it')) fuel x = chain_from mem fuel x
  | 0, x => rfl
  | fuel + 1, x => by
    unfold chain_from
    by_cases h0 : x = 0
    · simp [h0]
    · simp only [h0, if_false]
      by_cases hx : x = a
      · subst hx
        rw [peek_set_self ha, ha]
        simp only [hn]
        rw [chain_from_set_same_next mem ha hn fuel it.next]
      · rw [peek_set_other mem _ (peek_ok_ne_zero ha) hx]
        cases hp : peek mem x with
        | error e => rfl
        | ok itx =>
          simp only
          rw [chain_from_set_same_next mem ha hn fuel itx.next]

theorem store_apply (a : Nat) (f : at_list_item_t → at_list_item_t) (t : Tracker) :
    store a f t = match peek t.mem a with
      | .ok it => .ok () { t with mem := t.mem.set (a - 1) (some (f it)) }
      | .error e => .fault e t := rfl

theorem toLong_of_le_LONG_MAX {n : Nat} (h : n ≤ LONG_MAX) : toLong n = (n : Int) := by
  have h1 : n < 2 ^ 63 := by simp [LONG_MAX] at h; omega
  have hm : n % WORD = n := Nat.mod_eq_of_lt (by simp [WORD]; omega)
  unfold toLong
  rw [hm, if_pos h1]

theorem entries_set_same_next (t : Tracker) (k : at_list_type_t) {a : Nat}
    {it : at_list_item_t} (ha : peek t.mem a = .ok it) (it' : at_list_item_t)
    (hn : it'.next = it.next)
    (tr : List Event) :
    entries { t with mem := t.mem.set (a - 1) (some it'), trace := tr } k = entries t k := by
  have h : ∀ x, chain_from (t.mem.set (a - 1) (some it')) ((t.mem.set (a - 1) (some it')).length + 1) x
      = chain_from t.mem (t.mem.length + 1) x := by
    intro x
    rw [List.length_set]
    exact chain_from_set_same_next t.mem ha hn _ x
  cases k
  · show (match t.heap_list with
      | none => some []
      | some list => chain_from _ _ list.first) = (match t.heap_list with
      | none => some []
      | some list => chain_from _ _ list.first)
    cases t.heap_list with
    | none => rfl
    | some list => exact h list.first
  · show (match t.file_list with
      | none => some []
      | some list => chain_from _ _ list.first) = (match t.file_list with
      | none => some []
      | some list => chain_from _ _ list.first)
    cases t.file_list with
    | none => rfl
    | some list => exact h list.first

theorem peek_set_eq (mem : List (Option at_list_item_t)) (a : Nat) (v : at_list_item_t)
    (h0 : a ≠ 0) (hl : a - 1 < mem.length) : peek (mem.set (a - 1) (some v)) a = .ok v := by
  rw [peek_ok_iff]
  exact ⟨h0, List.getElem?_set_self hl⟩

/-- C7: `at_realloc` on a non-null pointer that the lookup finds in the heap
ledger returns what `realloc` returns and rewrites the entry found, and nothing
else: the pointer becomes the result of `realloc`, the size the requested size
(the sentinel -1 when `realloc` failed), file, function and line those of the
call. The list header (length, first, last), the id and the links of the entry,
every other item, the id counters and the six counters are unchanged, no item is
created, and the walk over the ledger visits the same items in the same order. -/
theorem at_realloc_updates_entry_in_place (t : Tracker) (p n : Nat)
    (filename function : String) (line : Int) (sys_result slot a : Nat) (it : at_list_item_t)
    (hp : p ≠ 0) (hget : at_list_get AT_LIST_TYPE_HEAP p t = .ok a t) (ha : a ≠ 0)
    (hit : peek t.mem a = .ok it) (hfile : it.filename ≠ none) (hfun : it.function ≠ none) :
    ∃ t', at_realloc p n (some filename) (some function) line sys_result slot t =
        .ok sys_result t' ∧
      t'.mem = t.mem.set (a - 1) (some { it with
        pointer := sys_result, size := if sys_result ≠ 0 then toLong n else -1,
        filename := some filename, function := some function, line := line }) ∧
      t'.heap_list = t.heap_list ∧ t'.file_list = t.file_list ∧ t'.stats = t.stats ∧
      t'.heap_id_counter = t.heap_id_counter ∧ t'.mem.length = t.mem.length ∧
      entries t' AT_LIST_TYPE_HEAP = entries t AT_LIST_TYPE_HEAP ∧
      (n ≤ LONG_MAX → toLong n = (n : Int)) := by
  have hl := lookup_of_get hget
  obtain ⟨old_file, hof⟩ := Option.ne_none_iff_exists'.mp hfile
  obtain ⟨old_fun, hofn⟩ := Option.ne_none_iff_exists'.mp hfun
  have h0 := peek_ok_ne_zero hit
  refine ⟨{ t with
    mem := t.mem.set (a - 1) (some { it with
      pointer := sys_result, size := if sys_result ≠ 0 then toLong n else -1,
      filename := some filename, function := some function, line := line }),
    trace := t.trace ++
      (if toLong n ≤ 0 then [Event.diag_invalid_request (toLong n)] else []) },
    ?_, rfl, rfl, rfl, rfl, rfl, by simp, ?_, toLong_of_le_LONG_MAX⟩
  · unfold at_realloc
    rw [if_neg hp]
    have hlt : a - 1 < t.mem.length := by have := peek_ok_lt hit; omega
    by_cases hn : toLong n ≤ 0 <;> by_cases hr : sys_result = 0 <;>
      by_cases hf : old_file = filename <;> by_cases hg : old_fun = function <;>
      simp [hn, at_list_get_eq, lookup_trace, hl, ha, store_apply, load_apply, hit,
        peek_set_eq, hlt, hof, hofn, hr, hf, hg, h0]
  · apply entries_set_same_next t _ hit
    rfl

theorem at_realloc_updates_entry_in_place_witness :
    ∃ t', at_realloc 4096 256 (some "b.c") (some "g") 20 8192 0 one_block = .ok 8192 t' ∧
      t'.mem = one_block.mem.set (1 - 1) (some { (⟨0, 0, 0, some "a.c", some "f", 10, 4096, 1024, 0,
          none, none⟩ : at_list_item_t) with
        pointer := 8192, size := if 8192 ≠ 0 then toLong 256 else -1,
        filename := some "b.c", function := some "g", line := 20 }) ∧
      t'.heap_list = one_block.heap_list ∧ t'.file_list = one_block.file_list ∧
      t'.stats = one_block.stats ∧
      t'.heap_id_counter = one_block.heap_id_counter ∧ t'.mem.length = one_block.mem.length ∧
      entries t' AT_LIST_TYPE_HEAP = entries one_block AT_LIST_TYPE_HEAP ∧
      (256 ≤ LONG_MAX → toLong 256 = ((256 : Nat) : Int)) :=
  at_realloc_updates_entry_in_place one_block 4096 256 "b.c" "g" 20 8192 0 1
    ⟨0, 0, 0, some "a.c", some "f", 10, 4096, 1024, 0, none, none⟩
    (by decide) (by decide!) (by decide) rfl (by decide) (by decide)

/-! ## Allocation of items -/

theorem alloc_item_apply (slot : Nat) (it : at_list_item_t) (t : Tracker) :
    alloc_item slot it t = .ok (new_addr t.mem slot) { t with mem := place t.mem slot it } := rfl

theorem new_addr_ne_zero (mem : List (Option at_list_item_t)) (slot : Nat) :
    new_addr mem slot ≠ 0 := by
  unfold new_addr
  split
  · rename_i h; exact h.1
  · omega

/-- The block handed out is not in use. -/
theorem peek_new_addr (mem : List (Option at_list_item_t)) (slot : Nat) (it : at_list_item_t) :
    peek mem (new_addr mem slot) ≠ .ok it := by
  intro h
  rw [peek_ok_iff] at h
  unfold new_addr at h
  split at h
  · rename_i hs
    rw [hs.2] at h
    simp at h
  · have := (List.getElem?_eq_some_iff.mp h.2).1
    simp at this

theorem peek_place_new (mem : List (Option at_list_item_t)) (slot : Nat) (it : at_list_item_t) :
    peek (place mem slot it) (new_addr mem slot) = .ok it := by
  unfold place new_addr
  split
  · rename_i hs
    rw [peek_ok_iff]
    refine ⟨hs.1, ?_⟩
    have hl : slot - 1 < mem.length := by
      have := hs.2
      exact (List.getElem?_eq_some_iff.mp this).1
    exact List.getElem?_set_self hl
  · exact peek_append_new mem it

theorem peek_place_old (mem : List (Option at_list_item_t)) (slot : Nat) (it : at_list_item_t)
    {x : Nat} (hx : x ≠ new_addr mem slot) : peek (place mem slot it) x = peek mem x := by
  unfold place
  unfold new_addr at hx
  split
  · rename_i hs
    rw [if_pos hs] at hx
    exact peek_set_other mem _ hs.1 hx
  · rename_i hs
    rw [if_neg hs] at hx
    exact peek_append_old mem _ hx

theorem length_place_le (mem : List (Option at_list_item_t)) (slot : Nat) (it : at_list_item_t) :
    mem.length ≤ (place mem slot it).length := by
  unfold place
  split <;> simp

/-! ## The counters -/

theorem at_track_stats_aquire_heap (item : Nat) (t : Tracker) (it : at_list_item_t)
    (h : peek t.mem item = .ok it) :
    at_track_stats_aquire item AT_LIST_TYPE_HEAP t =
      .ok () (aquired t AT_LIST_TYPE_HEAP it.size) := by
  have h0 := peek_ok_ne_zero h
  have hs : (stats_init t).mem = t.mem := by
    unfold stats_init
    split
    · rfl
    · simp only
      split <;> [split; skip] <;> rfl
  unfold at_track_stats_aquire aquired
  cases hc : t.can_record <;>
    simp [h0, hc, at_track_stats_init, load_apply, h, hs]

theorem at_track_stats_aquire_file (item : Nat) (t : Tracker) (size : Int) (h0 : item ≠ 0) :
    at_track_stats_aquire item AT_LIST_TYPE_FILE t =
      .ok () (aquired t AT_LIST_TYPE_FILE size) := by
  unfold at_track_stats_aquire aquired
  cases hc : t.can_record <;> simp [h0, hc, at_track_stats_init]

theorem at_track_stats_release_heap (item : Nat) (t : Tracker) (it : at_list_item_t)
    (h : peek t.mem item = .ok it) :
    at_track_stats_release item AT_LIST_TYPE_HEAP t =
      .ok () (released t AT_LIST_TYPE_HEAP it.size) := by
  have h0 := peek_ok_ne_zero h
  have hs : (stats_init t).mem = t.mem := by
    unfold stats_init
    split
    · rfl
    · simp only
      split <;> [split; skip] <;> rfl
  unfold at_track_stats_release released
  cases hc : t.can_record <;>
    simp [h0, hc, at_track_stats_init, load_apply, h, hs]

theorem at_track_stats_release_file (item : Nat) (t : Tracker) (size : Int) (h0 : item ≠ 0) :
    at_track_stats_release item AT_LIST_TYPE_FILE t =
      .ok () (released t AT_LIST_TYPE_FILE size) := by
  unfold at_track_stats_release released
  cases hc : t.can_record <;> simp [h0, hc, at_track_stats_init]

theorem at_track_stats_aquire_eq (item : Nat) (k : at_list_type_t) (t : Tracker)
    (it : at_list_item_t) (h : peek t.mem item = .ok it) :
    at_track_stats_aquire item k t = .ok () (aquired t k it.size) := by
  cases k
  · exact at_track_stats_aquire_heap item t it h
  · exact at_track_stats_aquire_file item t it.size (peek_ok_ne_zero h)

theorem at_track_stats_release_eq (item : Nat) (k : at_list_type_t) (t : Tracker)
    (it : at_list_item_t) (h : peek t.mem item = .ok it) :
    at_track_stats_release item k t = .ok () (released t k it.size) := by
  cases k
  · exact at_track_stats_release_heap item t it h
  · exact at_track_stats_release_file item t it.size (peek_ok_ne_zero h)

theorem modifyList_apply (k : at_list_type_t) (f : at_list_t → at_list_t) (t : Tracker) :
    modifyList k f t = match listOf t k with
      | some l => .ok () (setList t k (some (f l)))
      | none => .fault .null_deref t := rfl

@[simp] theorem setList_mem (t : Tracker) (k : at_list_type_t) (l : Option at_list_t) :
    (setList t k l).mem = t.mem := by cases k <;> rfl

@[simp] theorem setList_trace (t : Tracker) (k : at_list_type_t) (l : Option at_list_t) :
    (setList t k l).trace = t.trace := by cases k <;> rfl

@[simp] theorem listOf_setList (t : Tracker) (k : at_list_type_t) (l : Option at_list_t) :
    listOf (setList t k l) k = l := by cases k <;> rfl

/-- The insertion into a ledger whose header does not exist yet. -/
theorem at_list_add_none (item : Nat) (k : at_list_type_t) (t : Tracker) (it : at_list_item_t)
    (hit : peek t.mem item = .ok it) (hl : listOf t k = none) :
    at_list_add item k t = .ok ()
      (after_add t k { length := 1, first := item, last := item, type := k } item it.size) := by
  have h0 := peek_ok_ne_zero hit
  have ha := at_track_stats_aquire_eq item k
    { setList t k (some { length := 1, first := item, last := item, type := k }) with
        trace := t.trace ++ [.list_add k item] } it (by simpa using hit)
  unfold at_list_add
  simp only [h0, if_false, bind_apply, getT_apply, hl, modifyT_apply, emit_apply, setList_trace]
  rw [ha]
  rfl

/-- The insertion into a ledger that is empty. -/
theorem at_list_add_empty (item : Nat) (k : at_list_type_t) (t : Tracker) (it : at_list_item_t)
    (l : at_list_t) (hit : peek t.mem item = .ok it) (hl : listOf t k = some l)
    (hlen : l.length = 0) :
    at_list_add item k t = .ok ()
      (after_add t k { l with first := item, last := item, length := 1 } item it.size) := by
  have h0 := peek_ok_ne_zero hit
  have ha := at_track_stats_aquire_eq item k
    { setList t k (some { l with first := item, last := item, length := 1 }) with
        trace := t.trace ++ [.list_add k item] } it (by simpa using hit)
  unfold at_list_add
  simp only [h0, if_false, bind_apply, getT_apply, hl, hlen, if_true, modifyList_apply,
    emit_apply, setList_trace, modifyT_apply]
  rw [ha]
  rfl

/-- The insertion behind the item `last` of a ledger that is not empty. -/
theorem at_list_add_behind (item : Nat) (k : at_list_type_t) (t : Tracker)
    (it itl : at_list_item_t) (l : at_list_t)
    (hit : peek t.mem item = .ok it) (hl : listOf t k = some l) (hlen : l.length ≠ 0)
    (hlast : peek t.mem l.last = .ok itl) (hne : l.last ≠ item) :
    at_list_add item k t = .ok ()
      (after_add { t with mem := linked t.mem item l.last it itl } k
        { l with last := item, length := wadd l.length 1 } item it.size) := by
  have h0 := peek_ok_ne_zero hit
  have hl0 := peek_ok_ne_zero hlast
  have h1 : peek (t.mem.set (item - 1) (some { it with prev := l.last })) l.last = .ok itl := by
    rw [peek_set_other _ _ h0 hne]; exact hlast
  have h2 : peek (linked t.mem item l.last it itl) item = .ok { it with prev := l.last } := by
    unfold linked
    rw [peek_set_other _ _ hl0 (Ne.symm hne)]; exact peek_set_self hit _
  have ha := at_track_stats_aquire_eq item k
    { setList { t with mem := linked t.mem item l.last it itl } k
          (some { l with last := item, length := wadd l.length 1 }) with
        trace := t.trace ++ [.list_add k item] } { it with prev := l.last } (by simpa using h2)
  have hl' : ∀ m, listOf { t with mem := m } k = some l := by
    intro m; cases k <;> exact hl
  unfold at_list_add
  simp only [h0, if_false, bind_apply, getT_apply, hl, hlen, store_apply, hit, h1,
    modifyList_apply, hl', emit_apply, setList_trace, modifyT_apply]
  rw [← linked] at *
  rw [ha]
  rfl

/-! ## at_malloc -/

theorem place_set (mem : List (Option at_list_item_t)) (slot : Nat) (it it' : at_list_item_t) :
    (place mem slot it).set (new_addr mem slot - 1) (some it') = place mem slot it' := by
  unfold place new_addr
  split
  · simp [List.set_set]
  · simp [List.set_append]

theorem valid_size {n : Nat} (hn : 0 < n) (hn2 : n ≤ LONG_MAX) :
    ¬ (n % WORD = 0 ∨ toLong n < 0) := by
  have h1 : n < 2 ^ 63 := by simp [LONG_MAX] at hn2; omega
  have hm : n % WORD = n := Nat.mod_eq_of_lt (by simp [WORD]; omega)
  rw [toLong_of_le_LONG_MAX hn2, hm]
  omega

/-- A valid `at_malloc` up to the call of `at_list_add`: the new item is in the
store and the id counter has advanced. -/
theorem at_malloc_valid (t : Tracker) (n : Nat) (filename function : Option String)
    (line : Int) (p slot : Nat) (hn : 0 < n) (hn2 : n ≤ LONG_MAX) :
    at_malloc n filename function line p slot t =
      (do
        at_list_add (new_addr t.mem slot) AT_LIST_TYPE_HEAP
        let it ← load (new_addr t.mem slot)
        pure it.pointer)
      (with_new_item t AT_LIST_TYPE_HEAP slot (malloc_item t n filename function line p)) := by
  unfold at_malloc
  rw [if_neg (valid_size hn hn2)]
  by_cases hp : p = 0 <;>
    simp [at_heap_list_item_new, alloc_item_apply, store_apply, load_apply, peek_place_new,
      place_set, malloc_item, item_blank, with_new_item, hp]

theorem waddLong_nat (a n : Nat) (h : a + n < WORD) : waddLong a (n : Int) = a + n := by
  unfold waddLong ofLong
  have : ((a : Int) + (n : Int)) % (WORD : Int) = ((a + n : Nat) : Int) := by
    rw [← Int.natCast_add]
    exact Int.emod_eq_of_lt (by positivity) (by exact_mod_cast h)
  rw [this]
  omega

theorem free_item_apply (a : Nat) (t : Tracker) :
    free_item a t = match peek t.mem a with
      | .ok _ => .ok () { t with mem := t.mem.set (a - 1) none }
      | .error e => .fault e t := rfl

/-- C5: from the fresh tracker, `at_malloc(n)` with a valid size whose `malloc`
succeeds with block `p` leaves one heap entry, for `p` with size `n`, and
`alloc_no = 1`, `alloc_amount = n`; `at_free(p)` then leaves the heap ledger
empty with `free_no = 1` and `free_amount = n`, after one call of `free(p)`. -/
theorem malloc_then_free_from_fresh (n p slot : Nat) (filename function : Option String)
    (line : Int) (hn : 0 < n) (hn2 : n ≤ LONG_MAX) (hp : p ≠ 0) :
    ∃ t1 t2, at_malloc n filename function line p slot Tracker.fresh = .ok p t1 ∧
      entries t1 AT_LIST_TYPE_HEAP = some [1] ∧ at_list_length t1 AT_LIST_TYPE_HEAP = 1 ∧
      peek t1.mem 1 = .ok (malloc_item Tracker.fresh n filename function line p) ∧
      (malloc_item Tracker.fresh n filename function line p).size = (n : Int) ∧
      t1.stats = ⟨n, 1, 0, 0, 0, 0⟩ ∧
      at_free p t1 = .ok () t2 ∧
      entries t2 AT_LIST_TYPE_HEAP = some [] ∧ at_list_length t2 AT_LIST_TYPE_HEAP = 0 ∧
      t2.stats = ⟨n, 1, n, 1, 0, 0⟩ ∧
      t2.trace = t1.trace ++ [.list_remove AT_LIST_TYPE_HEAP 1, .sys_free p] := by
  have hw : n < WORD := by simp [LONG_MAX] at hn2; simp [WORD]; omega
  have hs : toLong n = (n : Int) := toLong_of_le_LONG_MAX hn2
  have hpos : ¬ ((n : Int) ≤ 0) := by omega
  have ha : waddLong 0 (n : Int) = n := by simpa using waddLong_nat 0 n (by simpa using hw)
  have h1 : at_malloc n filename function line p slot Tracker.fresh = .ok p
      { stats := ⟨n, 1, 0, 0, 0, 0⟩,
        heap_list := some ⟨1, 1, 1, AT_LIST_TYPE_HEAP⟩, file_list := none,
        heap_id_counter := 1, file_id_counter := 0, can_record := true, can_report := true,
        mem := [some (malloc_item Tracker.fresh n filename function line p)],
        trace := [.list_add AT_LIST_TYPE_HEAP 1] } := by
    rw [at_malloc_valid _ _ _ _ _ _ _ hn hn2]
    have hit : peek (place Tracker.fresh.mem slot
        (malloc_item Tracker.fresh n filename function line p)) (new_addr Tracker.fresh.mem slot)
        = .ok (malloc_item Tracker.fresh n filename function line p) := peek_place_new _ _ _
    have hadd := at_list_add_none (new_addr Tracker.fresh.mem slot) AT_LIST_TYPE_HEAP
      (with_new_item Tracker.fresh AT_LIST_TYPE_HEAP slot
        (malloc_item Tracker.fresh n filename function line p)) _ hit rfl
    simp only [bind_apply]
    rw [hadd]
    simp [Tracker.fresh, new_addr, place, load_apply, peek, setList, aquired, stats_init, after_add,
      with_new_item,
      has_items, malloc_item, hp, hs, ha, wadd, WORD]
  have h2 : at_free p
      { stats := ⟨n, 1, 0, 0, 0, 0⟩,
        heap_list := some ⟨1, 1, 1, AT_LIST_TYPE_HEAP⟩, file_list := none,
        heap_id_counter := 1, file_id_counter := 0, can_record := true, can_report := true,
        mem := [some (malloc_item Tracker.fresh n filename function line p)],
        trace := [.list_add AT_LIST_TYPE_HEAP 1] } = .ok ()
      { stats := ⟨n, 1, n, 1, 0, 0⟩,
        heap_list := some ⟨0, 0, 1, AT_LIST_TYPE_HEAP⟩, file_list := none,
        heap_id_counter := 1, file_id_counter := 0, can_record := true, can_report := true,
        mem := [none],
        trace := [.list_add AT_LIST_TYPE_HEAP 1, .list_remove AT_LIST_TYPE_HEAP 1, .sys_free p] } := by
    simp [at_free, hp, at_list_remove, listOf, at_list_get, at_list_get_loop, load_apply, peek,
      malloc_item, item_blank, modifyList_apply, setList, at_track_stats_release,
      at_list_free_item, free_item_apply, hs, hpos, ha, wadd, WORD, Tracker.fresh]
  refine ⟨_, _, h1, ?_, rfl, ?_, ?_, rfl, h2, ?_, rfl, rfl, ?_⟩
  · simp [entries, listOf, chain_from, peek, malloc_item, item_blank]
  · simp [peek]
  · simp [malloc_item, hp, hs]
  · simp [entries, listOf, chain_from]
  · simp

theorem malloc_then_free_from_fresh_witness :
    ∃ t1 t2, at_malloc 1024 (some "a.c") (some "f") 10 4096 0 Tracker.fresh = .ok 4096 t1 ∧
      entries t1 AT_LIST_TYPE_HEAP = some [1] ∧ at_list_length t1 AT_LIST_TYPE_HEAP = 1 ∧
      peek t1.mem 1 = .ok (malloc_item Tracker.fresh 1024 (some "a.c") (some "f") 10 4096) ∧
      (malloc_item Tracker.fresh 1024 (some "a.c") (some "f") 10 4096).size = ((1024 : Nat) : Int) ∧
      t1.stats = ⟨1024, 1, 0, 0, 0, 0⟩ ∧
      at_free 4096 t1 = .ok () t2 ∧
      entries t2 AT_LIST_TYPE_HEAP = some [] ∧ at_list_length t2 AT_LIST_TYPE_HEAP = 0 ∧
      t2.stats = ⟨1024, 1, 1024, 1, 0, 0⟩ ∧
      t2.trace = t1.trace ++ [.list_remove AT_LIST_TYPE_HEAP 1, .sys_free 4096] :=
  malloc_then_free_from_fresh 1024 4096 0 (some "a.c") (some "f") 10 (by decide) (by decide)
    (by decide)

/-! ## Walks and updates of the store -/

/-- A walk stays a walk when the items on it keep their `next` links. -/
theorem isChain_frame {mem mem' : List (Option at_list_item_t)} :
    ∀ {L : List Nat} {a : Nat}, IsChain mem a L →
      (∀ x ∈ L, ∀ it, peek mem x = .ok it → ∃ it', peek mem' x = .ok it' ∧ it'.next = it.next) →
      IsChain mem' a L
  | [], _, h, _ => h
  | x :: L, a, h, hf => by
    obtain ⟨e, it, hp, c⟩ := h
    subst e
    obtain ⟨it', hp', hn⟩ := hf a (List.mem_cons_self _ _) it hp
    refine ⟨rfl, it', hp', ?_⟩
    rw [hn]
    exact isChain_frame c (fun y hy => hf y (List.mem_cons_of_mem _ hy))

/-- Linking a new item behind the final entry of a walk extends the walk by that
item. -/
theorem isChain_snoc {mem mem' : List (Option at_list_item_t)} {a last : Nat} :
    ∀ {L : List Nat} {first : Nat}, IsChain mem first L → L.getLast? = some last →
      (∀ x ∈ L, x ≠ last → ∀ it, peek mem x = .ok it →
        ∃ it', peek mem' x = .ok it' ∧ it'.next = it.next) →
      (∃ itl, peek mem' last = .ok itl ∧ itl.next = a) →
      (∃ ita, peek mem' a = .ok ita ∧ ita.next = 0) →
      IsChain mem' first (L ++ [a])
  | [], _, _, hl, _, _, _ => by simp at hl
  | [x], first, h, hl, _, hlast, hnew => by
    obtain ⟨e, it, hp, c⟩ := h
    subst e
    simp only [List.getLast?_singleton, Option.some.injEq] at hl
    subst hl
    obtain ⟨itl, hpl, hnl⟩ := hlast
    obtain ⟨ita, hpa, hna⟩ := hnew
    refine ⟨rfl, itl, hpl, ?_⟩
    rw [hnl]
    refine ⟨rfl, ita, hpa, ?_⟩
    rw [hna]
    rfl
  | x :: y :: L, first, h, hl, hf, hlast, hnew => by
    have hnd := isChain_nodup h
    obtain ⟨e, it, hp, c⟩ := h
    subst e
    have hl' : (y :: L).getLast? = some last := by
      rw [List.getLast?_cons_cons] at hl; exact hl
    have hmem : last ∈ y :: L := List.mem_of_getLast?_eq_some hl'
    have hx : first ≠ last := by
      intro hxl
      rw [hxl] at hnd
      exact (List.nodup_cons.mp hnd).1 hmem
    obtain ⟨it', hp', hn⟩ := hf first (List.mem_cons_self _ _) hx it hp
    refine ⟨rfl, it', hp', ?_⟩
    rw [hn]
    exact isChain_snoc c hl' (fun z hz => hf z (List.mem_cons_of_mem _ hz)) hlast hnew

/-- A walk that ends is what `entries` computes. -/
theorem entries_of_isChain {t : Tracker} {k : at_list_type_t} {l : at_list_t} {L : List Nat}
    (hl : listOf t k = some l) (h : IsChain t.mem l.first L) : entries t k = some L := by
  unfold entries
  rw [hl]
  rw [chain_from_eq_some]
  refine ⟨h, ?_⟩
  have := isChain_length_le h ∅ (by simp)
  simp at this
  omega

theorem intact_some {t : Tracker} {k : at_list_type_t} {l : at_list_t}
    (h : intact t k = true) (hl : listOf t k = some l) :
    ∃ L, IsChain t.mem l.first L ∧ entries t k = some L ∧ l.length = L.length ∧
      (L = [] ∨ L.getLast? = some l.last) := by
  unfold intact at h
  rw [hl] at h
  cases hc : chain_from t.mem (t.mem.length + 1) l.first with
  | none => simp [hc] at h
  | some L =>
    simp only [hc, Bool.and_eq_true, decide_eq_true_eq, Bool.or_eq_true, List.isEmpty_iff] at h
    refine ⟨L, ((chain_from_eq_some _ _ _ _).mp hc).1, ?_, h.1, h.2⟩
    unfold entries
    rw [hl]
    exact hc

theorem intact_of {t : Tracker} {k : at_list_type_t} {l : at_list_t} {L : List Nat}
    (hl : listOf t k = some l) (he : entries t k = some L) (hlen : l.length = L.length)
    (hlast : L = [] ∨ L.getLast? = some l.last) : intact t k = true := by
  unfold entries at he
  rw [hl] at he
  have he' : chain_from t.mem (t.mem.length + 1) l.first = some L := he
  unfold intact
  rw [hl]
  simp only [he', Bool.and_eq_true, decide_eq_true_eq, Bool.or_eq_true, List.isEmpty_iff]
  exact ⟨hlen, hlast⟩

/-! ## What the counter functions leave alone -/

theorem stats_init_frame (t : Tracker) :
    (stats_init t).mem = t.mem ∧ (stats_init t).heap_list = t.heap_list ∧
    (stats_init t).file_list = t.file_list ∧ (stats_init t).trace = t.trace ∧
    (stats_init t).heap_id_counter = t.heap_id_counter ∧
    (stats_init t).file_id_counter = t.file_id_counter := by
  unfold stats_init
  split
  · simp
  · simp only
    split <;> [split; skip] <;> simp

theorem aquired_frame (t : Tracker) (k : at_list_type_t) (size : Int) :
    (aquired t k size).mem = t.mem ∧ (aquired t k size).heap_list = t.heap_list ∧
    (aquired t k size).file_list = t.file_list ∧ (aquired t k size).trace = t.trace ∧
    (aquired t k size).heap_id_counter = t.heap_id_counter ∧
    (aquired t k size).file_id_counter = t.file_id_counter := by
  have h := stats_init_frame t
  unfold aquired
  cases k <;> cases t.can_record <;> simp [h]

theorem released_frame (t : Tracker) (k : at_list_type_t) (size : Int) :
    (released t k size).mem = t.mem ∧ (released t k size).heap_list = t.heap_list ∧
    (released t k size).file_list = t.file_list ∧ (released t k size).trace = t.trace ∧
    (released t k size).heap_id_counter = t.heap_id_counter ∧
    (released t k size).file_id_counter = t.file_id_counter := by
  have h := stats_init_frame t
  unfold released
  cases k <;> cases t.can_record <;> simp [h]

@[simp] theorem aquired_mem (t : Tracker) (k : at_list_type_t) (size : Int) :
    (aquired t k size).mem = t.mem := (aquired_frame t k size).1

@[simp] theorem aquired_trace (t : Tracker) (k : at_list_type_t) (size : Int) :
    (aquired t k size).trace = t.trace := (aquired_frame t k size).2.2.2.1

@[simp] theorem listOf_aquired (t : Tracker) (k j : at_list_type_t) (size : Int) :
    listOf (aquired t k size) j = listOf t j := by
  cases j
  · exact (aquired_frame t k size).2.1
  · exact (aquired_frame t k size).2.2.1

@[simp] theorem released_mem (t : Tracker) (k : at_list_type_t) (size : Int) :
    (released t k size).mem = t.mem := (released_frame t k size).1

@[simp] theorem released_trace (t : Tracker) (k : at_list_type_t) (size : Int) :
    (released t k size).trace = t.trace := (released_frame t k size).2.2.2.1

@[simp] theorem listOf_released (t : Tracker) (k j : at_list_type_t) (size : Int) :
    listOf (released t k size) j = listOf t j := by
  cases j
  · exact (released_frame t k size).2.1
  · exact (released_frame t k size).2.2.1

theorem listOf_setList_ne (t : Tracker) {k j : at_list_type_t} (l : Option at_list_t)
    (h : j ≠ k) : listOf (setList t k l) j = listOf t j := by
  cases k <;> cases j <;> first | rfl | exact absurd rfl h

/-- On a tracker of a run, `at_track_stats_init` does not change a counter. -/
theorem stats_init_stats (t : Tracker) (h : stats_valid t = true) :
    (if !t.can_record then stats_init t else t).stats = t.stats := by
  unfold stats_valid at h
  cases hc : t.can_record
  · simp only [hc, Bool.false_or, decide_eq_true_eq] at h
    simp only [Bool.not_false, if_true]
    unfold stats_init
    simp only [hc, Bool.false_eq_true, if_false]
    split <;> [split; skip] <;> simp [h]
  · simp

theorem aquired_stats_heap (t : Tracker) (size : Int) (h : stats_valid t = true) :
    (aquired t AT_LIST_TYPE_HEAP size).stats = { t.stats with
      alloc_amount := waddLong t.stats.alloc_amount size,
      alloc_no := wadd t.stats.alloc_no 1 } := by
  have hs := stats_init_stats t h
  unfold aquired
  simp only
  rw [hs]

theorem aquired_stats_file (t : Tracker) (size : Int) (h : stats_valid t = true) :
    (aquired t AT_LIST_TYPE_FILE size).stats = { t.stats with
      open_no := wadd t.stats.open_no 1 } := by
  have hs := stats_init_stats t h
  unfold aquired
  simp only
  rw [hs]

theorem released_stats_heap (t : Tracker) (size : Int) (h : stats_valid t = true) :
    (released t AT_LIST_TYPE_HEAP size).stats = { t.stats with
      free_amount := waddLong t.stats.free_amount size,
      free_no := wadd t.stats.free_no 1 } := by
  have hs := stats_init_stats t h
  unfold released
  simp only
  rw [hs]

theorem released_stats_file (t : Tracker) (size : Int) (h : stats_valid t = true) :
    (released t AT_LIST_TYPE_FILE size).stats = { t.stats with
      close_no := wadd t.stats.close_no 1 } := by
  have hs := stats_init_stats t h
  unfold released
  simp only
  rw [hs]

theorem stats_init_can_record (t : Tracker) (hc : t.can_record = false) :
    (stats_init t).can_record = true := by
  unfold stats_init
  simp only [hc, Bool.false_eq_true, if_false]
  split <;> [split; skip] <;> rfl

theorem aquired_can_record (t : Tracker) (k : at_list_type_t) (size : Int) :
    (aquired t k size).can_record = true := by
  unfold aquired
  cases k <;> cases hc : t.can_record <;> simp [hc, stats_init_can_record]

theorem released_can_record (t : Tracker) (k : at_list_type_t) (size : Int) :
    (released t k size).can_record = true := by
  unfold released
  cases k <;> cases hc : t.can_record <;> simp [hc, stats_init_can_record]

theorem wadd_one {a : Nat} (h : a + 1 < WORD) : wadd a 1 = a + 1 := by
  unfold wadd
  exact Nat.mod_eq_of_lt h

/-- The counters after `at_track_stats_aquire` on a tracker of a run. -/
theorem aquired_stats (t : Tracker) (k : at_list_type_t) (size : Int)
    (h : stats_valid t = true) :
    (aquired t k size).stats =
      count_aquire t.stats k size := by
  cases k
  · exact aquired_stats_heap t size h
  · exact aquired_stats_file t size h

theorem after_add_frame (t0 : Tracker) (k : at_list_type_t) (hdr : at_list_t) (item : Nat)
    (size : Int) :
    listOf (after_add t0 k hdr item size) k = some hdr ∧
    (∀ j, j ≠ k → listOf (after_add t0 k hdr item size) j = listOf t0 j) ∧
    (after_add t0 k hdr item size).mem = t0.mem ∧
    (after_add t0 k hdr item size).trace = t0.trace ++ [.list_add k item] ∧
    (after_add t0 k hdr item size).heap_id_counter = t0.heap_id_counter ∧
    (after_add t0 k hdr item size).file_id_counter = t0.file_id_counter := by
  have hf := aquired_frame { setList t0 k (some hdr) with trace := t0.trace ++ [.list_add k item] }
    k size
  obtain ⟨h1, h2, h3, h4, h5, h6⟩ := hf
  refine ⟨?_, ?_, ?_, ?_, ?_, ?_⟩
  · cases k
    · show (aquired _ _ _).heap_list = _
      rw [h2]; rfl
    · show (aquired _ _ _).file_list = _
      rw [h3]; rfl
  · intro j hj
    cases k <;> cases j
    · exact absurd rfl hj
    · show (aquired _ _ _).file_list = _
      rw [h3]; rfl
    · show (aquired _ _ _).heap_list = _
      rw [h2]; rfl
    · exact absurd rfl hj
  · show (aquired _ _ _).mem = _
    rw [h1]; cases k <;> rfl
  · show (aquired _ _ _).trace = _
    rw [h4]
  · show (aquired _ _ _).heap_id_counter = _
    rw [h5]; cases k <;> rfl
  · show (aquired _ _ _).file_id_counter = _
    rw [h6]; cases k <;> rfl

theorem after_add_stats (t0 t : Tracker) (k : at_list_type_t) (hdr : at_list_t) (item : Nat)
    (size : Int) (hs : t0.stats = t.stats) (hc : t0.can_record = t.can_record)
    (h : stats_valid t = true) :
    (after_add t0 k hdr item size).stats =
      count_aquire t.stats k size := by
  have hv : stats_valid { setList t0 k (some hdr) with
      trace := t0.trace ++ [.list_add k item] } = true := by
    rw [← h]
    unfold stats_valid
    cases k <;> simp [setList, hs, hc]
  have := aquired_stats _ k size hv
  show (aquired _ _ _).stats = _
  rw [this]
  cases k <;> simp [setList, hs, count_aquire]

theorem peek_linked_item {mem : List (Option at_list_item_t)} {item last : Nat}
    {it itl : at_list_item_t} (hit : peek mem item = .ok it) (hlast : peek mem last = .ok itl)
    (hne : last ≠ item) :
    peek (linked mem item last it itl) item = .ok { it with prev := last } := by
  unfold linked
  rw [peek_set_other _ _ (peek_ok_ne_zero hlast) (Ne.symm hne)]
  exact peek_set_self hit _

theorem peek_linked_last {mem : List (Option at_list_item_t)} {item last : Nat}
    {it itl : at_list_item_t} (hit : peek mem item = .ok it) (hlast : peek mem last = .ok itl)
    (hne : last ≠ item) :
    peek (linked mem item last it itl) last = .ok { itl with next := item } := by
  unfold linked
  have h : peek (mem.set (item - 1) (some { it with prev := last })) last = .ok itl := by
    rw [peek_set_other _ _ (peek_ok_ne_zero hit) hne]
    exact hlast
  exact peek_set_self h _

theorem peek_linked_other {mem : List (Option at_list_item_t)} {item last x : Nat}
    (it itl : at_list_item_t) (hi : item ≠ 0) (hl : last ≠ 0) (hx1 : x ≠ item) (hx2 : x ≠ last) :
    peek (linked mem item last it itl) x = peek mem x := by
  unfold linked
  rw [peek_set_other _ _ hl hx2, peek_set_other _ _ hi hx1]

theorem length_linked (mem : List (Option at_list_item_t)) (item last : Nat)
    (it itl : at_list_item_t) : (linked mem item last it itl).length = mem.length := by
  simp [linked]

/-- The function `at_list_add` on an intact ledger: the item becomes the final
entry of the walk, the header counts it, the ledger stays intact, the counters
are those of `at_track_stats_aquire`; of the other items only the `next` link of
the former final entry changes, and of the new item only `prev`. -/
theorem at_list_add_intact (item : Nat) (k : at_list_type_t) (t : Tracker)
    (it : at_list_item_t) (L : List Nat)
    (hit : peek t.mem item = .ok it) (hnext : it.next = 0)
    (hint : intact t k = true) (hL : entries t k = some L) (hfresh : item ∉ L)
    (hlen : at_list_length t k + 1 < WORD) (hsv : stats_valid t = true) :
    ∃ t', at_list_add item k t = .ok () t' ∧ entries t' k = some (L ++ [item]) ∧
      at_list_length t' k = at_list_length t k + 1 ∧ intact t' k = true ∧
      t'.stats = count_aquire t.stats k it.size ∧
      t'.trace = t.trace ++ [.list_add k item] ∧
      (∀ j, j ≠ k → listOf t' j = listOf t j) ∧
      t'.mem.length = t.mem.length ∧
      (∃ it', peek t'.mem item = .ok it' ∧ it' = { it with prev := it'.prev }) ∧
      (∀ x, x ≠ item → ∀ itx, peek t.mem x = .ok itx →
        ∃ itx', peek t'.mem x = .ok itx' ∧ itx' = { itx with next := itx'.next }) ∧
      t'.heap_id_counter = t.heap_id_counter ∧ t'.file_id_counter = t.file_id_counter := by
  have h0 := peek_ok_ne_zero hit
  have hself : IsChain t.mem item [item] := ⟨rfl, it, hit, by rw [hnext]; rfl⟩
  cases hl : listOf t k with
  | none =>
    have hLnil : L = [] := by
      unfold entries at hL
      rw [hl] at hL
      exact (Option.some.inj hL).symm
    subst hLnil
    have hlen0 : at_list_length t k = 0 := by unfold at_list_length; rw [hl]
    obtain ⟨f1, f2, f3, f4, f5, f6⟩ :=
      after_add_frame t k { length := 1, first := item, last := item, type := k } item it.size
    have he : entries (after_add t k { length := 1, first := item, last := item, type := k }
        item it.size) k = some ([] ++ [item]) :=
      entries_of_isChain f1 (by rw [f3]; exact hself)
    refine ⟨_, at_list_add_none item k t it hit hl, he, ?_, ?_, ?_, f4, f2, ?_, ?_, ?_, f5, f6⟩
    · unfold at_list_length; rw [f1, hl]
    · exact intact_of f1 he rfl (Or.inr rfl)
    · exact after_add_stats t t k _ item it.size rfl rfl hsv
    · rw [f3]
    · rw [f3]; exact ⟨it, hit, rfl⟩
    · intro x _ itx hx; rw [f3]; exact ⟨itx, hx, rfl⟩
  | some l =>
    obtain ⟨L', hc, hL', hlenL, hlastL⟩ := intact_some hint hl
    rw [hL] at hL'
    cases (Option.some.inj hL')
    have hlen' : at_list_length t k = l.length := by unfold at_list_length; rw [hl]
    by_cases hz : l.length = 0
    · have hLnil : L = [] := List.length_eq_zero.mp (by omega)
      subst hLnil
      obtain ⟨f1, f2, f3, f4, f5, f6⟩ :=
        after_add_frame t k { l with first := item, last := item, length := 1 } item it.size
      have he : entries (after_add t k { l with first := item, last := item, length := 1 }
          item it.size) k = some ([] ++ [item]) :=
        entries_of_isChain f1 (by rw [f3]; exact hself)
      refine ⟨_, at_list_add_empty item k t it l hit hl hz, he, ?_, ?_, ?_, f4, f2, ?_, ?_, ?_,
        f5, f6⟩
      · unfold at_list_length; rw [f1, hl]; simp [hz]
      · exact intact_of f1 he rfl (Or.inr rfl)
      · exact after_add_stats t t k _ item it.size rfl rfl hsv
      · rw [f3]
      · rw [f3]; exact ⟨it, hit, rfl⟩
      · intro x _ itx hx; rw [f3]; exact ⟨itx, hx, rfl⟩
    · have hLne : L ≠ [] := by
        intro h; rw [h] at hlenL; exact hz hlenL
      have hgl : L.getLast? = some l.last := hlastL.resolve_left hLne
      have hmem : l.last ∈ L := List.mem_of_getLast?_eq_some hgl
      obtain ⟨itl, hpl⟩ := isChain_mem_live hc l.last hmem
      have hne : l.last ≠ item := fun h => hfresh (h ▸ hmem)
      have hl0 := peek_ok_ne_zero hpl
      obtain ⟨f1, f2, f3, f4, f5, f6⟩ :=
        after_add_frame { t with mem := linked t.mem item l.last it itl } k
          { l with last := item, length := wadd l.length 1 } item it.size
      have hchain : IsChain (linked t.mem item l.last it itl) l.first (L ++ [item]) := by
        refine isChain_snoc hc hgl ?_ ⟨_, peek_linked_last hit hpl hne, rfl⟩
          ⟨_, peek_linked_item hit hpl hne, hnext⟩
        intro x hx hxl itx hpx
        have hxi : x ≠ item := fun h => hfresh (h ▸ hx)
        exact ⟨itx, by rw [peek_linked_other it itl h0 hl0 hxi hxl]; exact hpx, rfl⟩
      have he : entries (after_add { t with mem := linked t.mem item l.last it itl } k
          { l with last := item, length := wadd l.length 1 } item it.size) k
          = some (L ++ [item]) :=
        entries_of_isChain f1 (by rw [f3]; exact hchain)
      have hw : wadd l.length 1 = l.length + 1 := wadd_one (by omega)
      refine ⟨_, at_list_add_behind item k t it itl l hit hl hz hpl hne, he, ?_, ?_, ?_, f4, ?_,
        ?_, ?_, ?_, f5, f6⟩
      · unfold at_list_length; rw [f1, hl]; exact hw
      · refine intact_of f1 he ?_ (Or.inr ?_)
        · show wadd l.length 1 = (L ++ [item]).length
          rw [hw, List.length_append, hlenL]; rfl
        · simp
      · exact after_add_stats _ t k _ item it.size rfl rfl hsv
      · intro j hj
        rw [f2 j hj]
        cases j <;> rfl
      · rw [f3]; exact length_linked _ _ _ _ _
      · rw [f3]; exact ⟨_, peek_linked_item hit hpl hne, rfl⟩
      · intro x hxi itx hx
        rw [f3]
        by_cases hxl : x = l.last
        · subst hxl
          rw [hx] at hpl
          cases hpl
          exact ⟨_, peek_linked_last hit hx hne, rfl⟩
        · exact ⟨itx, by rw [peek_linked_other it itl h0 hl0 hxi hxl]; exact hx, rfl⟩

theorem with_new_item_frame (t : Tracker) (k : at_list_type_t) (slot : Nat)
    (it : at_list_item_t) :
    (with_new_item t k slot it).mem = place t.mem slot it ∧
    (∀ j, listOf (with_new_item t k slot it) j = listOf t j) ∧
    (with_new_item t k slot it).stats = t.stats ∧
    (with_new_item t k slot it).can_record = t.can_record ∧
    (with_new_item t k slot it).trace = t.trace := by
  cases k <;> refine ⟨rfl, ?_, rfl, rfl, rfl⟩ <;> intro j <;> cases j <;> rfl

/-- Allocating an item leaves the walks over both ledgers as they are, and the
new item is on neither. -/
theorem entries_with_new_item (t : Tracker) (k j : at_list_type_t) (slot : Nat)
    (it : at_list_item_t) (L : List Nat) (hL : entries t j = some L) :
    entries (with_new_item t k slot it) j = some L ∧ new_addr t.mem slot ∉ L := by
  obtain ⟨fm, fl, _, _, _⟩ := with_new_item_frame t k slot it
  cases hl : listOf t j with
  | none =>
    unfold entries at hL
    rw [hl] at hL
    cases (Option.some.inj hL)
    refine ⟨?_, by simp⟩
    unfold entries
    rw [fl j, hl]
  | some l =>
    have hc' : IsChain t.mem l.first L := by
      unfold entries at hL
      rw [hl] at hL
      exact ((chain_from_eq_some _ _ _ _).mp hL).1
    have hfresh : new_addr t.mem slot ∉ L := by
      intro hm
      obtain ⟨itx, hx⟩ := isChain_mem_live hc' _ hm
      exact peek_new_addr _ _ _ hx
    refine ⟨?_, hfresh⟩
    have hl' : listOf (with_new_item t k slot it) j = some l := by rw [fl j, hl]
    refine entries_of_isChain hl' ?_
    rw [fm]
    refine isChain_frame hc' ?_
    intro x hx itx hpx
    have hne : x ≠ new_addr t.mem slot := fun h => hfresh (h ▸ hx)
    exact ⟨itx, by rw [peek_place_old _ _ _ hne]; exact hpx, rfl⟩

theorem intact_with_new_item (t : Tracker) (k j : at_list_type_t) (slot : Nat)
    (it : at_list_item_t) (h : intact t j = true) :
    intact (with_new_item t k slot it) j = true := by
  obtain ⟨_, fl, _, _, _⟩ := with_new_item_frame t k slot it
  cases hl : listOf t j with
  | none =>
    unfold intact
    rw [fl j, hl]
  | some l =>
    obtain ⟨L, _, hL, hlen, hlast⟩ := intact_some h hl
    have hl' : listOf (with_new_item t k slot it) j = some l := by rw [fl j, hl]
    exact intact_of hl' (entries_with_new_item t k j slot it L hL).1 hlen hlast

theorem entries_of_intact {t : Tracker} {k : at_list_type_t} (h : intact t k = true) :
    ∃ L, entries t k = some L := by
  cases hl : listOf t k with
  | none => exact ⟨[], by unfold entries; rw [hl]⟩
  | some l =>
    obtain ⟨L, _, hL, _, _⟩ := intact_some h hl
    exact ⟨L, hL⟩

/-- C3: for a valid size, `at_malloc` on an intact heap ledger returns what
`malloc` returned and appends exactly one entry to the ledger. The entry has the
returned block and the size `n`, or the null block and the sentinel -1 when
`malloc` failed, the provenance of the call and the next id. The header length and
`alloc_no` grow by one, the ledger stays intact, the earlier entries keep
everything but the `next` link, and the file ledger is not touched. -/
theorem at_malloc_adds_one_entry (t : Tracker) (n : Nat) (filename function : Option String)
    (line : Int) (p slot : Nat) (hn : 0 < n) (hn2 : n ≤ LONG_MAX)
    (hint : intact t AT_LIST_TYPE_HEAP = true) (hsv : stats_valid t = true)
    (hlen : at_list_length t AT_LIST_TYPE_HEAP + 1 < WORD)
    (hno : t.stats.alloc_no + 1 < WORD) :
    ∃ L a it t', entries t AT_LIST_TYPE_HEAP = some L ∧
      at_malloc n filename function line p slot t = .ok p t' ∧
      entries t' AT_LIST_TYPE_HEAP = some (L ++ [a]) ∧ a ∉ L ∧
      peek t'.mem a = .ok it ∧ it.pointer = p ∧ it.size = (if p ≠ 0 then (n : Int) else -1) ∧
      it.filename = filename ∧ it.function = function ∧ it.line = line ∧
      it.id = t.heap_id_counter ∧
      at_list_length t' AT_LIST_TYPE_HEAP = at_list_length t AT_LIST_TYPE_HEAP + 1 ∧
      t'.stats.alloc_no = t.stats.alloc_no + 1 ∧
      intact t' AT_LIST_TYPE_HEAP = true ∧
      (∀ x ∈ L, ∀ itx, peek t.mem x = .ok itx →
        ∃ itx', peek t'.mem x = .ok itx' ∧ itx' = { itx with next := itx'.next }) ∧
      t'.file_list = t.file_list := by
  obtain ⟨L, hL⟩ := entries_of_intact hint
  obtain ⟨fm, fl, fs, fc, ftr⟩ := with_new_item_frame t AT_LIST_TYPE_HEAP slot
    (malloc_item t n filename function line p)
  have hpl := entries_with_new_item t AT_LIST_TYPE_HEAP AT_LIST_TYPE_HEAP slot
    (malloc_item t n filename function line p) L hL
  have hint1 := intact_with_new_item t AT_LIST_TYPE_HEAP AT_LIST_TYPE_HEAP slot
    (malloc_item t n filename function line p) hint
  have hit : peek (with_new_item t AT_LIST_TYPE_HEAP slot
      (malloc_item t n filename function line p)).mem
      (new_addr t.mem slot) = .ok (malloc_item t n filename function line p) :=
    peek_place_new _ _ _
  have hlen1 : at_list_length (with_new_item t AT_LIST_TYPE_HEAP slot
      (malloc_item t n filename function line p)) AT_LIST_TYPE_HEAP + 1 < WORD := hlen
  have hsv1 : stats_valid (with_new_item t AT_LIST_TYPE_HEAP slot
      (malloc_item t n filename function line p)) = true := hsv
  obtain ⟨t', h1, h2, h3, h4, h5, h6, h7, h8, ⟨it', h9, h9'⟩, h10, h11, h12⟩ :=
    at_list_add_intact (new_addr t.mem slot) AT_LIST_TYPE_HEAP
      (with_new_item t AT_LIST_TYPE_HEAP slot (malloc_item t n filename function line p))
      (malloc_item t n filename function line p) L hit rfl hint1 hpl.1 hpl.2 hlen1 hsv1
  have hptr : it'.pointer = p := by rw [h9']; rfl
  refine ⟨L, new_addr t.mem slot, it', t', hL, ?_, h2, hpl.2, h9, hptr, ?_, ?_, ?_, ?_, ?_, h3,
    ?_, h4, ?_, ?_⟩
  · rw [at_malloc_valid t n filename function line p slot hn hn2]
    simp only [bind_apply]
    rw [h1]
    simp [load_apply, h9, hptr]
  · rw [h9']
    simp only [malloc_item]
    rw [toLong_of_le_LONG_MAX hn2]
  · rw [h9']; rfl
  · rw [h9']; rfl
  · rw [h9']; rfl
  · rw [h9']; rfl
  · rw [h5]
    simp only [count_aquire]
    exact wadd_one hno
  · intro x hx itx hpx
    have hne : x ≠ new_addr t.mem slot := fun h => hpl.2 (h ▸ hx)
    exact h10 x hne itx (by rw [fm, peek_place_old _ _ _ hne]; exact hpx)
  · exact h7 AT_LIST_TYPE_FILE (by decide)

theorem at_malloc_adds_one_entry_witness :
    ∃ L a it t', entries one_block AT_LIST_TYPE_HEAP = some L ∧
      at_malloc 64 (some "b.c") (some "g") 20 8192 0 one_block = .ok 8192 t' ∧
      entries t' AT_LIST_TYPE_HEAP = some (L ++ [a]) ∧ a ∉ L ∧
      peek t'.mem a = .ok it ∧ it.pointer = 8192 ∧
      it.size = (if 8192 ≠ 0 then ((64 : Nat) : Int) else -1) ∧
      it.filename = some "b.c" ∧ it.function = some "g" ∧ it.line = 20 ∧
      it.id = one_block.heap_id_counter ∧
      at_list_length t' AT_LIST_TYPE_HEAP = at_list_length one_block AT_LIST_TYPE_HEAP + 1 ∧
      t'.stats.alloc_no = one_block.stats.alloc_no + 1 ∧
      intact t' AT_LIST_TYPE_HEAP = true ∧
      (∀ x ∈ L, ∀ itx, peek one_block.mem x = .ok itx →
        ∃ itx', peek t'.mem x = .ok itx' ∧ itx' = { itx with next := itx'.next }) ∧
      t'.file_list = one_block.file_list :=
  at_malloc_adds_one_entry one_block 64 (some "b.c") (some "g") 20 8192 0 (by decide) (by decide)
    (by decide!) (by decide!) (by decide!) (by decide!)

/-! ## Removal of the final entry -/

/-- C1: after `p1 = malloc(8); p2 = malloc(8); free(p2); p3 = malloc(8)` the
header of the heap ledger says 2 while the walk from `first` reaches one entry,
when the allocator gives the third item the block of the second: `at_list_remove`
has left `last` pointing at the freed item, and `at_list_add` links the new item
behind it. When the third item gets another block, `at_list_add` writes to the
freed item. -/
theorem length_exceeds_walk_after_tail_release :
    (tail_release_then_malloc 2 Tracker.fresh).fault? = none ∧
    at_list_length (tail_release_then_malloc 2 Tracker.fresh).state AT_LIST_TYPE_HEAP = 2 ∧
    entries (tail_release_then_malloc 2 Tracker.fresh).state AT_LIST_TYPE_HEAP = some [1] ∧
    (tail_release_then_malloc 0 Tracker.fresh).fault? = some .use_after_free := by
  decide!

/-- C2: the sequence `lifo_calls` has three valid allocations, each returning a
new block, and two releases of tracked blocks, yet it ends with the length 2 in
the header of the heap ledger: the entry of the third block is not reachable from
`first`, so `at_free` does not find it. -/
theorem length_after_lifo_calls :
    fresh_blocks [] lifo_calls = true ∧
    valid_mallocs lifo_calls = 3 ∧ tracked_frees [] lifo_calls = 2 ∧
    (run_heap_calls lifo_calls Tracker.fresh).fault? = none ∧
    at_list_length (run_heap_calls lifo_calls Tracker.fresh).state AT_LIST_TYPE_HEAP = 2 := by
  decide!

/-- C9: on the tracker with one block of 1024 bytes, an `at_malloc(16)` whose
`malloc` fails returns `NULL` and takes `alloc_amount` from 1024 to 1023: the
sentinel size -1 of the new entry is added to the byte counter. -/
theorem alloc_amount_drops_on_failed_malloc :
    one_block.stats.alloc_amount = 1024 ∧
    (at_malloc 16 (some "a.c") (some "f") 12 0 0 one_block).fault? = none ∧
    (at_malloc 16 (some "a.c") (some "f") 12 0 0 one_block).state.stats.alloc_amount = 1023 := by
  decide!

/-! ## Accounting -/

theorem bump_zero (x : Nat) : bump x 0 = x := rfl

theorem bump_add (x a b : Nat) : bump (bump x a) b = bump x (a + b) := by
  unfold bump
  rw [Nat.add_comm, Function.iterate_add_apply]

theorem bump_one (x : Nat) : bump x 1 = wadd x 1 := rfl

theorem adds_append (k : at_list_type_t) (a b : List Event) :
    adds k (a ++ b) = adds k a + adds k b := by
  unfold adds
  exact List.countP_append _ _ _

theorem removes_append (k : at_list_type_t) (a b : List Event) :
    removes k (a ++ b) = removes k a + removes k b := by
  unfold removes
  exact List.countP_append _ _ _

theorem acct_refl (t : Tracker) (hs : stats_valid t = true) (ht : typed t = true) :
    Acct 0 t t :=
  ⟨hs, ht, [], by simp, rfl, rfl, rfl, rfl, fun _ => rfl, fun _ => rfl⟩

theorem acct_trans {e1 e2 : Nat} {t t1 t2 : Tracker} (h1 : Acct e1 t t1) (h2 : Acct e2 t1 t2) :
    Acct (e1 + e2) t t2 := by
  obtain ⟨_, _, tr1, a0, a1, a2, a3, a4, a5, a6⟩ := h1
  obtain ⟨hs, ht, tr2, b0, b1, b2, b3, b4, b5, b6⟩ := h2
  refine ⟨hs, ht, tr1 ++ tr2, ?_, ?_, ?_, ?_, ?_, ?_, ?_⟩
  · rw [b0, a0, List.append_assoc]
  · rw [b1, a1, bump_add, adds_append]
  · rw [b2, a2, bump_add, removes_append]
  · rw [b3, a3, bump_add, adds_append]
  · rw [b4, a4, bump_add, removes_append]
    congr 1
    omega
  · intro h
    rw [adds_append] at h
    rw [b5 (by omega), a5 (by omega)]
  · intro h
    rw [removes_append] at h
    rw [b6 (by omega), a6 (by omega)]

/-- A step that leaves counters and headers alone and writes no ledger event. -/
theorem acct_quiet {t t' : Tracker} (tr : List Event)
    (hs : stats_valid t = true) (ht : typed t' = true)
    (h1 : t'.stats = t.stats) (h2 : t'.can_record = t.can_record)
    (h5 : t'.trace = t.trace ++ tr)
    (h6 : ∀ k, adds k tr = 0 ∧ removes k tr = 0) : Acct 0 t t' := by
  refine ⟨?_, ht, tr, h5, ?_, ?_, ?_, ?_, fun _ => by rw [h1], fun _ => by rw [h1]⟩
  · unfold stats_valid at *
    rw [h1, h2]; exact hs
  · rw [(h6 _).1, h1]; rfl
  · rw [(h6 _).2, h1]; rfl
  · rw [(h6 _).1, h1]; rfl
  · rw [(h6 _).2, h1]; rfl

/-- Sequencing two pieces of code that each keep the account. -/
theorem acct_bind {α β : Type} (m : M α) (f : α → M β) (t : Tracker)
    (h1 : Acct 0 t (m t).state)
    (h2 : ∀ a t1, m t = .ok a t1 → Acct 0 t1 (f a t1).state) :
    Acct 0 t ((m >>= f) t).state := by
  rw [bind_apply]
  cases hm : m t with
  | ok a t1 =>
    rw [hm] at h1
    exact acct_trans h1 (h2 a t1 hm)
  | fault e t1 =>
    rw [hm] at h1
    exact h1

/-- Sequencing, with the invariants of the intermediate tracker at hand. -/
theorem acct_seq {α β : Type} (m : M α) (f : α → M β) (t : Tracker)
    (h1 : Acct 0 t (m t).state)
    (h2 : ∀ a t1, m t = .ok a t1 → stats_valid t1 = true → typed t1 = true →
      Acct 0 t1 (f a t1).state) :
    Acct 0 t ((m >>= f) t).state := by
  refine acct_bind m f t h1 ?_
  intro a t1 hm
  have h := h1
  rw [hm] at h
  exact h2 a t1 hm h.1 h.2.1

theorem acct_pure {α : Type} (a : α) (t : Tracker) (hs : stats_valid t = true)
    (ht : typed t = true) : Acct 0 t ((pure a : M α) t).state :=
  acct_refl t hs ht

theorem acct_fail {α : Type} (f : Fault) (t : Tracker) (hs : stats_valid t = true)
    (ht : typed t = true) : Acct 0 t ((fail f : M α) t).state :=
  acct_refl t hs ht

theorem acct_load (a : Nat) (t : Tracker) (hs : stats_valid t = true) (ht : typed t = true) :
    Acct 0 t (load a t).state := by
  rw [load_apply]
  cases peek t.mem a <;> exact acct_refl t hs ht

theorem load_state {a : Nat} {t t1 : Tracker} {it : at_list_item_t}
    (h : load a t = .ok it t1) : t1 = t ∧ peek t.mem a = .ok it := by
  rw [load_apply] at h
  cases hp : peek t.mem a with
  | error e => simp [hp] at h
  | ok v =>
    simp only [hp, Res.ok.injEq] at h
    exact ⟨h.2.symm, by rw [h.1]⟩

theorem acct_mem (t : Tracker) (mem : List (Option at_list_item_t))
    (hs : stats_valid t = true) (ht : typed t = true) : Acct 0 t { t with mem := mem } :=
  acct_quiet [] hs ht rfl rfl (by simp) (fun _ => ⟨rfl, rfl⟩)

theorem acct_store (a : Nat) (f : at_list_item_t → at_list_item_t) (t : Tracker)
    (hs : stats_valid t = true) (ht : typed t = true) : Acct 0 t (store a f t).state := by
  rw [store_apply]
  cases peek t.mem a
  · exact acct_refl t hs ht
  · exact acct_mem t _ hs ht

theorem acct_free_item (a : Nat) (t : Tracker)
    (hs : stats_valid t = true) (ht : typed t = true) : Acct 0 t (free_item a t).state := by
  rw [free_item_apply]
  cases peek t.mem a
  · exact acct_refl t hs ht
  · exact acct_mem t _ hs ht

/-- An event that is not a ledger event. -/
theorem acct_emit (e : Event) (t : Tracker) (hs : stats_valid t = true) (ht : typed t = true)
    (he : ∀ k, adds k [e] = 0 ∧ removes k [e] = 0) : Acct 0 t (emit e t).state :=
  acct_quiet [e] hs ht rfl rfl rfl he

theorem acct_list_get (k : at_list_type_t) (p : Nat) (t : Tracker)
    (hs : stats_valid t = true) (ht : typed t = true) : Acct 0 t (at_list_get k p t).state := by
  rw [at_list_get_eq]
  cases lookup t k p <;> exact acct_refl t hs ht

theorem at_list_get_state {k : at_list_type_t} {p : Nat} {t t1 : Tracker} {a : Nat}
    (h : at_list_get k p t = .ok a t1) : t1 = t := by
  rw [at_list_get_eq] at h
  cases hl : lookup t k p with
  | error e => simp [hl] at h
  | ok r =>
    simp only [hl, Res.ok.injEq] at h
    exact h.2.symm

theorem acct_heap_item_new (filename function : Option String) (line : Int) (slot : Nat)
    (t : Tracker) (hs : stats_valid t = true) (ht : typed t = true) :
    Acct 0 t (at_heap_list_item_new filename function line slot t).state :=
  acct_quiet [] hs ht rfl rfl (by simp [at_heap_list_item_new, alloc_item_apply, Res.state])
    (fun _ => ⟨rfl, rfl⟩)

theorem acct_file_item_new (filename function : Option String) (line : Int) (slot : Nat)
    (t : Tracker) (hs : stats_valid t = true) (ht : typed t = true) :
    Acct 0 t (at_file_list_item_new filename function line slot t).state :=
  acct_quiet [] hs ht rfl rfl (by simp [at_file_list_item_new, alloc_item_apply, Res.state])
    (fun _ => ⟨rfl, rfl⟩)

theorem typed_iff (t : Tracker) :
    typed t = true ↔ ∀ j l, listOf t j = some l → l.type = j := by
  unfold typed
  constructor
  · intro h j l hl
    simp only [Bool.and_eq_true] at h
    cases j
    · have h1 := h.1
      rw [show t.heap_list = some l from hl] at h1
      simpa using h1
    · have h2 := h.2
      rw [show t.file_list = some l from hl] at h2
      simpa using h2
  · intro h
    simp only [Bool.and_eq_true]
    constructor
    · cases hl : t.heap_list with
      | none => rfl
      | some l => simpa using h AT_LIST_TYPE_HEAP l hl
    · cases hl : t.file_list with
      | none => rfl
      | some l => simpa using h AT_LIST_TYPE_FILE l hl

theorem typed_setList (t : Tracker) (k : at_list_type_t) (hdr : at_list_t)
    (ht : typed t = true) (hk : hdr.type = k) : typed (setList t k (some hdr)) = true := by
  rw [typed_iff] at *
  intro j l hl
  by_cases hj : j = k
  · subst hj
    rw [listOf_setList] at hl
    cases hl
    exact hk
  · rw [listOf_setList_ne _ _ hj] at hl
    exact ht j l hl

theorem typed_congr {t t' : Tracker} (h : ∀ j, listOf t' j = listOf t j) :
    typed t' = typed t := by
  have h1 : t'.heap_list = t.heap_list := h AT_LIST_TYPE_HEAP
  have h2 : t'.file_list = t.file_list := h AT_LIST_TYPE_FILE
  unfold typed
  rw [h1, h2]

theorem acct_modifyList (k : at_list_type_t) (f : at_list_t → at_list_t) (t : Tracker)
    (hs : stats_valid t = true) (ht : typed t = true) (hf : ∀ l, (f l).type = l.type) :
    Acct 0 t (modifyList k f t).state := by
  rw [modifyList_apply]
  cases hl : listOf t k with
  | none => exact acct_refl t hs ht
  | some l =>
    have hk : (f l).type = k := by
      rw [hf]; exact (typed_iff t).mp ht k l hl
    refine acct_quiet [] hs (typed_setList t k _ ht hk) ?_ ?_ ?_ (fun _ => ⟨rfl, rfl⟩)
    · cases k <;> rfl
    · cases k <;> rfl
    · cases k <;> simp [Res.state, setList]

theorem peek_set_live {mem : List (Option at_list_item_t)} {x : Nat}
    (h : ∃ it, peek mem x = .ok it) (i : Nat) (v : at_list_item_t) :
    ∃ it', peek (mem.set i (some v)) x = .ok it' := by
  obtain ⟨it, hp⟩ := h
  have hx := peek_ok_lt hp
  by_cases hi : i = x - 1
  · subst hi
    exact ⟨v, peek_set_self hp v⟩
  · refine ⟨it, ?_⟩
    rw [peek_ok_iff] at *
    refine ⟨hp.1, ?_⟩
    rw [List.getElem?_set_ne hi]
    exact hp.2

theorem aquire_any (item : Nat) (k : at_list_type_t) (t : Tracker) (h0 : item ≠ 0)
    (hlive : k = AT_LIST_TYPE_HEAP → ∃ it, peek t.mem item = .ok it) :
    ∃ sz, at_track_stats_aquire item k t = .ok () (aquired t k sz) := by
  cases k
  · obtain ⟨it, hp⟩ := hlive rfl
    exact ⟨it.size, at_track_stats_aquire_heap item t it hp⟩
  · exact ⟨0, at_track_stats_aquire_file item t 0 h0⟩

theorem release_any (item : Nat) (k : at_list_type_t) (t : Tracker) (h0 : item ≠ 0)
    (hlive : k = AT_LIST_TYPE_HEAP → ∃ it, peek t.mem item = .ok it) :
    ∃ sz, at_track_stats_release item k t = .ok () (released t k sz) := by
  cases k
  · obtain ⟨it, hp⟩ := hlive rfl
    exact ⟨it.size, at_track_stats_release_heap item t it hp⟩
  · exact ⟨0, at_track_stats_release_file item t 0 h0⟩

theorem stats_valid_of_can_record {t : Tracker} (h : t.can_record = true) :
    stats_valid t = true := by
  unfold stats_valid
  rw [h]
  rfl

/-- The tracker `at_list_add` returns keeps the account. -/
theorem acct_after_add (t t0 : Tracker) (k : at_list_type_t) (hdr : at_list_t) (item : Nat)
    (sz : Int) (hs : stats_valid t = true) (ht : typed t = true)
    (h1 : t0.stats = t.stats) (h2 : t0.can_record = t.can_record) (h3 : t0.trace = t.trace)
    (h4 : ∀ j, listOf t0 j = listOf t j) (h5 : hdr.type = k) :
    Acct 0 t (after_add t0 k hdr item sz) := by
  obtain ⟨f1, f2, f3, f4, f5, f6⟩ := after_add_frame t0 k hdr item sz
  have hst := after_add_stats t0 t k hdr item sz h1 h2 hs
  refine ⟨?_, ?_, [.list_add k item], by rw [f4, h3], ?_, ?_, ?_, ?_, ?_, ?_⟩
  · exact stats_valid_of_can_record (aquired_can_record _ _ _)
  · rw [typed_iff] at *
    intro j l hl
    by_cases hj : j = k
    · subst hj
      rw [f1] at hl
      cases hl
      exact h5
    · rw [f2 j hj, h4] at hl
      exact ht j l hl
  all_goals rw [hst]
  all_goals cases k <;> simp [count_aquire, adds, removes, bump]

/-- The function `at_list_add` keeps the account; for a heap item, the item must
be in the store. -/
theorem acct_list_add (item : Nat) (k : at_list_type_t) (t : Tracker)
    (hs : stats_valid t = true) (ht : typed t = true)
    (hlive : k = AT_LIST_TYPE_HEAP → ∃ it, peek t.mem item = .ok it) :
    Acct 0 t (at_list_add item k t).state := by
  unfold at_list_add
  by_cases h0 : item = 0
  · simp only [h0, if_true]
    exact acct_refl t hs ht
  simp only [h0, if_false, bind_apply, getT_apply]
  cases hl : listOf t k with
  | none =>
    simp only [bind_apply, modifyT_apply, emit_apply, setList_trace]
    obtain ⟨sz, ha⟩ := aquire_any item k
      { setList t k (some { first := item, last := item, length := 1, type := k }) with
        trace := t.trace ++ [.list_add k item] } h0 (by simpa using hlive)
    rw [ha]
    exact acct_after_add t t k _ item sz hs ht rfl rfl rfl (fun _ => rfl) rfl
  | some l =>
    have hlt : l.type = k := (typed_iff t).mp ht k l hl
    by_cases hz : l.length = 0
    · simp only [hz, if_true, bind_apply, modifyList_apply, hl, emit_apply, setList_trace,
        modifyT_apply]
      obtain ⟨sz, ha⟩ := aquire_any item k
        { setList t k (some { l with first := item, last := item, length := 1 }) with
          trace := t.trace ++ [.list_add k item] } h0 (by simpa using hlive)
      rw [ha]
      exact acct_after_add t t k _ item sz hs ht rfl rfl rfl (fun _ => rfl) hlt
    · simp only [hz, if_false, bind_apply, store_apply]
      cases hp : peek t.mem item with
      | error e => exact acct_refl t hs ht
      | ok it =>
        simp only
        cases hp2 : peek (t.mem.set (item - 1) (some { it with prev := l.last })) l.last with
        | error e => exact acct_mem t _ hs ht
        | ok itl =>
          have hl' : ∀ m, listOf { t with mem := m } k = some l := by
            intro m; cases k <;> exact hl
          simp only [bind_apply, modifyList_apply, hl', emit_apply, setList_trace, modifyT_apply]
          rw [← linked]
          have hlive2 : ∃ it', peek (linked t.mem item l.last it itl) item = .ok it' :=
            peek_set_live (peek_set_live ⟨it, hp⟩ _ _) _ _
          obtain ⟨sz, ha⟩ := aquire_any item k
            { setList { t with mem := linked t.mem item l.last it itl } k
                (some { l with last := item, length := wadd l.length 1 }) with
              trace := t.trace ++ [.list_add k item] } h0 (by intro _; simpa using hlive2)
          rw [ha]
          exact acct_after_add t _ k _ item sz hs ht rfl rfl rfl (fun j => by cases j <;> rfl) hlt

theorem released_stats (t : Tracker) (k : at_list_type_t) (size : Int)
    (h : stats_valid t = true) :
    (released t k size).stats = count_release t.stats k size := by
  cases k
  · exact released_stats_heap t size h
  · exact released_stats_file t size h

/-- The tracker after the ledger event of a removal and the call of
`at_track_stats_release` keeps the account. -/
theorem acct_after_release (t t1 : Tracker) (k : at_list_type_t) (item : Nat) (sz : Int)
    (hs : stats_valid t = true) (ht1 : typed t1 = true)
    (h1 : t1.stats = t.stats) (h2 : t1.can_record = t.can_record) (h3 : t1.trace = t.trace) :
    Acct 0 t (released { t1 with trace := t1.trace ++ [.list_remove k item] } k sz) := by
  have hv : stats_valid { t1 with trace := t1.trace ++ [.list_remove k item] } = true := by
    rw [← hs]
    unfold stats_valid
    simp [h1, h2]
  have hst := released_stats _ k sz hv
  obtain ⟨f1, f2, f3, f4, _, _⟩ :=
    released_frame { t1 with trace := t1.trace ++ [.list_remove k item] } k sz
  refine ⟨?_, ?_, [.list_remove k item], by rw [f4, h3], ?_, ?_, ?_, ?_, ?_, ?_⟩
  · exact stats_valid_of_can_record (released_can_record _ _ _)
  · rw [← ht1]
    unfold typed
    rw [f2, f3]
  all_goals rw [hst]
  all_goals cases k <;> simp [count_release, adds, removes, bump, h1]

/-- A call of `at_track_stats_release` for a file item without a ledger event:
one more increment of `close_no`. -/
theorem acct_release_only (t : Tracker) (sz : Int)
    (hs : stats_valid t = true) (ht : typed t = true) :
    Acct 1 t (released t AT_LIST_TYPE_FILE sz) := by
  have hst := released_stats t AT_LIST_TYPE_FILE sz hs
  obtain ⟨f1, f2, f3, f4, _, _⟩ := released_frame t AT_LIST_TYPE_FILE sz
  refine ⟨?_, ?_, [], by rw [f4]; simp, ?_, ?_, ?_, ?_, ?_, ?_⟩
  · exact stats_valid_of_can_record (released_can_record _ _ _)
  · rw [← ht]
    unfold typed
    rw [f2, f3]
  all_goals rw [hst]
  all_goals simp [count_release, adds, removes, bump]

theorem acct_list_free_item (item : Nat) (k : at_list_type_t) (t : Tracker)
    (hs : stats_valid t = true) (ht : typed t = true) :
    Acct 0 t (at_list_free_item item k t).state := by
  unfold at_list_free_item
  by_cases h0 : item = 0
  · simp only [h0, if_true]
    exact acct_refl t hs ht
  simp only [h0, if_false]
  refine acct_seq _ _ t (acct_load item t hs ht) ?_
  intro it t1 _ hs1 ht1
  have hfree : ∀ (m : M Unit), Acct 0 t1 (m t1).state →
      Acct 0 t1 ((m >>= fun _ => free_item item) t1).state := fun m hm =>
    acct_seq m _ t1 hm (fun _ t2 _ hs2 ht2 => acct_free_item item t2 hs2 ht2)
  have hev : ∀ e : Event, (∀ k, adds k [e] = 0 ∧ removes k [e] = 0) →
      Acct 0 t1 ((emit e >>= fun _ => free_item item) t1).state := fun e he =>
    hfree _ (acct_emit e t1 hs1 ht1 he)
  cases k
  · simp only
    split
    · exact hev _ (fun k => by cases k <;> exact ⟨rfl, rfl⟩)
    · split
      · exact hev _ (fun k => by cases k <;> exact ⟨rfl, rfl⟩)
      · exact hfree _ (acct_pure _ t1 hs1 ht1)
  · simp only
    split
    · exact hev _ (fun k => by cases k <;> exact ⟨rfl, rfl⟩)
    · exact hfree _ (acct_pure _ t1 hs1 ht1)

/-- The tail of `at_list_remove`, from the ledger event on, keeps the account. -/
theorem acct_remove_tail (t t1 : Tracker) (k : at_list_type_t) (item : Nat)
    (f : at_list_t → at_list_t) (hf : ∀ l, (f l).type = l.type)
    (hs : stats_valid t = true) (ht1 : typed t1 = true)
    (h1 : t1.stats = t.stats) (h2 : t1.can_record = t.can_record) (h3 : t1.trace = t.trace)
    (h0 : item ≠ 0) (hlive : ∃ it, peek t1.mem item = .ok it) :
    Acct 0 t ((do
      emit (.list_remove k item)
      at_track_stats_release item k
      at_list_free_item item k
      modifyList k f) t1).state := by
  obtain ⟨sz, hr⟩ := release_any item k { t1 with trace := t1.trace ++ [.list_remove k item] } h0
    (fun _ => hlive)
  have hacc := acct_after_release t t1 k item sz hs ht1 h1 h2 h3
  have htail : Acct 0 (released { t1 with trace := t1.trace ++ [.list_remove k item] } k sz)
      ((at_list_free_item item k >>= fun _ => modifyList k f)
        (released { t1 with trace := t1.trace ++ [.list_remove k item] } k sz)).state :=
    acct_seq _ _ _ (acct_list_free_item item k _ hacc.1 hacc.2.1)
      (fun _ t2 _ hs2 ht2 => acct_modifyList k f t2 hs2 ht2 hf)
  have := acct_trans hacc htail
  rw [bind_apply, emit_apply]
  simp only
  rw [bind_apply, hr]
  exact this

/-- The function `at_list_remove` keeps the account. -/
theorem acct_list_remove (k : at_list_type_t) (p : Nat) (t : Tracker)
    (hs : stats_valid t = true) (ht : typed t = true) :
    Acct 0 t (at_list_remove k p t).state := by
  unfold at_list_remove
  simp only [bind_apply, getT_apply]
  cases hl : listOf t k with
  | none => exact acct_refl t hs ht
  | some l =>
    simp only
    by_cases hp : p = 0
    · simp only [hp, if_true]; exact acct_refl t hs ht
    by_cases hz : l.length = 0
    · simp only [hp, hz, if_true, if_false]; exact acct_refl t hs ht
    simp only [hp, hz, if_false, bind_apply, at_list_get_eq]
    cases hlk : lookup t k p with
    | error e => exact acct_refl t hs ht
    | ok item =>
      simp only
      by_cases hi : item = 0
      · simp only [hi, if_true]; exact acct_refl t hs ht
      obtain ⟨l', it, _, _, _, hit, _⟩ := lookup_sound hlk hi
      have hlt : l.type = k := (typed_iff t).mp ht k l hl
      simp only [hi, if_false, bind_apply, load_apply, hit, hlt]
      by_cases hprev : it.prev = 0
      · simp only [hprev, ne_eq, not_true_eq_false, if_false]
        rw [bind_apply, modifyList_apply, hl]
        simp only
        refine acct_remove_tail t _ k item _ (fun _ => rfl) hs ?_ ?_ ?_ ?_ hi ?_
        · exact typed_setList t k _ ht hlt
        · cases k <;> rfl
        · cases k <;> rfl
        · cases k <;> rfl
        · rw [setList_mem]; exact ⟨it, hit⟩
      · simp only [hprev, ne_eq, not_false_eq_true, if_true]
        rw [bind_apply, store_apply]
        cases hpp : peek t.mem it.prev with
        | error e => exact acct_refl t hs ht
        | ok itp =>
          simp only
          exact acct_remove_tail t _ k item _ (fun _ => rfl) hs ht rfl rfl rfl hi
            (peek_set_live ⟨it, hit⟩ _ _)

/-! ## The account of the heap operations -/

theorem heap_item_new_live {filename function : Option String} {line : Int} {slot : Nat}
    {t t1 : Tracker} {a : Nat}
    (h : at_heap_list_item_new filename function line slot t = .ok a t1) :
    ∃ it, peek t1.mem a = .ok it := by
  simp only [at_heap_list_item_new, bind_apply, getT_apply, alloc_item_apply, modifyT_apply,
    pure_apply, Res.ok.injEq] at h
  obtain ⟨rfl, rfl⟩ := h
  exact ⟨_, peek_place_new _ _ _⟩

theorem store_live {x a : Nat} {f : at_list_item_t → at_list_item_t} {t t1 : Tracker}
    (h : store x f t = .ok () t1) (hl : ∃ it, peek t.mem a = .ok it) :
    ∃ it, peek t1.mem a = .ok it := by
  rw [store_apply] at h
  cases hp : peek t.mem x with
  | error e => simp [hp] at h
  | ok v =>
    simp only [hp, Res.ok.injEq, true_and] at h
    subst h
    exact peek_set_live hl _ _

theorem acct_malloc (n : Nat) (filename function : Option String) (line : Int) (r slot : Nat)
    (t : Tracker) (hs : stats_valid t = true) (ht : typed t = true) :
    Acct 0 t (at_malloc n filename function line r slot t).state := by
  unfold at_malloc
  split
  · exact acct_seq _ _ t (acct_emit _ t hs ht (fun k => by cases k <;> exact ⟨rfl, rfl⟩))
      (fun _ t1 _ hs1 ht1 => acct_pure _ t1 hs1 ht1)
  · refine acct_seq _ _ t (acct_heap_item_new _ _ _ _ t hs ht) (fun item t1 h1 hs1 ht1 => ?_)
    have hl1 := heap_item_new_live h1
    refine acct_seq _ _ t1 (acct_store _ _ t1 hs1 ht1) (fun _ t2 h2 hs2 ht2 => ?_)
    have hl2 := store_live h2 hl1
    refine acct_seq _ _ t2 (acct_load _ t2 hs2 ht2) (fun it t3 h3 hs3 ht3 => ?_)
    obtain ⟨rfl, _⟩ := load_state h3
    split <;>
    · refine acct_seq _ _ t3 (acct_store _ _ t3 hs3 ht3) (fun _ t4 h4 hs4 ht4 => ?_)
      have hl4 := store_live h4 hl2
      refine acct_seq _ _ t4 (acct_list_add item _ t4 hs4 ht4 (fun _ => hl4))
        (fun _ t5 _ hs5 ht5 => ?_)
      exact acct_seq _ _ t5 (acct_load _ t5 hs5 ht5)
        (fun _ t6 _ hs6 ht6 => acct_pure _ t6 hs6 ht6)

theorem acct_calloc (b n : Nat) (filename function : Option String) (line : Int) (r slot : Nat)
    (t : Tracker) (hs : stats_valid t = true) (ht : typed t = true) :
    Acct 0 t (at_calloc b n filename function line r slot t).state := by
  unfold at_calloc
  split
  · exact acct_seq _ _ t (acct_emit _ t hs ht (fun k => by cases k <;> exact ⟨rfl, rfl⟩))
      (fun _ t1 _ hs1 ht1 => acct_pure _ t1 hs1 ht1)
  · refine acct_seq _ _ t (acct_heap_item_new _ _ _ _ t hs ht) (fun item t1 h1 hs1 ht1 => ?_)
    have hl1 := heap_item_new_live h1
    refine acct_seq _ _ t1 (acct_store _ _ t1 hs1 ht1) (fun _ t2 h2 hs2 ht2 => ?_)
    have hl2 := store_live h2 hl1
    refine acct_seq _ _ t2 (acct_load _ t2 hs2 ht2) (fun it t3 h3 hs3 ht3 => ?_)
    obtain ⟨rfl, _⟩ := load_state h3
    split <;>
    · refine acct_seq _ _ t3 (acct_store _ _ t3 hs3 ht3) (fun _ t4 h4 hs4 ht4 => ?_)
      have hl4 := store_live h4 hl2
      refine acct_seq _ _ t4 (acct_list_add item _ t4 hs4 ht4 (fun _ => hl4))
        (fun _ t5 _ hs5 ht5 => ?_)
      exact acct_seq _ _ t5 (acct_load _ t5 hs5 ht5)
        (fun _ t6 _ hs6 ht6 => acct_pure _ t6 hs6 ht6)

theorem acct_strdup (str filename function : Option String) (line : Int) (r slot : Nat)
    (t : Tracker) (hs : stats_valid t = true) (ht : typed t = true) :
    Acct 0 t (at_strdup str filename function line r slot t).state := by
  unfold at_strdup
  cases str with
  | none => exact acct_pure _ t hs ht
  | some s =>
    simp only
    split
    · exact acct_pure _ t hs ht
    · refine acct_seq _ _ t (acct_heap_item_new _ _ _ _ t hs ht) (fun item t1 h1 hs1 ht1 => ?_)
      have hl1 := heap_item_new_live h1
      have hrest : ∀ t2, stats_valid t2 = true → typed t2 = true →
          (∃ it', peek t2.mem item = .ok it') →
          Acct 0 t2 ((do
            store item fun c => { c with pointer := r }
            at_list_add item AT_LIST_TYPE_HEAP
            pure r : M Nat) t2).state := by
        intro t2 hs2 ht2 hl2
        refine acct_seq _ _ t2 (acct_store _ _ t2 hs2 ht2) (fun _ t3 h3 hs3 ht3 => ?_)
        have hl3 := store_live h3 hl2
        exact acct_seq _ _ t3 (acct_list_add item _ t3 hs3 ht3 (fun _ => hl3))
          (fun _ t4 _ hs4 ht4 => acct_pure _ t4 hs4 ht4)
      split
      · refine acct_seq _ _ t1 (acct_store _ _ t1 hs1 ht1) (fun _ t2 h2 hs2 ht2 => ?_)
        exact hrest t2 hs2 ht2 (store_live h2 hl1)
      · refine acct_seq _ _ t1 (acct_pure _ t1 hs1 ht1) (fun _ t2 h2 hs2 ht2 => ?_)
        simp only [pure_apply, Res.ok.injEq, true_and] at h2
        subst h2
        exact hrest t1 hs1 ht1 hl1

theorem acct_free (p : Nat) (t : Tracker) (hs : stats_valid t = true) (ht : typed t = true) :
    Acct 0 t (at_free p t).state := by
  unfold at_free
  split
  · exact acct_pure _ t hs ht
  · exact acct_list_remove _ p t hs ht

theorem acct_fclose (p : Nat) (t : Tracker) (hs : stats_valid t = true) (ht : typed t = true) :
    Acct 0 t (at_fclose p t).state := by
  unfold at_fclose
  split
  · exact acct_pure _ t hs ht
  · exact acct_list_remove _ p t hs ht

/-! ## Code that keeps the account -/

theorem keeps_bind {α β : Type} {m : M α} {f : α → M β} (h1 : Keeps m) (h2 : ∀ a, Keeps (f a)) :
    Keeps (m >>= f) := fun t hs ht =>
  acct_seq m f t (h1 t hs ht) (fun a t1 _ hs1 ht1 => h2 a t1 hs1 ht1)

theorem keeps_pure {α : Type} (a : α) : Keeps (pure a : M α) := fun t hs ht => acct_pure a t hs ht

theorem keeps_fail {α : Type} (f : Fault) : Keeps (fail f : M α) := fun t hs ht =>
  acct_fail f t hs ht

theorem keeps_ite {α : Type} (c : Prop) [Decidable c] {a b : M α} (ha : Keeps a) (hb : Keeps b) :
    Keeps (if c then a else b) := by
  split
  · exact ha
  · exact hb

theorem keeps_load (a : Nat) : Keeps (load a) := fun t hs ht => acct_load a t hs ht

theorem keeps_store (a : Nat) (f : at_list_item_t → at_list_item_t) : Keeps (store a f) :=
  fun t hs ht => acct_store a f t hs ht

theorem keeps_list_get (k : at_list_type_t) (p : Nat) : Keeps (at_list_get k p) :=
  fun t hs ht => acct_list_get k p t hs ht

theorem keeps_list_remove (k : at_list_type_t) (p : Nat) : Keeps (at_list_remove k p) :=
  fun t hs ht => acct_list_remove k p t hs ht

theorem keeps_list_add_file (item : Nat) : Keeps (at_list_add item AT_LIST_TYPE_FILE) :=
  fun t hs ht => acct_list_add item _ t hs ht (fun h => by cases h)

theorem keeps_file_item_new (filename function : Option String) (line : Int) (slot : Nat) :
    Keeps (at_file_list_item_new filename function line slot) :=
  fun t hs ht => acct_file_item_new filename function line slot t hs ht

theorem keeps_heap_item_new (filename function : Option String) (line : Int) (slot : Nat) :
    Keeps (at_heap_list_item_new filename function line slot) :=
  fun t hs ht => acct_heap_item_new filename function line slot t hs ht

theorem keeps_diag_request (n : Int) : Keeps (emit (.diag_invalid_request n)) :=
  fun t hs ht => acct_emit _ t hs ht (fun k => by cases k <;> exact ⟨rfl, rfl⟩)

theorem keeps_malloc (n : Nat) (filename function : Option String) (line : Int) (r slot : Nat) :
    Keeps (at_malloc n filename function line r slot) :=
  fun t hs ht => acct_malloc n filename function line r slot t hs ht

theorem keeps_fopen (name mode filename function : Option String) (line : Int) (r slot : Nat) :
    Keeps (at_fopen name mode filename function line r slot) := by
  unfold at_fopen
  repeat' (first
    | exact keeps_list_add_file _
    | exact keeps_file_item_new _ _ _ _
    | refine keeps_bind ?_ (fun _ => ?_)
    | refine keeps_ite _ ?_ ?_
    | exact keeps_pure _
    | exact keeps_load _
    | exact keeps_store _ _)

theorem keeps_tmpfile (filename function : Option String) (line : Int) (r slot : Nat) :
    Keeps (at_tmpfile filename function line r slot) := by
  unfold at_tmpfile
  repeat' (first
    | exact keeps_list_add_file _
    | exact keeps_file_item_new _ _ _ _
    | refine keeps_bind ?_ (fun _ => ?_)
    | refine keeps_ite _ ?_ ?_
    | exact keeps_pure _
    | exact keeps_load _
    | exact keeps_store _ _)

set_option maxHeartbeats 4000000 in
theorem keeps_realloc (p n : Nat) (filename function : Option String) (line : Int)
    (r slot : Nat) : Keeps (at_realloc p n filename function line r slot) := by
  unfold at_realloc
  refine keeps_ite _ (keeps_malloc _ _ _ _ _ _) ?_
  dsimp only
  repeat' (first
    | exact keeps_list_get _ _
    | refine keeps_bind ?_ (fun _ => ?_)
    | refine keeps_ite _ ?_ ?_
    | exact keeps_pure _
    | exact keeps_fail _
    | exact keeps_load _
    | exact keeps_store _ _
    | exact keeps_diag_request _
    | split)

set_option maxHeartbeats 4000000 in
theorem acct_getdelim (outline buflen : Option Nat) (stream : Nat)
    (filename function : Option String) (line : Int) (sys : getdelim_result) (slot : Nat)
    (t : Tracker) (hs : stats_valid t = true) (ht : typed t = true) :
    Acct 0 t (at_getdelim outline buflen stream filename function line sys slot t).state := by
  unfold at_getdelim
  cases buflen with
  | none => exact acct_fail _ t hs ht
  | some n =>
    cases outline with
    | none => exact acct_pure _ t hs ht
    | some buf =>
      dsimp only
      split
      · exact acct_pure _ t hs ht
      · split
        · refine acct_seq _ _ t (acct_heap_item_new _ _ _ _ t hs ht) (fun item t1 h1 hs1 ht1 => ?_)
          have hl1 := heap_item_new_live h1
          split
          · exact acct_pure _ t1 hs1 ht1
          · refine acct_seq _ _ t1 (acct_store _ _ t1 hs1 ht1) (fun _ t2 h2 hs2 ht2 => ?_)
            have hl2 := store_live h2 hl1
            refine acct_seq _ _ t2 (acct_store _ _ t2 hs2 ht2) (fun _ t3 h3 hs3 ht3 => ?_)
            have hl3 := store_live h3 hl2
            exact acct_seq _ _ t3 (acct_list_add item _ t3 hs3 ht3 (fun _ => hl3))
              (fun _ t4 _ hs4 ht4 => acct_pure _ t4 hs4 ht4)
        · refine (?_ : Keeps _) t hs ht
          repeat' (first
            | exact keeps_list_get _ _
            | refine keeps_bind ?_ (fun _ => ?_)
            | refine keeps_ite _ ?_ ?_
            | exact keeps_pure _
            | exact keeps_fail _
            | exact keeps_load _
            | exact keeps_store _ _
            | split)

theorem acct_getline (outline buflen : Option Nat) (stream : Nat)
    (filename function : Option String) (line : Int) (sys : getdelim_result) (slot : Nat)
    (t : Tracker) (hs : stats_valid t = true) (ht : typed t = true) :
    Acct 0 t (at_getline outline buflen stream filename function line sys slot t).state :=
  acct_getdelim outline buflen stream filename function line sys slot t hs ht

/-! ## The account of at_freopen -/

set_option maxHeartbeats 4000000 in
theorem keeps_freopen_lookup (name mode : Option String) (stream : Nat) :
    Keeps (at_freopen_lookup name mode stream) := by
  unfold at_freopen_lookup
  repeat' (first
    | exact keeps_list_get _ _
    | exact keeps_list_remove _ _
    | refine keeps_bind ?_ (fun _ => ?_)
    | refine keeps_ite _ ?_ ?_
    | exact keeps_pure _
    | exact keeps_fail _
    | exact keeps_load _
    | exact keeps_store _ _
    | split)

/-- The item the lookup part of `at_freopen` ends with is in the store and has
the stream as its handle. -/
theorem freopen_lookup_found (name mode : Option String) (stream : Nat) (t : Tracker)
    (ht : typed t = true) :
    match at_freopen_lookup name mode stream t with
    | .ok r t1 => r.1 ≠ 0 → ∃ it, peek t1.mem r.1 = .ok it ∧ it.handle = stream
    | .fault _ _ => True := by
  unfold at_freopen_lookup
  rw [bind_apply, at_list_get_eq]
  cases hlk : lookup t AT_LIST_TYPE_FILE stream with
  | error e => simp
  | ok a =>
    simp only
    by_cases ha : a = 0
    · simp [ha]
    · obtain ⟨l, it, hl, _, _, hit, hid⟩ := lookup_sound hlk ha
      have hlt : l.type = AT_LIST_TYPE_FILE := (typed_iff t).mp ht _ l hl
      rw [hlt] at hid
      have hid' : it.handle = stream := hid
      simp only [ha, ne_eq, not_false_eq_true, if_true, bind_apply, load_apply, hit]
      generalize (if name = none then it.name else name) = nm
      by_cases hc : ¬it.name = none ∧ it.name = nm
      · rw [if_pos hc]
        cases hmode : it.mode with
        | none => simp
        | some m =>
          simp only
          by_cases hmm : ¬some m = mode
          · rw [if_pos hmm]
            simp [store_apply, hit, peek_set_self hit, hid']
          · rw [if_neg hmm]
            simp [hit, hid']
      · rw [if_neg hc]
        cases hrm : at_list_remove AT_LIST_TYPE_FILE stream t <;> simp [hrm]

/-- Giving up a file item that is not in the ledger: one increment of `close_no`
without a ledger event, and then the dereference of `NULL`. -/
theorem acct_discard (item : Nat) (t : Tracker) (h0 : item ≠ 0)
    (hs : stats_valid t = true) (ht : typed t = true) :
    Acct 1 t ((do
      at_track_stats_release item AT_LIST_TYPE_FILE
      at_list_free_item item AT_LIST_TYPE_FILE
      fail .null_deref : M Nat) t).state := by
  have hr := acct_release_only t 0 hs ht
  have htail : Acct 0 (released t AT_LIST_TYPE_FILE 0)
      ((at_list_free_item item AT_LIST_TYPE_FILE >>= fun _ => (fail .null_deref : M Nat))
        (released t AT_LIST_TYPE_FILE 0)).state :=
    acct_seq _ _ _ (acct_list_free_item item _ _ hr.1 hr.2.1)
      (fun _ t2 _ hs2 ht2 => acct_fail _ t2 hs2 ht2)
  have := acct_trans hr htail
  rw [bind_apply, at_track_stats_release_file item t 0 h0]
  exact this

/-- The creation of the file item of `at_freopen` and the three writes to it. -/
theorem freopen_new_item (filename function name mode : Option String) (line : Int)
    (handle slot : Nat) (rest : Nat → M Nat) (t : Tracker) :
    (do
      let item ← at_file_list_item_new filename function line slot
      store item fun c => { c with name := name }
      store item fun c => { c with mode := mode }
      store item fun c => { c with handle := handle }
      rest item) t =
    rest (new_addr t.mem slot) (with_new_item t AT_LIST_TYPE_FILE slot
      { item_blank with filename := filename, function := function, line := line,
                        id := t.file_id_counter, name := name, mode := mode, handle := handle }) := by
  simp [at_file_list_item_new, alloc_item_apply, store_apply, peek_place_new, place_set,
    with_new_item, item_blank]

theorem acct_with_new_item (t : Tracker) (k : at_list_type_t) (slot : Nat) (it : at_list_item_t)
    (hs : stats_valid t = true) (ht : typed t = true) :
    Acct 0 t (with_new_item t k slot it) := by
  obtain ⟨_, fl, fs, fc, ftr⟩ := with_new_item_frame t k slot it
  exact acct_quiet [] hs (by rw [typed_congr fl]; exact ht) fs fc (by rw [ftr]; simp)
    (fun _ => ⟨rfl, rfl⟩)

theorem acct_then {t t1 t2 : Tracker} (h1 : Acct 0 t t1) (h2 : Acct 0 t1 t2) : Acct 0 t t2 :=
  acct_trans h1 h2

set_option maxHeartbeats 4000000 in
/-- The function `at_freopen` keeps the account, up to the one increment of
`close_no` when it gives up an item that is not in the ledger. -/
theorem acct_freopen (name mode : Option String) (stream : Nat)
    (filename function : Option String) (line : Int) (res slot : Nat) (t : Tracker)
    (hs : stats_valid t = true) (ht : typed t = true) :
    Acct (if freopen_discards name mode stream res t then 1 else 0) t
      (at_freopen name mode stream filename function line res slot t).state := by
  unfold at_freopen
  by_cases hm : null_or_empty mode = true
  · have hd : freopen_discards name mode stream res t = false := by simp [freopen_discards, hm]
    rw [hd, if_pos hm]
    exact acct_pure _ t hs ht
  rw [if_neg hm]
  by_cases hst : stream = 0
  · have hd : freopen_discards name mode stream res t = false := by simp [freopen_discards, hst]
    rw [hd, if_pos hst]
    exact acct_pure _ t hs ht
  rw [if_neg hst, bind_apply]
  have hk := keeps_freopen_lookup name mode stream t hs ht
  have hfound := freopen_lookup_found name mode stream t ht
  cases hlk : at_freopen_lookup name mode stream t with
  | fault f t1 =>
    have hd : freopen_discards name mode stream res t = false := by
      simp [freopen_discards, hlk]
    rw [hd]
    rw [hlk] at hk
    exact hk
  | ok r t1 =>
    obtain ⟨item, nm⟩ := r
    rw [hlk] at hk hfound
    have hs1 := hk.1
    have ht1 := hk.2.1
    simp only at hfound ⊢
    by_cases hi : item = 0
    · subst hi
      simp only [if_true]
      rw [freopen_new_item]
      have hnew := acct_with_new_item t1 AT_LIST_TYPE_FILE slot
        { item_blank with filename := filename, function := function, line := line,
                          id := t1.file_id_counter, name := nm, mode := mode, handle := res }
        hs1 ht1
      by_cases hr : res = 0
      · have hd : freopen_discards name mode stream res t = true := by
          simp [freopen_discards, hm, hst, hr, hlk]
        rw [hd]
        simp only [hr, ne_eq, not_true_eq_false, if_false, if_true]
        rw [hr] at hnew
        exact acct_trans hk (acct_trans hnew
          (acct_discard _ _ (new_addr_ne_zero _ _) hnew.1 hnew.2.1))
      · have hd : freopen_discards name mode stream res t = false := by
          simp [freopen_discards, hr]
        rw [hd]
        simp only [hr, ne_eq, not_false_eq_true, if_true, Bool.false_eq_true, if_false]
        refine acct_then hk (acct_then hnew ?_)
        refine (?_ : Keeps _) _ hnew.1 hnew.2.1
        exact keeps_bind (keeps_list_add_file _)
          (fun _ => keeps_bind (keeps_load _) (fun _ => keeps_pure _))
    · have hd : freopen_discards name mode stream res t = false := by
        simp [freopen_discards, hlk, hi]
      obtain ⟨it, hpk, hh⟩ := hfound hi
      rw [hd]
      simp only [hi, if_false, Bool.false_eq_true]
      rw [bind_apply, load_apply, hpk]
      simp only
      refine acct_then hk ?_
      by_cases h1 : res ≠ 0 ∧ res ≠ it.handle
      · rw [if_pos h1]
        refine (?_ : Keeps _) t1 hs1 ht1
        repeat' (first
          | exact keeps_list_remove _ _
          | exact keeps_list_add_file _
          | exact keeps_file_item_new _ _ _ _
          | refine keeps_bind ?_ (fun _ => ?_)
          | exact keeps_pure _
          | exact keeps_load _
          | exact keeps_store _ _)
      · rw [if_neg h1]
        by_cases h2 : res = 0
        · have h3 : it.handle ≠ 0 := by rw [hh]; exact hst
          rw [if_pos h2, if_pos h3]
          refine (?_ : Keeps _) t1 hs1 ht1
          exact keeps_bind (keeps_list_remove _ _)
            (fun _ => keeps_bind (keeps_load _) (fun _ => keeps_pure _))
        · rw [if_neg h2]
          refine (?_ : Keeps _) t1 hs1 ht1
          exact keeps_bind (keeps_store _ _)
            (fun _ => keeps_bind (keeps_load _) (fun _ => keeps_pure _))

/-- The account of every operation. -/
theorem acct_op (op : Op) (t : Tracker) (hs : stats_valid t = true) (ht : typed t = true) :
    Acct (op.discards t) t (op.run t) := by
  cases op with
  | malloc n f g l r s => exact acct_malloc n f g l r s t hs ht
  | calloc b n f g l r s => exact acct_calloc b n f g l r s t hs ht
  | realloc p n f g l r s => exact keeps_realloc p n f g l r s t hs ht
  | strdup str f g l r s => exact acct_strdup str f g l r s t hs ht
  | getdelim o b st f g l r s => exact acct_getdelim o b st f g l r s t hs ht
  | getline o b st f g l r s => exact acct_getline o b st f g l r s t hs ht
  | free p => exact acct_free p t hs ht
  | fopen n m f g l r s => exact keeps_fopen n m f g l r s t hs ht
  | freopen n m st f g l r s => exact acct_freopen n m st f g l r s t hs ht
  | tmpfile f g l r s => exact keeps_tmpfile f g l r s t hs ht
  | fclose h => exact acct_fclose h t hs ht

/-- C10 as stated fails: `at_freopen` on a stream that is not tracked, with a
failing `freopen`, takes `close_no` from 0 to 1 while nothing is removed from the
file ledger (and then dereferences `NULL` at its `return`). -/
theorem close_no_grows_without_removal :
    Tracker.fresh.stats.close_no = 0 ∧
    ((Op.freopen (some "x.txt") (some "r") 5 (some "a.c") (some "f") 10 0 0).run
      Tracker.fresh).stats.close_no = 1 ∧
    removes AT_LIST_TYPE_FILE ((Op.freopen (some "x.txt") (some "r") 5 (some "a.c") (some "f")
      10 0 0).run Tracker.fresh).trace = 0 ∧
    (at_freopen (some "x.txt") (some "r") 5 (some "a.c") (some "f") 10 0 0
      Tracker.fresh).fault? = some .null_deref := by
  decide!

/-- C10, amended: every interception operation, started on a tracker of a run
with typed headers, extends the trace by a stretch `tr` such that `alloc_no` has
grown by the number of heap entries added in `tr`, `free_no` by the number of
heap entries removed, `open_no` by the number of file entries added, and
`close_no` by the number of file entries removed plus `Op.discards`, which is one
for an `at_freopen` that gives up an item that is not in the ledger and zero
otherwise. `alloc_amount` changes only if a heap entry is added and `free_amount`
only if one is removed. This holds at the return of the operation and also at the
fault if it ends with one; the tracker is again one of a run with typed headers. -/
theorem counters_follow_ledger_events (op : Op) (t : Tracker)
    (hs : stats_valid t = true) (ht : typed t = true) :
    stats_valid (op.run t) = true ∧ typed (op.run t) = true ∧
    ∃ tr, (op.run t).trace = t.trace ++ tr ∧
      (op.run t).stats.alloc_no = bump t.stats.alloc_no (adds AT_LIST_TYPE_HEAP tr) ∧
      (op.run t).stats.free_no = bump t.stats.free_no (removes AT_LIST_TYPE_HEAP tr) ∧
      (op.run t).stats.open_no = bump t.stats.open_no (adds AT_LIST_TYPE_FILE tr) ∧
      (op.run t).stats.close_no =
        bump t.stats.close_no (removes AT_LIST_TYPE_FILE tr + op.discards t) ∧
      (adds AT_LIST_TYPE_HEAP tr = 0 → (op.run t).stats.alloc_amount = t.stats.alloc_amount) ∧
      (removes AT_LIST_TYPE_HEAP tr = 0 → (op.run t).stats.free_amount = t.stats.free_amount) :=
  acct_op op t hs ht

theorem counters_follow_ledger_events_witness :
    stats_valid one_block = true ∧ typed one_block = true ∧
    stats_valid ((Op.free 4096).run one_block) = true ∧
    typed ((Op.free 4096).run one_block) = true ∧
    ∃ tr, ((Op.free 4096).run one_block).trace = one_block.trace ++ tr ∧
      ((Op.free 4096).run one_block).stats.alloc_no =
        bump one_block.stats.alloc_no (adds AT_LIST_TYPE_HEAP tr) ∧
      ((Op.free 4096).run one_block).stats.free_no =
        bump one_block.stats.free_no (removes AT_LIST_TYPE_HEAP tr) ∧
      ((Op.free 4096).run one_block).stats.open_no =
        bump one_block.stats.open_no (adds AT_LIST_TYPE_FILE tr) ∧
      ((Op.free 4096).run one_block).stats.close_no =
        bump one_block.stats.close_no
          (removes AT_LIST_TYPE_FILE tr + (Op.free 4096).discards one_block) ∧
      (adds AT_LIST_TYPE_HEAP tr = 0 →
        ((Op.free 4096).run one_block).stats.alloc_amount = one_block.stats.alloc_amount) ∧
      (removes AT_LIST_TYPE_HEAP tr = 0 →
        ((Op.free 4096).run one_block).stats.free_amount = one_block.stats.free_amount) :=
  ⟨by decide!, by decide!,
    counters_follow_ledger_events (Op.free 4096) one_block (by decide!) (by decide!)⟩

/-! ## Reading lines -/

theorem heap_item_new_apply (t : Tracker) (filename function : Option String) (line : Int)
    (slot : Nat) :
    at_heap_list_item_new filename function line slot t =
      .ok (new_addr t.mem slot)
        (with_new_item t AT_LIST_TYPE_HEAP slot (new_heap_item t filename function line)) := by
  simp [at_heap_list_item_new, alloc_item_apply, with_new_item, new_heap_item, item_blank]

/-- C13: when `getdelim` returns -1 with `EINVAL` or `ENOMEM`, `at_getdelim`
returns -1; the two ledger headers, the six counters and the trace are as before,
every item of the store is as before and the walk over either ledger reaches the
same entries. For a caller buffer that is not null the tracker is unchanged. -/
theorem at_getdelim_fatal_failure (t : Tracker) (buf n stream : Nat)
    (filename function : Option String) (line : Int) (sys : getdelim_result) (slot : Nat)
    (hstream : stream ≠ 0) (hfail : sys.linelen = WORD - 1) (herr : sys.errno_fatal = true) :
    ∃ r t', at_getdelim (some buf) (some n) stream filename function line sys slot t = .ok r t' ∧
      r.1 = WORD - 1 ∧
      t'.heap_list = t.heap_list ∧ t'.file_list = t.file_list ∧ t'.stats = t.stats ∧
      t'.trace = t.trace ∧
      at_list_length t' AT_LIST_TYPE_HEAP = at_list_length t AT_LIST_TYPE_HEAP ∧
      (∀ k L, entries t k = some L → entries t' k = some L) ∧
      (∀ x itx, peek t.mem x = .ok itx → peek t'.mem x = .ok itx) ∧
      (buf ≠ 0 → t' = t) := by
  by_cases hb : buf = 0
  · obtain ⟨fm, fl, fs, fc, ftr⟩ := with_new_item_frame t AT_LIST_TYPE_HEAP slot
      (new_heap_item t filename function line)
    refine ⟨(WORD - 1, some sys.line, some sys.cap),
      with_new_item t AT_LIST_TYPE_HEAP slot (new_heap_item t filename function line),
      ?_, rfl, fl AT_LIST_TYPE_HEAP, fl AT_LIST_TYPE_FILE, fs, ftr, ?_, ?_, ?_, ?_⟩
    · unfold at_getdelim
      simp only [hstream, hb, if_false, if_true, bind_apply, heap_item_new_apply, hfail, herr,
        and_self, pure_apply]
    · unfold at_list_length
      rw [fl AT_LIST_TYPE_HEAP]
    · intro k L hL
      exact (entries_with_new_item t AT_LIST_TYPE_HEAP k slot _ L hL).1
    · intro x itx hx
      rw [fm, peek_place_old]
      · exact hx
      · intro h
        rw [h] at hx
        exact peek_new_addr _ _ _ hx
    · intro h
      exact absurd hb h
  · refine ⟨(WORD - 1, some sys.line, some n), t, ?_, rfl, rfl, rfl, rfl, rfl, rfl,
      fun _ _ h => h, fun _ _ h => h, fun _ => rfl⟩
    unfold at_getdelim
    simp only [hstream, hb, if_false, hfail, herr, and_self, if_true, pure_apply]

theorem at_getdelim_fatal_failure_witness :
    ∃ r t', at_getdelim (some 0) (some 0) 7 (some "a.c") (some "f") 10
        ⟨WORD - 1, 0, 0, true⟩ 0 one_block = .ok r t' ∧
      r.1 = WORD - 1 ∧
      t'.heap_list = one_block.heap_list ∧ t'.file_list = one_block.file_list ∧
      t'.stats = one_block.stats ∧ t'.trace = one_block.trace ∧
      at_list_length t' AT_LIST_TYPE_HEAP = at_list_length one_block AT_LIST_TYPE_HEAP ∧
      (∀ k L, entries one_block k = some L → entries t' k = some L) ∧
      (∀ x itx, peek one_block.mem x = .ok itx → peek t'.mem x = .ok itx) ∧
      ((0 : Nat) ≠ 0 → t' = one_block) :=
  at_getdelim_fatal_failure one_block 0 0 7 (some "a.c") (some "f") 10 ⟨WORD - 1, 0, 0, true⟩ 0
    (by decide) rfl rfl

/-- C11: `at_getdelim` on a caller buffer `buf` that the lookup finds in the heap
ledger, with caller capacity `n`, when `getdelim` does not fail with `EINVAL` or
`ENOMEM` and reports a capacity above `n` for a buffer that is `buf` itself or an
address no entry holds: the entry found gets the buffer `getdelim` returned and
the reported capacity, nothing else of the tracker changes (headers, counters,
store size, every other item), the walk over the ledger is the same, and the
caller gets that buffer and capacity. -/
theorem at_getdelim_grows_tracked_buffer (t : Tracker) (buf n stream : Nat)
    (filename function : Option String) (line : Int) (sys : getdelim_result) (slot a : Nat)
    (it : at_list_item_t)
    (hbuf : buf ≠ 0) (hstream : stream ≠ 0)
    (hok : ¬(sys.linelen = WORD - 1 ∧ sys.errno_fatal = true))
    (hgrow : n < sys.cap) (ht : typed t = true)
    (hget : at_list_get AT_LIST_TYPE_HEAP buf t = .ok a t) (ha : a ≠ 0)
    (hit : peek t.mem a = .ok it)
    (hnew : sys.line = buf ∨ untracked t AT_LIST_TYPE_HEAP sys.line = true) :
    ∃ t', at_getdelim (some buf) (some n) stream filename function line sys slot t =
        .ok (sys.linelen, some sys.line, some sys.cap) t' ∧
      it.pointer = buf ∧
      t'.mem = t.mem.set (a - 1)
        (some { it with pointer := sys.line, size := toLong sys.cap }) ∧
      t'.heap_list = t.heap_list ∧ t'.file_list = t.file_list ∧ t'.stats = t.stats ∧
      t'.heap_id_counter = t.heap_id_counter ∧ t'.mem.length = t.mem.length ∧
      (∀ x, x ≠ a → peek t'.mem x = peek t.mem x) ∧
      entries t' AT_LIST_TYPE_HEAP = entries t AT_LIST_TYPE_HEAP ∧
      (sys.cap ≤ LONG_MAX → toLong sys.cap = (sys.cap : Int)) := by
  have hl := lookup_of_get hget
  obtain ⟨list, it2, hlist, _, _, hit2, hid⟩ := lookup_sound hl ha
  have hty := (typed_iff t).mp ht AT_LIST_TYPE_HEAP list hlist
  rw [hit] at hit2
  cases hit2
  rw [hty] at hid
  have hptr : it.pointer = buf := hid
  have h0 := peek_ok_ne_zero hit
  have hlt : a - 1 < t.mem.length := by have := peek_ok_lt hit; omega
  refine ⟨{ t with
      mem := t.mem.set (a - 1) (some { it with pointer := sys.line, size := toLong sys.cap }) },
    ?_, hptr, rfl, rfl, rfl, rfl, rfl, by simp, ?_, ?_, toLong_of_le_LONG_MAX⟩
  · unfold at_getdelim
    have hgt : sys.cap > n := hgrow
    cases hnew with
    | inl hsame =>
      have hp2 : it.pointer = sys.line := by rw [hptr, hsame]
      simp only [hstream, hbuf, if_false, hok, hgt, if_true, bind_apply, hsame, at_list_get_eq,
        hl, ha, ne_eq, not_false_eq_true, store_apply, hit, pure_apply]
      rw [hptr]
    | inr hun =>
      have hg0 := at_list_get_untracked AT_LIST_TYPE_HEAP sys.line t hun
      simp only [hstream, hbuf, if_false, hok, hgt, if_true, bind_apply, hg0, ne_eq,
        not_true_eq_false, hget, ha, not_false_eq_true, store_apply, hit, pure_apply,
        peek_set_eq _ _ _ h0 hlt, List.set_set]
  · intro x hx
    exact peek_set_other t.mem _ h0 hx
  · apply entries_set_same_next t AT_LIST_TYPE_HEAP hit
    rfl

theorem at_getdelim_grows_tracked_buffer_witness :
    ∃ t', at_getdelim (some 4096) (some 1024) 7 (some "b.c") (some "g") 20
        ⟨10, 8192, 2048, false⟩ 0 one_block = .ok (10, some 8192, some 2048) t' ∧
      (⟨0, 0, 0, some "a.c", some "f", 10, 4096, 1024, 0, none, none⟩ :
        at_list_item_t).pointer = 4096 ∧
      t'.mem = one_block.mem.set (1 - 1) (some { (⟨0, 0, 0, some "a.c", some "f", 10, 4096, 1024, 0,
          none, none⟩ : at_list_item_t) with
        pointer := 8192, size := toLong 2048 }) ∧
      t'.heap_list = one_block.heap_list ∧ t'.file_list = one_block.file_list ∧
      t'.stats = one_block.stats ∧
      t'.heap_id_counter = one_block.heap_id_counter ∧ t'.mem.length = one_block.mem.length ∧
      (∀ x, x ≠ 1 → peek t'.mem x = peek one_block.mem x) ∧
      entries t' AT_LIST_TYPE_HEAP = entries one_block AT_LIST_TYPE_HEAP ∧
      (2048 ≤ LONG_MAX → toLong 2048 = ((2048 : Nat) : Int)) :=
  at_getdelim_grows_tracked_buffer one_block 4096 1024 7 (some "b.c") (some "g") 20
    ⟨10, 8192, 2048, false⟩ 0 1 ⟨0, 0, 0, some "a.c", some "f", 10, 4096, 1024, 0, none, none⟩
    (by decide) (by decide) (by decide) (by decide) (by decide!) (by decide!) (by decide) rfl
    (Or.inr (by decide!))

/-- Adding an item that has just been created to an intact ledger: what
`at_list_add_intact` gives, relative to the tracker before the creation. -/
theorem at_list_add_new_item (t : Tracker) (k : at_list_type_t) (slot : Nat)
    (it0 : at_list_item_t) (hnext : it0.next = 0)
    (hint : intact t k = true) (hsv : stats_valid t = true)
    (hlen : at_list_length t k + 1 < WORD) :
    ∃ L it t', entries t k = some L ∧
      at_list_add (new_addr t.mem slot) k (with_new_item t k slot it0) = .ok () t' ∧
      entries t' k = some (L ++ [new_addr t.mem slot]) ∧ new_addr t.mem slot ∉ L ∧
      peek t'.mem (new_addr t.mem slot) = .ok it ∧ it = { it0 with prev := it.prev } ∧
      at_list_length t' k = at_list_length t k + 1 ∧
      t'.stats = count_aquire t.stats k it0.size ∧
      intact t' k = true ∧
      (∀ x ∈ L, ∀ itx, peek t.mem x = .ok itx →
        ∃ itx', peek t'.mem x = .ok itx' ∧ itx' = { itx with next := itx'.next }) ∧
      (∀ j, j ≠ k → listOf t' j = listOf t j) ∧
      t'.trace = t.trace ++ [.list_add k (new_addr t.mem slot)] := by
  obtain ⟨L, hL⟩ := entries_of_intact hint
  obtain ⟨fm, fl, fs, fc, ftr⟩ := with_new_item_frame t k slot it0
  have hpl := entries_with_new_item t k k slot it0 L hL
  have hint1 := intact_with_new_item t k k slot it0 hint
  have hit : peek (with_new_item t k slot it0).mem (new_addr t.mem slot) = .ok it0 := by
    rw [fm]
    exact peek_place_new _ _ _
  have hlen1 : at_list_length (with_new_item t k slot it0) k + 1 < WORD := by
    unfold at_list_length
    rw [fl k]
    exact hlen
  have hsv1 : stats_valid (with_new_item t k slot it0) = true := by
    unfold stats_valid at hsv ⊢
    rw [fs, fc]
    exact hsv
  obtain ⟨t', h1, h2, h3, h4, h5, h6, h7, h8, ⟨it', h9, h9'⟩, h10, h11, h12⟩ :=
    at_list_add_intact (new_addr t.mem slot) k (with_new_item t k slot it0) it0 L hit hnext
      hint1 hpl.1 hpl.2 hlen1 hsv1
  refine ⟨L, it', t', hL, h1, h2, hpl.2, h9, h9', ?_, ?_, h4, ?_, ?_, ?_⟩
  · rw [h3]
    unfold at_list_length
    rw [fl k]
  · rw [h5, fs]
  · intro x hx itx hpx
    have hne : x ≠ new_addr t.mem slot := fun h => hpl.2 (h ▸ hx)
    exact h10 x hne itx (by rw [fm, peek_place_old _ _ _ hne]; exact hpx)
  · intro j hj
    rw [h7 j hj, fl j]
  · rw [h6, ftr]

theorem waddLong_toLong (a c : Nat) : waddLong a (toLong c) = (a + c) % WORD := by
  unfold waddLong ofLong toLong
  have hW : WORD = 18446744073709551616 := by norm_num [WORD]
  rw [hW]
  split <;> omega

/-- The call `at_getdelim` for a null caller buffer up to the call of
`at_list_add`, when `getdelim` has not failed with `EINVAL` or `ENOMEM`. -/
theorem at_getdelim_null_buffer (t : Tracker) (n stream : Nat)
    (filename function : Option String) (line : Int) (sys : getdelim_result) (slot : Nat)
    (hstream : stream ≠ 0) (hok : ¬(sys.linelen = WORD - 1 ∧ sys.errno_fatal = true)) :
    at_getdelim (some 0) (some n) stream filename function line sys slot t =
      (do
        at_list_add (new_addr t.mem slot) AT_LIST_TYPE_HEAP
        pure (sys.linelen, some sys.line, some sys.cap))
      (with_new_item t AT_LIST_TYPE_HEAP slot (getdelim_item t filename function line sys)) := by
  unfold at_getdelim
  simp [at_heap_list_item_new, alloc_item_apply, store_apply, peek_place_new,
    place_set, getdelim_item, item_blank, with_new_item, hstream, hok]

/-- C12: `at_getdelim` for a null caller buffer on an intact heap ledger, when
`getdelim` does not fail with `EINVAL` or `ENOMEM`: the caller gets the buffer and
the capacity `getdelim` reports, and exactly one entry is appended to the heap
ledger, with that buffer, that capacity as its size, the provenance of the call
and the next id. The header length and `alloc_no` grow by one, `alloc_amount`
grows by the capacity (modulo 2^64), the ledger stays intact, the earlier entries
keep everything but the `next` link, and the file ledger is not touched. -/
theorem at_getdelim_null_buffer_adds_entry (t : Tracker) (n stream : Nat)
    (filename function : Option String) (line : Int) (sys : getdelim_result) (slot : Nat)
    (hstream : stream ≠ 0) (hok : ¬(sys.linelen = WORD - 1 ∧ sys.errno_fatal = true))
    (hint : intact t AT_LIST_TYPE_HEAP = true) (hsv : stats_valid t = true)
    (hlen : at_list_length t AT_LIST_TYPE_HEAP + 1 < WORD)
    (hno : t.stats.alloc_no + 1 < WORD) :
    ∃ L a it t', entries t AT_LIST_TYPE_HEAP = some L ∧
      at_getdelim (some 0) (some n) stream filename function line sys slot t =
        .ok (sys.linelen, some sys.line, some sys.cap) t' ∧
      entries t' AT_LIST_TYPE_HEAP = some (L ++ [a]) ∧ a ∉ L ∧
      peek t'.mem a = .ok it ∧ it.pointer = sys.line ∧ it.size = toLong sys.cap ∧
      (sys.cap ≤ LONG_MAX → it.size = (sys.cap : Int)) ∧
      it.filename = filename ∧ it.function = function ∧ it.line = line ∧
      it.id = t.heap_id_counter ∧
      at_list_length t' AT_LIST_TYPE_HEAP = at_list_length t AT_LIST_TYPE_HEAP + 1 ∧
      t'.stats.alloc_no = t.stats.alloc_no + 1 ∧
      t'.stats.alloc_amount = (t.stats.alloc_amount + sys.cap) % WORD ∧
      (t.stats.alloc_amount + sys.cap < WORD →
        t'.stats.alloc_amount = t.stats.alloc_amount + sys.cap) ∧
      t'.stats.free_amount = t.stats.free_amount ∧ t'.stats.free_no = t.stats.free_no ∧
      t'.stats.open_no = t.stats.open_no ∧ t'.stats.close_no = t.stats.close_no ∧
      intact t' AT_LIST_TYPE_HEAP = true ∧
      (∀ x ∈ L, ∀ itx, peek t.mem x = .ok itx →
        ∃ itx', peek t'.mem x = .ok itx' ∧ itx' = { itx with next := itx'.next }) ∧
      t'.file_list = t.file_list := by
  obtain ⟨L, it, t', hL, h1, h2, hfresh, h3, h3', h4, h5, h6, h7, h8, _⟩ :=
    at_list_add_new_item t AT_LIST_TYPE_HEAP slot (getdelim_item t filename function line sys)
      rfl hint hsv hlen
  have hsize : it.size = toLong sys.cap := by rw [h3']; rfl
  have ham : t'.stats.alloc_amount = (t.stats.alloc_amount + sys.cap) % WORD := by
    rw [h5]
    simp only [count_aquire, getdelim_item]
    exact waddLong_toLong _ _
  refine ⟨L, new_addr t.mem slot, it, t', hL, ?_, h2, hfresh, h3, ?_, hsize, ?_, ?_, ?_, ?_, ?_,
    h4, ?_, ham, ?_, ?_, ?_, ?_, ?_, h6, h7, ?_⟩
  · rw [at_getdelim_null_buffer t n stream filename function line sys slot hstream hok]
    simp only [bind_apply]
    rw [h1]
    rfl
  · rw [h3']; rfl
  · intro hc
    rw [hsize, toLong_of_le_LONG_MAX hc]
  · rw [h3']; rfl
  · rw [h3']; rfl
  · rw [h3']; rfl
  · rw [h3']; rfl
  · rw [h5]
    simp only [count_aquire]
    exact wadd_one hno
  · intro hlt
    rw [ham, Nat.mod_eq_of_lt hlt]
  · rw [h5]; rfl
  · rw [h5]; rfl
  · rw [h5]; rfl
  · rw [h5]; rfl
  · exact h8 AT_LIST_TYPE_FILE (by decide)

theorem at_getdelim_null_buffer_adds_entry_witness :
    ∃ L a it t', entries one_block AT_LIST_TYPE_HEAP = some L ∧
      at_getdelim (some 0) (some 0) 7 (some "b.c") (some "g") 20 ⟨10, 8192, 120, false⟩ 0
        one_block = .ok (10, some 8192, some 120) t' ∧
      entries t' AT_LIST_TYPE_HEAP = some (L ++ [a]) ∧ a ∉ L ∧
      peek t'.mem a = .ok it ∧ it.pointer = 8192 ∧ it.size = toLong 120 ∧
      (120 ≤ LONG_MAX → it.size = ((120 : Nat) : Int)) ∧
      it.filename = some "b.c" ∧ it.function = some "g" ∧ it.line = 20 ∧
      it.id = one_block.heap_id_counter ∧
      at_list_length t' AT_LIST_TYPE_HEAP = at_list_length one_block AT_LIST_TYPE_HEAP + 1 ∧
      t'.stats.alloc_no = one_block.stats.alloc_no + 1 ∧
      t'.stats.alloc_amount = (one_block.stats.alloc_amount + 120) % WORD ∧
      (one_block.stats.alloc_amount + 120 < WORD →
        t'.stats.alloc_amount = one_block.stats.alloc_amount + 120) ∧
      t'.stats.free_amount = one_block.stats.free_amount ∧
      t'.stats.free_no = one_block.stats.free_no ∧
      t'.stats.open_no = one_block.stats.open_no ∧
      t'.stats.close_no = one_block.stats.close_no ∧
      intact t' AT_LIST_TYPE_HEAP = true ∧
      (∀ x ∈ L, ∀ itx, peek one_block.mem x = .ok itx →
        ∃ itx', peek t'.mem x = .ok itx' ∧ itx' = { itx with next := itx'.next }) ∧
      t'.file_list = one_block.file_list :=
  at_getdelim_null_buffer_adds_entry one_block 0 7 (some "b.c") (some "g") 20
    ⟨10, 8192, 120, false⟩ 0 (by decide) (by decide) (by decide!) (by decide!) (by decide!)
    (by decide!)

/-! ## Opening files -/

/-- The call `at_fopen` on a name and a mode that pass the checks, up to the call
of `at_list_add`. -/
theorem at_fopen_valid (t : Tracker) (name mode filename function : Option String) (line : Int)
    (h slot : Nat) (hname : null_or_empty name = false) (hmode : null_or_empty mode = false) :
    at_fopen name mode filename function line h slot t =
      (do
        at_list_add (new_addr t.mem slot) AT_LIST_TYPE_FILE
        let it ← load (new_addr t.mem slot)
        pure it.handle)
      (with_new_item t AT_LIST_TYPE_FILE slot
        (fopen_item t name mode filename function line h)) := by
  unfold at_fopen
  simp [at_file_list_item_new, alloc_item_apply, store_apply, peek_place_new,
    place_set, fopen_item, item_blank, with_new_item, hname, hmode]

/-- C14: `at_fopen` returns `NULL` and leaves the tracker as it is when the name
or the mode is null or empty. For every other name and mode, on an intact file
ledger, it returns what `fopen` returned, also when that is `NULL`, and appends
exactly one entry to the file ledger, with the name, the mode, that stream, the
provenance of the call and the next id. The header length and `open_no` grow by
one, the other counters stay, the ledger stays intact, the earlier entries keep
everything but the `next` link, and the heap ledger is not touched. -/
theorem at_fopen_contract (t : Tracker) (name mode filename function : Option String)
    (line : Int) (h slot : Nat)
    (hint : intact t AT_LIST_TYPE_FILE = true) (hsv : stats_valid t = true)
    (hlen : at_list_length t AT_LIST_TYPE_FILE + 1 < WORD)
    (hno : t.stats.open_no + 1 < WORD) :
    (null_or_empty name = true ∨ null_or_empty mode = true →
      at_fopen name mode filename function line h slot t = .ok 0 t) ∧
    (null_or_empty name = false → null_or_empty mode = false →
      ∃ L a it t', entries t AT_LIST_TYPE_FILE = some L ∧
        at_fopen name mode filename function line h slot t = .ok h t' ∧
        entries t' AT_LIST_TYPE_FILE = some (L ++ [a]) ∧ a ∉ L ∧
        peek t'.mem a = .ok it ∧ it.handle = h ∧ it.name = name ∧ it.mode = mode ∧
        it.filename = filename ∧ it.function = function ∧ it.line = line ∧
        it.id = t.file_id_counter ∧
        at_list_length t' AT_LIST_TYPE_FILE = at_list_length t AT_LIST_TYPE_FILE + 1 ∧
        t'.stats = { t.stats with open_no := t.stats.open_no + 1 } ∧
        intact t' AT_LIST_TYPE_FILE = true ∧
        (∀ x ∈ L, ∀ itx, peek t.mem x = .ok itx →
          ∃ itx', peek t'.mem x = .ok itx' ∧ itx' = { itx with next := itx'.next }) ∧
        t'.heap_list = t.heap_list) := by
  constructor
  · intro hne
    unfold at_fopen
    cases hn : null_or_empty name
    · have hm : null_or_empty mode = true := by
        cases hne with
        | inl h1 => rw [hn] at h1; cases h1
        | inr h2 => exact h2
      simp [hm]
    · simp
  · intro hname hmode
    obtain ⟨L, it, t', hL, h1, h2, hfresh, h3, h3', h4, h5, h6, h7, h8, _⟩ :=
      at_list_add_new_item t AT_LIST_TYPE_FILE slot
        (fopen_item t name mode filename function line h) rfl hint hsv hlen
    have hh : it.handle = h := by rw [h3']; rfl
    refine ⟨L, new_addr t.mem slot, it, t', hL, ?_, h2, hfresh, h3, hh, ?_, ?_, ?_, ?_, ?_, ?_,
      h4, ?_, h6, h7, ?_⟩
    · rw [at_fopen_valid t name mode filename function line h slot hname hmode]
      simp only [bind_apply]
      rw [h1]
      simp [load_apply, h3, hh]
    · rw [h3']; rfl
    · rw [h3']; rfl
    · rw [h3']; rfl
    · rw [h3']; rfl
    · rw [h3']; rfl
    · rw [h3']; rfl
    · rw [h5]
      simp only [count_aquire]
      rw [wadd_one hno]
    · exact h8 AT_LIST_TYPE_HEAP (by decide)

theorem at_fopen_contract_witness :
    ∃ L a it t', entries Tracker.fresh AT_LIST_TYPE_FILE = some L ∧
      at_fopen (some "x.txt") (some "r") (some "a.c") (some "f") 10 0 0 Tracker.fresh =
        .ok 0 t' ∧
      entries t' AT_LIST_TYPE_FILE = some (L ++ [a]) ∧ a ∉ L ∧
      peek t'.mem a = .ok it ∧ it.handle = 0 ∧ it.name = some "x.txt" ∧
      it.mode = some "r" ∧
      it.filename = some "a.c" ∧ it.function = some "f" ∧ it.line = 10 ∧
      it.id = Tracker.fresh.file_id_counter ∧
      at_list_length t' AT_LIST_TYPE_FILE =
        at_list_length Tracker.fresh AT_LIST_TYPE_FILE + 1 ∧
      t'.stats = { Tracker.fresh.stats with open_no := Tracker.fresh.stats.open_no + 1 } ∧
      intact t' AT_LIST_TYPE_FILE = true ∧
      (∀ x ∈ L, ∀ itx, peek Tracker.fresh.mem x = .ok itx →
        ∃ itx', peek t'.mem x = .ok itx' ∧ itx' = { itx with next := itx'.next }) ∧
      t'.heap_list = Tracker.fresh.heap_list :=
  (at_fopen_contract Tracker.fresh (some "x.txt") (some "r") (some "a.c") (some "f") 10 0 0
    (by decide!) (by decide!) (by decide!) (by decide!)).2 (by decide!) (by decide!)

/-! ## Reopening files -/

/-- C15: `at_freopen` on a stream `h` that the lookup finds in the file ledger
with the stored path `p`, for a mode `m` that is not empty, when `freopen`
returns `h` itself: called with the name `p` and called with a null name it
returns `h`, and the only change to the tracker is that the entry found has the
mode `m`; headers, counters, id counters, trace and the walk over the ledger are
as before, and the entry keeps its id and its path. -/
theorem at_freopen_same_handle (t : Tracker) (p m : String) (h : Nat)
    (filename function : Option String) (line : Int) (slot a : Nat) (it : at_list_item_t)
    (hm : null_or_empty (some m) = false) (ht : typed t = true)
    (hget : at_list_get AT_LIST_TYPE_FILE h t = .ok a t) (ha : a ≠ 0)
    (hit : peek t.mem a = .ok it) (hpath : it.name = some p) (hmode : it.mode ≠ none) :
    ∃ t', at_freopen (some p) (some m) h filename function line h slot t = .ok h t' ∧
      at_freopen none (some m) h filename function line h slot t = .ok h t' ∧
      it.handle = h ∧
      t' = { t with mem := t.mem.set (a - 1) (some { it with mode := some m }) } ∧
      at_list_length t' AT_LIST_TYPE_FILE = at_list_length t AT_LIST_TYPE_FILE ∧
      t'.stats = t.stats ∧
      entries t' AT_LIST_TYPE_FILE = entries t AT_LIST_TYPE_FILE ∧
      (∃ it', peek t'.mem a = .ok it' ∧ it'.id = it.id ∧ it'.name = some p ∧
        it'.mode = some m ∧ it'.handle = h) := by
  have hl := lookup_of_get hget
  obtain ⟨list, it2, hlist, hh, _, hit2, hid⟩ := lookup_sound hl ha
  have hty := (typed_iff t).mp ht AT_LIST_TYPE_FILE list hlist
  rw [hit] at hit2
  cases hit2
  rw [hty] at hid
  have hhandle : it.handle = h := hid
  have h0 := peek_ok_ne_zero hit
  have hlt : a - 1 < t.mem.length := by have := peek_ok_lt hit; omega
  obtain ⟨m0, hm0⟩ := Option.ne_none_iff_exists'.mp hmode
  have key : ∀ name : Option String, name = some p ∨ name = none →
      at_freopen name (some m) h filename function line h slot t =
        .ok h { t with mem := t.mem.set (a - 1) (some { it with mode := some m }) } := by
    intro name hname
    have hself : m0 = m → { it with handle := h } = { it with mode := some m } := by
      intro hmm
      cases it
      simp only [at_list_item_t.mk.injEq] at *
      simp_all
    unfold at_freopen at_freopen_lookup
    by_cases hmm : m0 = m
    · rcases hname with rfl | rfl <;>
        simp [hm, hh, hget, ha, load_apply, hit, hpath, hm0, hmm, store_apply, hhandle,
          peek_set_eq _ _ _ h0 hlt, hself hmm]
    · rcases hname with rfl | rfl <;>
        simp [hm, hh, hget, ha, load_apply, hit, hpath, hm0, hmm, store_apply, hhandle,
          peek_set_eq _ _ _ h0 hlt, List.set_set]
  refine ⟨_, key (some p) (Or.inl rfl), key none (Or.inr rfl), hhandle, rfl, rfl, rfl, ?_, ?_⟩
  · apply entries_set_same_next t AT_LIST_TYPE_FILE hit
    rfl
  · exact ⟨_, peek_set_eq _ _ _ h0 hlt, rfl, hpath, rfl, hhandle⟩

theorem at_freopen_same_handle_witness :
    ∃ t', at_freopen (some "x.txt") (some "r") 7 (some "b.c") (some "g") 20 7 0 one_file =
        .ok 7 t' ∧
      at_freopen none (some "r") 7 (some "b.c") (some "g") 20 7 0 one_file = .ok 7 t' ∧
      (⟨0, 0, 0, some "a.c", some "f", 10, 0, 0, 7, some "x.txt", some "w"⟩ :
        at_list_item_t).handle = 7 ∧
      t' = { one_file with
        mem := one_file.mem.set (1 - 1) (some { (⟨0, 0, 0, some "a.c", some "f", 10, 0, 0, 7,
          some "x.txt", some "w"⟩ : at_list_item_t) with mode := some "r" }) } ∧
      at_list_length t' AT_LIST_TYPE_FILE = at_list_length one_file AT_LIST_TYPE_FILE ∧
      t'.stats = one_file.stats ∧
      entries t' AT_LIST_TYPE_FILE = entries one_file AT_LIST_TYPE_FILE ∧
      (∃ it', peek t'.mem 1 = .ok it' ∧
        it'.id = (⟨0, 0, 0, some "a.c", some "f", 10, 0, 0, 7, some "x.txt", some "w"⟩ :
          at_list_item_t).id ∧
        it'.name = some "x.txt" ∧ it'.mode = some "r" ∧ it'.handle = 7) :=
  at_freopen_same_handle one_file "x.txt" "r" 7 (some "b.c") (some "g") 20 0 1
    ⟨0, 0, 0, some "a.c", some "f", 10, 0, 0, 7, some "x.txt", some "w"⟩
    (by decide!) (by decide!) (by decide!) (by decide) rfl rfl (by decide)

/-- C16: on the tracker with the one stream 7 opened as "x.txt", the call
`at_freopen("x.txt", "r", 7)` whose `freopen` returns `NULL` removes the entry
(the header says 0, the lookup of 7 finds nothing, `close_no` has gone from 0 to
1, `fclose(7)` was called) and then reads `item->handle` from the item that
`at_list_remove` has just freed: it does not return a null handle, it ends in a
use after free. -/
theorem at_freopen_reads_freed_item :
    entries one_file AT_LIST_TYPE_FILE = some [1] ∧
    (lookup one_file AT_LIST_TYPE_FILE 7).toOption = some 1 ∧
    one_file.stats.close_no = 0 ∧
    (at_freopen (some "x.txt") (some "r") 7 (some "b.c") (some "g") 20 0 0 one_file).fault? =
      some .use_after_free ∧
    at_list_length (at_freopen (some "x.txt") (some "r") 7 (some "b.c") (some "g") 20 0 0
      one_file).state AT_LIST_TYPE_FILE = 0 ∧
    (lookup (at_freopen (some "x.txt") (some "r") 7 (some "b.c") (some "g") 20 0 0
      one_file).state AT_LIST_TYPE_FILE 7).toOption = some 0 ∧
    (at_freopen (some "x.txt") (some "r") 7 (some "b.c") (some "g") 20 0 0
      one_file).state.stats.close_no = 1 ∧
    (at_freopen (some "x.txt") (some "r") 7 (some "b.c") (some "g") 20 0 0
      one_file).state.mem = [none] ∧
    (at_freopen (some "x.txt") (some "r") 7 (some "b.c") (some "g") 20 0 0
      one_file).state.trace = one_file.trace ++ [.list_remove AT_LIST_TYPE_FILE 1, .sys_fclose 7] := by
  decide!

/-- C17: on the tracker with the one stream 7, the call
`at_freopen("y.txt", "r", 9)` on the untracked stream 9 whose `freopen` returns
`NULL` leaves the file ledger as it is, and then dereferences the variable `item`
that `at_list_free_item` has set to `NULL`: it does not return a null handle, it
ends in a null dereference. When `freopen` returns the stream 9 the call returns 9
and the new entry is the second of the ledger. -/
theorem at_freopen_null_item_after_failed_reopen :
    untracked one_file AT_LIST_TYPE_FILE 9 = true ∧
    (at_freopen (some "y.txt") (some "r") 9 (some "b.c") (some "g") 20 0 0 one_file).fault? =
      some .null_deref ∧
    (at_freopen (some "y.txt") (some "r") 9 (some "b.c") (some "g") 20 0 0
      one_file).state.file_list = one_file.file_list ∧
    entries (at_freopen (some "y.txt") (some "r") 9 (some "b.c") (some "g") 20 0 0
      one_file).state AT_LIST_TYPE_FILE = entries one_file AT_LIST_TYPE_FILE ∧
    (at_freopen (some "y.txt") (some "r") 9 (some "b.c") (some "g") 20 9 0 one_file).fault? =
      none ∧
    entries (at_freopen (some "y.txt") (some "r") 9 (some "b.c") (some "g") 20 9 0
      one_file).state AT_LIST_TYPE_FILE = some [1, 2] := by
  decide!

/-- C18: `at_strdup("abc")` whose `malloc` fails returns `NULL` and adds one heap
entry with the null block and the size 0, not the sentinel -1 that `at_malloc`
records for a failed `malloc`; with a `malloc` that succeeds the entry has the
size 4. -/
theorem at_strdup_failed_malloc_records_zero :
    (at_strdup (some "abc") (some "a.c") (some "f") 10 0 0 Tracker.fresh).fault? = none ∧
    entries (at_strdup (some "abc") (some "a.c") (some "f") 10 0 0 Tracker.fresh).state
      AT_LIST_TYPE_HEAP = some [1] ∧
    (at_strdup (some "abc") (some "a.c") (some "f") 10 0 0 Tracker.fresh).state.mem =
      [some ⟨0, 0, 0, some "a.c", some "f", 10, 0, 0, 0, none, none⟩] ∧
    failed_block.mem = [some ⟨0, 0, 0, some "a.c", some "f", 10, 0, -1, 0, none, none⟩] ∧
    (at_strdup (some "abc") (some "a.c") (some "f") 10 4096 0 Tracker.fresh).state.mem =
      [some ⟨0, 0, 0, some "a.c", some "f", 10, 4096, 4, 0, none, none⟩] := by
  decide!

/-! ## Tearing down an entry -/

/-- C19 as stated fails: the heap entry of `failed_block` holds the sentinel -1,
and `at_list_free_item` on it prints the line "invalid allocation size of -1
bytes" before it frees the item; `free` is not called. -/
theorem sentinel_entry_is_reported_invalid :
    failed_block.mem = [some ⟨0, 0, 0, some "a.c", some "f", 10, 0, -1, 0, none, none⟩] ∧
    (at_list_free_item 1 AT_LIST_TYPE_HEAP failed_block).fault? = none ∧
    (at_list_free_item 1 AT_LIST_TYPE_HEAP failed_block).state.trace =
      failed_block.trace ++ [.diag_invalid_size (-1)] ∧
    (at_list_free_item 1 AT_LIST_TYPE_HEAP failed_block).state.mem = [none] := by
  decide!

/-- C19, amended: `at_list_free_item` on a live heap item frees the item and
leaves exactly one of three marks on the trace: the line "invalid allocation size"
with the recorded size when the size is at most 0, the sentinel -1 included; the
call `free(pointer)` when the size is positive and the block is not null; nothing
when the size is positive and the block is null. So the diagnostic is printed if
and only if the size is at most 0, and `free` is called if and only if the size is
positive and the block is not null. -/
theorem at_list_free_item_heap (t : Tracker) (item : Nat) (it : at_list_item_t)
    (hit : peek t.mem item = .ok it) :
    ∃ t', at_list_free_item item AT_LIST_TYPE_HEAP t = .ok () t' ∧
      t'.mem = t.mem.set (item - 1) none ∧
      t'.trace = t.trace ++
        (if it.size ≤ 0 then [.diag_invalid_size it.size]
         else if it.pointer ≠ 0 then [.sys_free it.pointer] else []) ∧
      (Event.diag_invalid_size it.size ∈ t'.trace.drop t.trace.length ↔ it.size ≤ 0) ∧
      (Event.sys_free it.pointer ∈ t'.trace.drop t.trace.length ↔
        0 < it.size ∧ it.pointer ≠ 0) ∧
      t'.stats = t.stats ∧ t'.heap_list = t.heap_list ∧ t'.file_list = t.file_list := by
  have h0 := peek_ok_ne_zero hit
  unfold at_list_free_item
  by_cases hs : it.size ≤ 0
  · have hs' : ¬ 0 < it.size := by omega
    simp [h0, load_apply, hit, hs, hs', free_item_apply]
  · have hs' : 0 < it.size := by omega
    by_cases hp : it.pointer = 0
    · simp [h0, load_apply, hit, hs, hs', hp, free_item_apply]
    · simp [h0, load_apply, hit, hs, hs', hp, free_item_apply]

theorem at_list_free_item_heap_witness :
    ∃ t', at_list_free_item 1 AT_LIST_TYPE_HEAP one_block = .ok () t' ∧
      t'.mem = one_block.mem.set (1 - 1) none ∧
      t'.trace = one_block.trace ++
        (if (⟨0, 0, 0, some "a.c", some "f", 10, 4096, 1024, 0, none, none⟩ :
            at_list_item_t).size ≤ 0 then
          [.diag_invalid_size (⟨0, 0, 0, some "a.c", some "f", 10, 4096, 1024, 0, none, none⟩ :
            at_list_item_t).size]
         else if (⟨0, 0, 0, some "a.c", some "f", 10, 4096, 1024, 0, none, none⟩ :
            at_list_item_t).pointer ≠ 0 then
          [.sys_free (⟨0, 0, 0, some "a.c", some "f", 10, 4096, 1024, 0, none, none⟩ :
            at_list_item_t).pointer]
         else []) ∧
      (Event.diag_invalid_size (⟨0, 0, 0, some "a.c", some "f", 10, 4096, 1024, 0, none, none⟩ :
          at_list_item_t).size ∈ t'.trace.drop one_block.trace.length ↔
        (⟨0, 0, 0, some "a.c", some "f", 10, 4096, 1024, 0, none, none⟩ :
          at_list_item_t).size ≤ 0) ∧
      (Event.sys_free (⟨0, 0, 0, some "a.c", some "f", 10, 4096, 1024, 0, none, none⟩ :
          at_list_item_t).pointer ∈ t'.trace.drop one_block.trace.length ↔
        0 < (⟨0, 0, 0, some "a.c", some "f", 10, 4096, 1024, 0, none, none⟩ :
          at_list_item_t).size ∧
        (⟨0, 0, 0, some "a.c", some "f", 10, 4096, 1024, 0, none, none⟩ :
          at_list_item_t).pointer ≠ 0) ∧
      t'.stats = one_block.stats ∧ t'.heap_list = one_block.heap_list ∧
      t'.file_list = one_block.file_list :=
  at_list_free_item_heap one_block 1
    ⟨0, 0, 0, some "a.c", some "f", 10, 4096, 1024, 0, none, none⟩ rfl

/-! ## The report -/

/-- C20: on every tracker that has entries to report (`can_report`), no heap
ledger and a file ledger, `at_report` reads `heap_list->length` through the null
`heap_list` in its third test: it ends there in a null dereference, before it has
printed a line. -/
theorem at_report_reads_absent_heap_ledger (t : Tracker) (l : at_list_t)
    (hrep : t.can_report = true) (hheap : t.heap_list = none) (hfile : t.file_list = some l) :
    at_report t = .fault .null_deref t := by
  unfold at_report at_report_nothing_listed
  simp [hrep, hheap, hfile]

theorem at_report_reads_absent_heap_ledger_witness :
    one_file.can_report = true ∧ one_file.heap_list = none ∧
    one_file.file_list = some ⟨1, 1, 1, AT_LIST_TYPE_FILE⟩ ∧
    entries one_file AT_LIST_TYPE_FILE = some [1] ∧
    at_report one_file = .fault .null_deref one_file :=
  ⟨by decide!, by decide!, by decide!, by decide!,
    at_report_reads_absent_heap_ledger one_file ⟨1, 1, 1, AT_LIST_TYPE_FILE⟩ (by decide!)
      (by decide!) (by decide!)⟩

/-- After `p = malloc(1024); free(p); fopen("x.txt", "w")` both ledgers exist, and
the report is the title, the section title of the files, one line for the open
stream, the summary with the count 1, and the counters. -/
theorem at_report_lists_open_file :
    (at_report (at_fopen (some "x.txt") (some "w") (some "a.c") (some "f") 12 7 0
      (at_free 4096 one_block).state).state).fault? = none ∧
    (at_report (at_fopen (some "x.txt") (some "w") (some "a.c") (some "f") 12 7 0
      (at_free 4096 one_block).state).state).state.trace =
      (at_fopen (some "x.txt") (some "w") (some "a.c") (some "f") 12 7 0
        (at_free 4096 one_block).state).state.trace ++
      [.report_title, .report_file_title, .report_file_line 2, .report_file_summary 1,
        .report_stats 1024 1024 1 1 1 0] := by
  decide!

/-! ## Truncation -/

/-- The C string of a buffer that has a zero byte after bytes that are not
zero. -/
theorem cstr_append_zero (a rest : List Nat) (ha : ∀ b ∈ a, b ≠ 0) :
    cstr (a ++ 0 :: rest) = a := by
  induction a with
  | nil => simp [cstr]
  | cons x xs ih =>
    have hx : x ≠ 0 := ha x (List.mem_cons_self _ _)
    have hxs : ∀ b ∈ xs, b ≠ 0 := fun b hb => ha b (List.mem_cons_of_mem _ hb)
    have := ih hxs
    simp only [cstr] at this ⊢
    simp only [List.cons_append, List.takeWhile, hx, ne_eq, not_false_eq_true, decide_True]
    exact congrArg (fun l => x :: l) this

theorem dots_ne_zero : ∀ b ∈ dots, b ≠ 0 := by
  intro b hb
  simp [dots] at hb
  omega

theorem at_truncate_back_short (s : List Nat) (w : Nat) (hs : ∀ b ∈ s, b ≠ 0)
    (h : s.length ≤ w) :
    ∃ buf, at_truncate_back (some s) w true = .ok (some buf) ∧ cstr buf = s := by
  refine ⟨s ++ [0], ?_, cstr_append_zero s [] hs⟩
  unfold at_truncate_back
  by_cases h0 : s.length = 0
  · have : s = [] := List.length_eq_zero.mp h0
    simp [this, strdup]
  · simp [h0, h, strdup]

theorem at_truncate_front_short (s : List Nat) (w : Nat) (m : Option (Nat → Nat))
    (hs : ∀ b ∈ s, b ≠ 0) (h : s.length ≤ w) :
    ∃ buf, at_truncate_front (some s) w true m = .ok (some buf) ∧ cstr buf = s := by
  refine ⟨s ++ [0], ?_, cstr_append_zero s [] hs⟩
  unfold at_truncate_front
  by_cases h0 : s.length = 0
  · have : s = [] := List.length_eq_zero.mp h0
    simp [this, strdup]
  · simp [h0, h, strdup]

theorem at_truncate_back_long (s : List Nat) (w : Nat) (hs : ∀ b ∈ s, b ≠ 0)
    (hw : 3 ≤ w) (hmax : (w : Int) < INT_MAX) (h : w < s.length) :
    ∃ buf, at_truncate_back (some s) w true = .ok (some buf) ∧
      cstr buf = s.take (w - 3) ++ dots ∧ (cstr buf).length = w := by
  have hne : s.length ≠ 0 := by omega
  have hnle : ¬ s.length ≤ w := by omega
  have h3 : ((w : Int) - 3).toNat = w - 3 := by omega
  have hov : ¬ ((w : Int) + 1 > INT_MAX) := by omega
  have hneg : ¬ ((w : Int) - 3 < 0) := by omega
  have htake : (s ++ [0]).take (w - 3) = s.take (w - 3) := by
    rw [List.take_append_of_le_length (by omega)]
  have hlen : (s.take (w - 3) ++ dots).length = w := by
    simp [dots, List.length_take]
    omega
  have hnz : ∀ b ∈ s.take (w - 3) ++ dots, b ≠ 0 := by
    intro b hb
    rcases List.mem_append.mp hb with h1 | h2
    · exact hs b (List.mem_of_mem_take h1)
    · exact dots_ne_zero b h2
  have hcpy : strcpy_at (s ++ [0]) (w - 3) dots =
      .ok ((s.take (w - 3) ++ dots) ++ 0 :: (s ++ [0]).drop (w - 3 + dots.length + 1)) := by
    unfold strcpy_at
    have hfit : w - 3 + dots.length + 1 ≤ (s ++ [0]).length := by
      simp [dots]
      omega
    rw [if_pos hfit, htake]
    simp
  have hset : ((s.take (w - 3) ++ dots) ++ 0 :: (s ++ [0]).drop (w - 3 + dots.length + 1)).set w 0
      = (s.take (w - 3) ++ dots) ++ 0 :: (s ++ [0]).drop (w - 3 + dots.length + 1) := by
    rw [List.set_append_right _ _ (by rw [hlen]), hlen]
    simp
  refine ⟨(s.take (w - 3) ++ dots) ++ 0 :: (s ++ [0]).drop (w - 3 + dots.length + 1), ?_,
    cstr_append_zero _ _ hnz, ?_⟩
  · unfold at_truncate_back
    simp only [hne, if_false, Int.toNat_ofNat, hnle, or_false, hov, hneg, h3, strdup, if_true,
      Nat.cast_nonneg, not_lt.mpr, hcpy]
    have hlt : w < ((s.take (w - 3) ++ dots) ++
        0 :: (s ++ [0]).drop (w - 3 + dots.length + 1)).length := by
      rw [List.length_append, hlen]
      simp
    simp only [bind, Except.bind, pure, Except.pure]
    rw [if_pos hlt, hset]
  · rw [cstr_append_zero _ _ hnz, hlen]

theorem at_truncate_front_long (s : List Nat) (w : Nat) (bytes : Nat → Nat)
    (hs : ∀ b ∈ s, b ≠ 0) (hw : 3 ≤ w) (hmax : (w : Int) < INT_MAX) (h : w < s.length) :
    ∃ buf, at_truncate_front (some s) w true (some bytes) = .ok (some buf) ∧
      cstr buf = dots ++ s.drop (s.length - (w - 3)) ∧ (cstr buf).length = w := by
  have hne : s.length ≠ 0 := by omega
  have hnle : ¬ s.length ≤ w := by omega
  have hov : ¬ ((w : Int) + 1 > INT_MAX) := by omega
  have hsz : ((w : Int) + 1).toNat = w + 1 := by omega
  have hstart : s.length - w + 3 = s.length - (w - 3) := by omega
  have hle : s.length - (w - 3) ≤ s.length := by omega
  have hsrc : cstr ((s ++ [0]).drop (s.length - (w - 3))) = s.drop (s.length - (w - 3)) := by
    rw [List.drop_append_of_le_length hle]
    exact cstr_append_zero _ [] (fun b hb => hs b (List.mem_of_mem_drop hb))
  have hsrclen : (s.drop (s.length - (w - 3))).length = w - 3 := by
    rw [List.length_drop]
    omega
  have hbuf : ((List.range (w + 1)).map bytes).length = w + 1 := by simp
  have hcpy1 : strcpy_at ((List.range (w + 1)).map bytes) 0 dots =
      .ok (dots ++ 0 :: ((List.range (w + 1)).map bytes).drop 4) := by
    unfold strcpy_at
    have hfit : 0 + dots.length + 1 ≤ ((List.range (w + 1)).map bytes).length := by
      rw [hbuf]
      simp [dots]
      omega
    rw [if_pos hfit]
    simp [dots]
  have hc1 : cstr (dots ++ 0 :: ((List.range (w + 1)).map bytes).drop 4) = dots :=
    cstr_append_zero _ _ dots_ne_zero
  have hcpy2 : strcpy_at (dots ++ 0 :: ((List.range (w + 1)).map bytes).drop 4) dots.length
      (s.drop (s.length - (w - 3))) = .ok ((dots ++ s.drop (s.length - (w - 3))) ++ 0 :: []) := by
    unfold strcpy_at
    have hl : (dots ++ 0 :: ((List.range (w + 1)).map bytes).drop 4).length = w + 1 := by
      simp [dots]
      omega
    have hfit : dots.length + (s.drop (s.length - (w - 3))).length + 1 ≤
        (dots ++ 0 :: ((List.range (w + 1)).map bytes).drop 4).length := by
      rw [hl, hsrclen]
      simp [dots]
      omega
    rw [if_pos hfit]
    have hd : (dots ++ 0 :: ((List.range (w + 1)).map bytes).drop 4).drop
        (dots.length + (s.drop (s.length - (w - 3))).length + 1) = [] := by
      apply List.drop_of_length_le
      rw [hl, hsrclen]
      simp [dots]
      omega
    rw [hd, List.take_left]
    simp
  have hnz : ∀ b ∈ dots ++ s.drop (s.length - (w - 3)), b ≠ 0 := by
    intro b hb
    rcases List.mem_append.mp hb with h1 | h2
    · exact dots_ne_zero b h1
    · exact hs b (List.mem_of_mem_drop h2)
  refine ⟨(dots ++ s.drop (s.length - (w - 3))) ++ 0 :: [], ?_, cstr_append_zero _ _ hnz, ?_⟩
  · unfold at_truncate_front
    simp only [hne, if_false, Int.toNat_ofNat, hnle, or_false, hov, hsz, hstart, hle, if_true,
      Nat.cast_nonneg, not_lt.mpr, hcpy1, bind, Except.bind, pure, Except.pure, hc1, hsrc, hcpy2]
  · rw [cstr_append_zero _ _ hnz, List.length_append, hsrclen]
    simp [dots]
    omega

/-- C21: for a string `s` (bytes that are not zero) and a width `w` with
`3 ≤ w < INT_MAX`, when the allocations succeed: for `|s| ≤ w` both
`at_truncate_back` and `at_truncate_front` return a copy of `s`; for `|s| > w`,
`at_truncate_back` returns the first `w - 3` bytes of `s` followed by "...", and
`at_truncate_front` returns "..." followed by the last `w - 3` bytes of `s`, and
either result has exactly `w` bytes. -/
theorem at_truncate_contract (s : List Nat) (w : Nat) (bytes : Nat → Nat)
    (hs : ∀ b ∈ s, b ≠ 0) (hw : 3 ≤ w) (hmax : (w : Int) < INT_MAX) :
    (s.length ≤ w →
      (∃ buf, at_truncate_back (some s) w true = .ok (some buf) ∧ cstr buf = s) ∧
      (∃ buf, at_truncate_front (some s) w true (some bytes) = .ok (some buf) ∧
        cstr buf = s)) ∧
    (w < s.length →
      (∃ buf, at_truncate_back (some s) w true = .ok (some buf) ∧
        cstr buf = s.take (w - 3) ++ dots ∧ (cstr buf).length = w) ∧
      (∃ buf, at_truncate_front (some s) w true (some bytes) = .ok (some buf) ∧
        cstr buf = dots ++ s.drop (s.length - (w - 3)) ∧ (cstr buf).length = w)) :=
  ⟨fun h => ⟨at_truncate_back_short s w hs h, at_truncate_front_short s w (some bytes) hs h⟩,
    fun h => ⟨at_truncate_back_long s w hs hw hmax h,
      at_truncate_front_long s w bytes hs hw hmax h⟩⟩

theorem at_truncate_contract_witness :
    (∃ buf, at_truncate_back (some [97, 98, 99, 100, 101, 102, 103, 104]) (5 : Nat) true =
        .ok (some buf) ∧
      cstr buf = [97, 98, 99, 100, 101, 102, 103, 104].take (5 - 3) ++ dots ∧
      (cstr buf).length = 5) ∧
    (∃ buf, at_truncate_front (some [97, 98, 99, 100, 101, 102, 103, 104]) (5 : Nat) true
        (some fun _ => 1) = .ok (some buf) ∧
      cstr buf = dots ++ [97, 98, 99, 100, 101, 102, 103, 104].drop
        ([97, 98, 99, 100, 101, 102, 103, 104].length - (5 - 3)) ∧
      (cstr buf).length = 5) :=
  (at_truncate_contract [97, 98, 99, 100, 101, 102, 103, 104] 5 (fun _ => 1) (by decide)
    (by decide) (by decide)).2 (by decide)

/-! ## Arrays -/

/-- A valid `at_calloc` up to the call of `at_list_add`: the new item is in the
store with the product modulo 2^64 as its size, or the sentinel. -/
theorem at_calloc_valid (t : Tracker) (blocks length : Nat) (filename function : Option String)
    (line : Int) (p slot : Nat) (hb : 0 < blocks) (hb2 : blocks ≤ LONG_MAX)
    (hl : 0 < length) (hl2 : length ≤ LONG_MAX) :
    at_calloc blocks length filename function line p slot t =
      (do
        at_list_add (new_addr t.mem slot) AT_LIST_TYPE_HEAP
        let it ← load (new_addr t.mem slot)
        pure it.pointer)
      (with_new_item t AT_LIST_TYPE_HEAP slot
        (malloc_item t (blocks * length % WORD) filename function line p)) := by
  unfold at_calloc
  have h1 := valid_size hb hb2
  have h2 := valid_size hl hl2
  have hc : ¬ (blocks % WORD = 0 ∨ length % WORD = 0 ∨ toLong blocks < 0 ∨ toLong length < 0) := by
    intro h
    rcases h with h | h | h | h
    · exact h1 (Or.inl h)
    · exact h2 (Or.inl h)
    · exact h1 (Or.inr h)
    · exact h2 (Or.inr h)
  rw [if_neg hc]
  by_cases hp : p = 0 <;>
    simp [at_heap_list_item_new, alloc_item_apply, store_apply, load_apply, peek_place_new,
      place_set, malloc_item, item_blank, with_new_item, hp]

/-- C22: `at_calloc` returns `NULL`, prints the diagnostic and adds nothing when
`blocks` or `length` is zero or negative as a `long`. For every other pair, on an
intact heap ledger, it returns what `calloc` returned and appends exactly one
entry: with the product `blocks * length` as its size when `calloc` succeeded (a
block that exists has at most `LONG_MAX` bytes), with the sentinel -1 when it
failed. The header length and `alloc_no` grow by one and the recorded size is
added to `alloc_amount` as a `size_t`: `alloc_amount` grows by the product when
`calloc` succeeded and the sum fits. -/
theorem at_calloc_contract (t : Tracker) (blocks length : Nat)
    (filename function : Option String) (line : Int) (p slot : Nat)
    (hb : blocks < WORD) (hl : length < WORD)
    (hint : intact t AT_LIST_TYPE_HEAP = true) (hsv : stats_valid t = true)
    (hlen : at_list_length t AT_LIST_TYPE_HEAP + 1 < WORD)
    (hno : t.stats.alloc_no + 1 < WORD)
    (hfit : p ≠ 0 → blocks * length ≤ LONG_MAX) :
    (blocks = 0 ∨ LONG_MAX < blocks ∨ length = 0 ∨ LONG_MAX < length →
      at_calloc blocks length filename function line p slot t =
        .ok 0 { t with trace := t.trace ++
          [.diag_invalid_request (toLong (ofLong (toLong blocks * toLong length)))] }) ∧
    (0 < blocks ∧ blocks ≤ LONG_MAX ∧ 0 < length ∧ length ≤ LONG_MAX →
      ∃ L a it t', entries t AT_LIST_TYPE_HEAP = some L ∧
        at_calloc blocks length filename function line p slot t = .ok p t' ∧
        entries t' AT_LIST_TYPE_HEAP = some (L ++ [a]) ∧ a ∉ L ∧
        peek t'.mem a = .ok it ∧ it.pointer = p ∧
        it.size = (if p ≠ 0 then ((blocks * length : Nat) : Int) else -1) ∧
        it.filename = filename ∧ it.function = function ∧ it.line = line ∧
        it.id = t.heap_id_counter ∧
        at_list_length t' AT_LIST_TYPE_HEAP = at_list_length t AT_LIST_TYPE_HEAP + 1 ∧
        t'.stats.alloc_no = t.stats.alloc_no + 1 ∧
        t'.stats.alloc_amount = waddLong t.stats.alloc_amount it.size ∧
        (p ≠ 0 → t.stats.alloc_amount + blocks * length < WORD →
          t'.stats.alloc_amount = t.stats.alloc_amount + blocks * length) ∧
        intact t' AT_LIST_TYPE_HEAP = true ∧
        (∀ x ∈ L, ∀ itx, peek t.mem x = .ok itx →
          ∃ itx', peek t'.mem x = .ok itx' ∧ itx' = { itx with next := itx'.next }) ∧
        t'.file_list = t.file_list) := by
  have hW : WORD = 18446744073709551616 := by norm_num [WORD]
  have hM : LONG_MAX = 9223372036854775807 := by norm_num [LONG_MAX]
  constructor
  · intro hinv
    have hc : blocks % WORD = 0 ∨ length % WORD = 0 ∨ toLong blocks < 0 ∨ toLong length < 0 := by
      unfold toLong
      rw [Nat.mod_eq_of_lt hb, Nat.mod_eq_of_lt hl]
      rcases hinv with h | h | h | h
      · exact Or.inl h
      · right; right; left
        rw [if_neg (by omega)]
        omega
      · exact Or.inr (Or.inl h)
      · right; right; right
        rw [if_neg (by omega)]
        omega
    simp [at_calloc, hc]
  · rintro ⟨hb1, hb2, hl1, hl2⟩
    obtain ⟨L, it, t', hL, h1, h2, hfresh, h3, h3', h4, h5, h6, h7, h8, _⟩ :=
      at_list_add_new_item t AT_LIST_TYPE_HEAP slot
        (malloc_item t (blocks * length % WORD) filename function line p) rfl hint hsv hlen
    have hptr : it.pointer = p := by rw [h3']; rfl
    have hsize : it.size = (if p ≠ 0 then ((blocks * length : Nat) : Int) else -1) := by
      rw [h3']
      simp only [malloc_item]
      by_cases hp : p = 0
      · simp [hp]
      · have hf := hfit hp
        have hm : blocks * length % WORD = blocks * length :=
          Nat.mod_eq_of_lt (by rw [hW]; omega)
        simp only [hp, ne_eq, not_false_eq_true, if_true]
        rw [hm, toLong_of_le_LONG_MAX hf]
    have hsz0 : (malloc_item t (blocks * length % WORD) filename function line p).size
        = it.size := by rw [h3']
    have ham : t'.stats.alloc_amount = waddLong t.stats.alloc_amount it.size := by
      rw [h5, ← hsz0]
      rfl
    refine ⟨L, new_addr t.mem slot, it, t', hL, ?_, h2, hfresh, h3, hptr, hsize, ?_, ?_, ?_, ?_,
      h4, ?_, ham, ?_, h6, h7, ?_⟩
    · rw [at_calloc_valid t blocks length filename function line p slot hb1 hb2 hl1 hl2]
      simp only [bind_apply]
      rw [h1]
      simp [load_apply, h3, hptr]
    · rw [h3']; rfl
    · rw [h3']; rfl
    · rw [h3']; rfl
    · rw [h3']; rfl
    · rw [h5]
      simp only [count_aquire]
      exact wadd_one hno
    · intro hp hsum
      rw [ham, hsize, if_pos hp]
      exact waddLong_nat _ _ hsum
    · exact h8 AT_LIST_TYPE_FILE (by decide)

theorem at_calloc_contract_witness :
    ∃ L a it t', entries Tracker.fresh AT_LIST_TYPE_HEAP = some L ∧
      at_calloc 4 1 (some "a.c") (some "f") 10 4096 0 Tracker.fresh = .ok 4096 t' ∧
      entries t' AT_LIST_TYPE_HEAP = some (L ++ [a]) ∧ a ∉ L ∧
      peek t'.mem a = .ok it ∧ it.pointer = 4096 ∧
      it.size = (if 4096 ≠ 0 then ((4 * 1 : Nat) : Int) else -1) ∧
      it.filename = some "a.c" ∧ it.function = some "f" ∧ it.line = 10 ∧
      it.id = Tracker.fresh.heap_id_counter ∧
      at_list_length t' AT_LIST_TYPE_HEAP = at_list_length Tracker.fresh AT_LIST_TYPE_HEAP + 1 ∧
      t'.stats.alloc_no = Tracker.fresh.stats.alloc_no + 1 ∧
      t'.stats.alloc_amount = waddLong Tracker.fresh.stats.alloc_amount it.size ∧
      (4096 ≠ 0 → Tracker.fresh.stats.alloc_amount + 4 * 1 < WORD →
        t'.stats.alloc_amount = Tracker.fresh.stats.alloc_amount + 4 * 1) ∧
      intact t' AT_LIST_TYPE_HEAP = true ∧
      (∀ x ∈ L, ∀ itx, peek Tracker.fresh.mem x = .ok itx →
        ∃ itx', peek t'.mem x = .ok itx' ∧ itx' = { itx with next := itx'.next }) ∧
      t'.file_list = Tracker.fresh.file_list :=
  (at_calloc_contract Tracker.fresh 4 1 (some "a.c") (some "f") 10 4096 0 (by decide) (by decide)
    (by decide!) (by decide!) (by decide!) (by decide!) (fun _ => by decide)).2
    ⟨by decide, by decide, by decide, by decide⟩

/-! ## Removal and insertion after a removal -/

/-- C23: releasing the head twice in a row (`fifo_release_calls`) ends in a use
after free: the first removal leaves the `prev` link of the new head pointing at
the freed item, and the second removal writes `prev->next` through it and does
not move `first`. When the block of the freed item has been taken by a new entry
(`head_reuse_calls`, an intact ledger with the walk 2, 3, 1 in which the lookup of
`p2` finds the head 2), `at_list_remove(p2)` runs without a fault and takes the
length from 3 to 2, but `first` still points at the freed item: the lookups of
`p2`, of `p3` and of `p4` read freed memory, and the walk from `first` does not
reach an entry. -/
theorem head_removal_leaves_first_dangling :
    (run_ops fifo_release_calls Tracker.fresh).fault? = some .use_after_free ∧
    (run_ops head_reuse_calls Tracker.fresh).fault? = none ∧
    intact (run_ops head_reuse_calls Tracker.fresh).state AT_LIST_TYPE_HEAP = true ∧
    entries (run_ops head_reuse_calls Tracker.fresh).state AT_LIST_TYPE_HEAP = some [2, 3, 1] ∧
    (lookup (run_ops head_reuse_calls Tracker.fresh).state AT_LIST_TYPE_HEAP 8192).toOption =
      some 2 ∧
    (at_list_remove AT_LIST_TYPE_HEAP 8192
      (run_ops head_reuse_calls Tracker.fresh).state).fault? = none ∧
    at_list_length (at_list_remove AT_LIST_TYPE_HEAP 8192
      (run_ops head_reuse_calls Tracker.fresh).state).state AT_LIST_TYPE_HEAP = 2 ∧
    (at_list_remove AT_LIST_TYPE_HEAP 8192
      (run_ops head_reuse_calls Tracker.fresh).state).state.heap_list =
        some ⟨2, 2, 1, AT_LIST_TYPE_HEAP⟩ ∧
    (at_list_remove AT_LIST_TYPE_HEAP 8192
      (run_ops head_reuse_calls Tracker.fresh).state).state.mem[1]? = some none ∧
    (at_list_get AT_LIST_TYPE_HEAP 8192 (at_list_remove AT_LIST_TYPE_HEAP 8192
      (run_ops head_reuse_calls Tracker.fresh).state).state).fault? = some .use_after_free ∧
    (at_list_get AT_LIST_TYPE_HEAP 12288 (at_list_remove AT_LIST_TYPE_HEAP 8192
      (run_ops head_reuse_calls Tracker.fresh).state).state).fault? = some .use_after_free ∧
    (at_list_get AT_LIST_TYPE_HEAP 16384 (at_list_remove AT_LIST_TYPE_HEAP 8192
      (run_ops head_reuse_calls Tracker.fresh).state).state).fault? = some .use_after_free ∧
    entries (at_list_remove AT_LIST_TYPE_HEAP 8192
      (run_ops head_reuse_calls Tracker.fresh).state).state AT_LIST_TYPE_HEAP = none := by
  decide!

/-- C24: after `p1 = malloc(8); p2 = malloc(8); free(p2)` the header still names
the freed item as `last`. The next `at_list_add` (in `at_malloc`) links the new
item behind it: when the new item has a block of its own the write
`last->next = item` goes to the freed item; when it has the block of the freed
item the run goes on, the length is 2, and the new item (at address 2, for the
block `p3`) is not on the walk from `first`, so `at_list_get(p3)` finds
nothing. -/
theorem add_after_tail_removal_is_not_reached :
    (run_ops (tail_release_calls 0) Tracker.fresh).fault? = some .use_after_free ∧
    (run_ops (tail_release_calls 2) Tracker.fresh).fault? = none ∧
    at_list_length (run_ops (tail_release_calls 2) Tracker.fresh).state AT_LIST_TYPE_HEAP = 2 ∧
    (run_ops (tail_release_calls 2) Tracker.fresh).state.mem[1]? =
      some (some ⟨2, 2, 2, some "a.c", some "f", 13, 12288, 8, 0, none, none⟩) ∧
    entries (run_ops (tail_release_calls 2) Tracker.fresh).state AT_LIST_TYPE_HEAP = some [1] ∧
    (lookup (run_ops (tail_release_calls 2) Tracker.fresh).state AT_LIST_TYPE_HEAP
      12288).toOption = some 0 := by
  decide!

/-- C25: after `mixed_kind_calls`, which runs without a fault, the walk over the
file ledger goes from the item of the third file (file id 2) to the item of the
third block (heap id 2): the heap header still named the freed item as `last`
when its block was taken by the file item, and `at_list_add` linked the new heap
item behind it. The ids on the walk over the file ledger are 2, 2, and the header
of the file ledger counts one entry. -/
theorem ids_repeat_on_file_walk :
    (run_ops mixed_kind_calls Tracker.fresh).fault? = none ∧
    entries (run_ops mixed_kind_calls Tracker.fresh).state AT_LIST_TYPE_FILE = some [4, 5] ∧
    entry_ids (run_ops mixed_kind_calls Tracker.fresh).state AT_LIST_TYPE_FILE = some [2, 2] ∧
    (run_ops mixed_kind_calls Tracker.fresh).state.mem[3]? =
      some (some ⟨2, 0, 5, some "a.c", some "f", 3, 0, 0, 9, some "c", some "w"⟩) ∧
    (run_ops mixed_kind_calls Tracker.fresh).state.mem[4]? =
      some (some ⟨2, 4, 0, some "a.c", some "f", 12, 12288, 8, 0, none, none⟩) ∧
    at_list_length (run_ops mixed_kind_calls Tracker.fresh).state AT_LIST_TYPE_FILE = 1 ∧
    entries (run_ops mixed_kind_calls Tracker.fresh).state AT_LIST_TYPE_HEAP = some [3] ∧
    at_list_length (run_ops mixed_kind_calls Tracker.fresh).state AT_LIST_TYPE_HEAP = 2 := by
  decide!

end AllocTracker
